import Mathlib

/-!
# Simple C code generator (phase 6): register pool, operand model, frame builder

A shallow embedding of `generator.cpp`.  The mutable C++ objects become an explicit
`State` record that every operation takes and returns:

* `Register::_node` and `Expression::_register` (the two back-references) are the
  maps `regNode` and `nodeReg`;
* `Expression::_offset` is the map `nodeOffset`;
* the file-level statics `offset`, `func_name`, `return_label`, `strings`, `registers`
  are fields of the same name;
* `cout` is the field `out`, the list of chunks written so far, in order.

A pointer to an expression is modelled by a `Node`: the identity of the object (`id`)
together with the facts a holder of the pointer reads through it (type size, and which
`operand` override applies).  A null pointer is `none`.  Dereferencing a null pointer
and indexing an empty vector make the enclosing operation return `none`.

Frame offsets (`int`) and type sizes (`unsigned`) are modelled as unbounded integers
and naturals: the embedding covers the runs in which they stay inside the machine
range, which is where C++ gives the arithmetic below its mathematical meaning.
-/

namespace SimpleC

/-! ## Machine description (`machine.h`) -/

/-- Modelled from the spec: `machine.h` is absent.  The two strings that decorate a
global symbol are opaque configuration. -/
structure Machine where
  global_prefix : String
  global_suffix : String

/-- Modelled from the spec: the stack alignment of the target (`machine.h` is absent),
16 bytes on the 64-bit platforms the generator is written for. -/
def STACK_ALIGNMENT : Int := 16

/-- Modelled from the spec: size of a register in bytes (`machine.h` is absent). -/
def SIZEOF_REG : Int := 8

/-- Modelled from the spec: size of a stack parameter in bytes (`machine.h` is absent). -/
def SIZEOF_PARAM : Nat := 8

/-- Modelled from the spec: size of a `long` in bytes (`machine.h` is absent). -/
def SIZEOF_LONG : Nat := 8

/-- Modelled from the spec: number of argument registers of the calling convention
(`machine.h` is absent); `parameters` below has this many entries. -/
def NUM_PARAM_REGS : Nat := 6

/-- Modelled from the spec: the first parameter lies just above the return address and
the saved base pointer, 8 bytes each (`machine.h` is absent). -/
def PARAM_OFFSET : Int := 16

/-! ## Registers (`Register.h` and the statics of `generator.cpp`) -/

/-- The fourteen `static Register*` objects of the generator. -/
inductive Register where
  | rax | rbx | rcx | rdx | rsi | rdi
  | r8 | r9 | r10 | r11 | r12 | r13 | r14 | r15
  deriving DecidableEq, Repr

namespace Register

/-- First constructor argument of `new Register(...)`. -/
def as_qword : Register → String
  | rax => "%rax" | rbx => "%rbx" | rcx => "%rcx" | rdx => "%rdx"
  | rsi => "%rsi" | rdi => "%rdi" | r8 => "%r8" | r9 => "%r9"
  | r10 => "%r10" | r11 => "%r11" | r12 => "%r12" | r13 => "%r13"
  | r14 => "%r14" | r15 => "%r15"

/-- Second constructor argument of `new Register(...)`. -/
def as_lword : Register → String
  | rax => "%eax" | rbx => "%ebx" | rcx => "%ecx" | rdx => "%edx"
  | rsi => "%esi" | rdi => "%edi" | r8 => "%r8d" | r9 => "%r9d"
  | r10 => "%r10d" | r11 => "%r11d" | r12 => "%r12d" | r13 => "%r13d"
  | r14 => "%r14d" | r15 => "%r15d"

/-- Third constructor argument of `new Register(...)`. -/
def as_byte : Register → String
  | rax => "%al" | rbx => "%bl" | rcx => "%cl" | rdx => "%dl"
  | rsi => "%sil" | rdi => "%dil" | r8 => "%r8b" | r9 => "%r9b"
  | r10 => "%r10b" | r11 => "%r11b" | r12 => "%r12b" | r13 => "%r13b"
  | r14 => "%r14b" | r15 => "%r15b"

/-- Modelled from the spec: `Register::name(size)` (`Register.h` is absent) is the name
of the register at the width that matches a 1-, 4- or 8-byte operand; `name()` is
`name 0`, the full register. -/
def name (r : Register) (size : Nat) : String :=
  if size = 1 then r.as_byte else if size = 4 then r.as_lword else r.as_qword

end Register

open Register in
/-- The vector `parameters`. -/
def parameters : List Register := [rdi, rsi, rdx, rcx, r8, r9]

open Register in
/-- The vector `caller_saved`. -/
def caller_saved : List Register := [r11, r10, r9, r8, rcx, rdx, rsi, rdi, rax]

/-- The vector `callee_saved`; `CALLEE_SAVED` is 0, so it is empty. -/
def callee_saved : List Register := []

/-! ## Expression nodes as seen through a pointer -/

/-- Which `operand` override a node has. -/
inductive Kind where
  | Number (value : Nat)
  | Identifier (name : String) (symbolOffset : Int)
  | String (value : String)
  | Other
  deriving DecidableEq, Repr

/-- An `Expression*`: the object's identity and what is read through the pointer. -/
structure Node where
  id : Nat
  size : Nat
  kind : Kind
  deriving DecidableEq, Repr

/-! ## Generator state -/

structure State where
  offset : Int
  func_name : String
  return_label : Nat
  strings : List String
  labels : Nat
  registers : List Register
  regNode : Register → Option Node
  nodeReg : Node → Option Register
  nodeOffset : Node → Int
  out : List String

/-- Write one chunk to `cout`. -/
def emit (text : String) (s : State) : State :=
  { s with out := s.out ++ [text] }

/-- Modelled from the spec: `Label.h` is absent.  Constructing a `Label` takes the next
number of a global counter. -/
def newLabel (s : State) : Nat × State :=
  (s.labels, { s with labels := s.labels + 1 })

/-- Modelled from the spec: `Label.h` is absent.  A label is written as `.L<number>`. -/
def labelText (l : Nat) : String := ".L" ++ toString l

/-! ## `align` and `suffix` -/

/-- The function `align`: C++ `%` on `int` truncates towards zero. -/
def align (offset : Int) : Int :=
  if offset.tmod STACK_ALIGNMENT = 0 then 0
  else STACK_ALIGNMENT - (Int.ofNat offset.natAbs).tmod STACK_ALIGNMENT

/-- The function `suffix(unsigned long size)`. -/
def suffix (size : Nat) : String :=
  if size = 1 then "b\t" else if size = 4 then "l\t" else "q\t"

/-- The value `Function::generate` defines for `<name>.size`: it runs
`offset -= align(offset - param_offset)` and prints `-offset`. -/
def frameSize (param_offset offset : Int) : Int :=
  -(offset - align (offset - param_offset))

/-- The value of `param_offset` in `Function::generate`. -/
def paramOffset : Int := PARAM_OFFSET + SIZEOF_REG * callee_saved.length

/-! ## Operand model -/

/-- The virtual function `operand`: `Expression::operand`, `Identifier::operand`,
`Number::operand` and `String::operand`.  Returns the text written and the state,
which only `String::operand` changes. -/
def operand (m : Machine) (n : Node) (s : State) : String × State :=
  match n.kind with
  | .Number value => ("$" ++ toString value, s)
  | .Identifier name symbolOffset =>
      if symbolOffset = 0 then ( m.global_prefix ++ name ++ m.global_suffix, s)
      else (toString symbolOffset ++ "(%rbp)", s)
  | .String value =>
      let (label, s1) := newLabel s
      (labelText label ++ m.global_suffix,
        { s1 with strings := s1.strings ++
            [labelText label ++ ":\n\t.string " ++ value ++ "\n"] })
  | .Other => (toString (s.nodeOffset n) ++ "(%rbp)", s)

/-- The function `operator <<` on an `Expression*`. -/
def write (m : Machine) (n : Node) (s : State) : String × State :=
  match s.nodeReg n with
  | some reg => (reg.name n.size, s)
  | none => operand m n s

/-! ## Register pool -/

/-- The assignment `reg->_node = node`. -/
def State.setNode (s : State) (reg : Register) (node : Option Node) : State :=
  { s with regNode := fun r => if r = reg then node else s.regNode r }

/-- The assignment `expr->_register = reg`. -/
def State.setRegister (s : State) (expr : Node) (reg : Option Register) : State :=
  { s with nodeReg := fun n => if n = expr then reg else s.nodeReg n }

/-- The statement `if (reg != nullptr) reg->_node = nullptr;`. -/
def clearNode (reg : Option Register) (s : State) : State :=
  match reg with
  | some r => s.setNode r none
  | none => s

/-- The statement `if (node != nullptr) node->_register = nullptr;`. -/
def clearRegister (node : Option Node) (s : State) : State :=
  match node with
  | some n => s.setRegister n none
  | none => s

/-- The function `assign`. -/
def assign (expr : Option Node) (reg : Option Register) (s : State) : State :=
  let s : State :=
    match expr with
    | some e => (clearNode (s.nodeReg e) s).setRegister e reg
    | none => s
  match reg with
  | some r => (clearRegister (s.regNode r) s).setNode r expr
  | none => s

/-- The spill inside `load`: the occupant of `reg` gets a fresh frame slot and is
stored there. -/
def spill (reg : Register) (occupant : Node) (s : State) : State :=
  let size := occupant.size
  let offset := s.offset - size
  emit ("\tmov" ++ suffix occupant.size ++ reg.name size ++ ", " ++
      toString offset ++ "(%rbp)\n")
    { s with offset := offset,
             nodeOffset := fun n => if n = occupant then offset else s.nodeOffset n }

/-- The function `load`. -/
def load (m : Machine) (expr : Option Node) (reg : Register) (s : State) : State :=
  if s.regNode reg ≠ expr then
    let s1 : State :=
      match s.regNode reg with
      | some occupant => spill reg occupant s
      | none => s
    let s2 : State :=
      match expr with
      | some e =>
          let (text, s') := write m e s1
          emit ("\tmov" ++ suffix e.size ++ text ++ ", " ++ reg.name e.size ++ "\n") s'
      | none => s1
    assign expr (some reg) s2
  else s

/-- The function `get_reg`.  On an empty pool `registers[0]` does not exist. -/
def get_reg (m : Machine) (s : State) : Option (Register × State) :=
  match s.registers.find? (fun r => (s.regNode r).isNone) with
  | some r => some (r, s)
  | none =>
      match s.registers with
      | r0 :: _ => some (r0, load m none r0 s)
      | [] => none

/-- The recurring statement `if (e->_register == nullptr) load(e, get_reg());`. -/
def ensureRegister (m : Machine) (n : Node) (s : State) : Option State :=
  if s.nodeReg n = none then
    match get_reg m s with
    | some (reg, s1) => some (load m (some n) reg s1)
    | none => none
  else some s

/-! ## The tree handed over by the front end -/

/-- What the generator reads of a node besides its children: its identity, its type
(`type().size()`, `type().indirection()`) and the flag `_hasCall`. -/
structure Info where
  id : Nat
  size : Nat
  indirection : Nat
  hasCall : Bool
  deriving DecidableEq, Repr

/-- The pointer to a node that has no `operand` override of its own. -/
def Info.node (i : Info) : Node := ⟨i.id, i.size, .Other⟩

/-- The classes with a left and a right operand. -/
inductive BinaryOp where
  | Add | Subtract | Multiply | Divide | Remainder
  | LessThan | GreaterThan | LessOrEqual | GreaterOrEqual | Equal | NotEqual
  | LogicalOr | LogicalAnd
  deriving DecidableEq, Repr

/-- The classes with one operand. -/
inductive UnaryOp where
  | Cast | Address | Dereference | Negate | Not | Field
  deriving DecidableEq, Repr

mutual
/-- Expression trees.  `Call` carries the callee's name and whether its declared type
has no parameter list (`_id->type().parameters() == nullptr`). -/
inductive Expr where
  | Number (info : Info) (value : Nat)
  | Identifier (info : Info) (name : String) (symbolOffset : Int)
  | String (info : Info) (value : String)
  | Call (info : Info) (name : String) (noParameters : Bool) (args : Args)
  | Binary (op : BinaryOp) (info : Info) (left right : Expr)
  | Unary (op : UnaryOp) (info : Info) (expr : Expr)
/-- The vector `_args` of a call. -/
inductive Args where
  | nil
  | cons (head : Expr) (tail : Args)
end

namespace Expr

def info : Expr → Info
  | Number i _ => i
  | Identifier i _ _ => i
  | String i _ => i
  | Call i _ _ _ => i
  | Binary _ i _ _ => i
  | Unary _ i _ => i

/-- The pointer to the root of an expression. -/
def node : Expr → Node
  | Number i value => ⟨i.id, i.size, .Number value⟩
  | Identifier i name symbolOffset => ⟨i.id, i.size, .Identifier name symbolOffset⟩
  | String i value => ⟨i.id, i.size, .String value⟩
  | Call i _ _ _ => i.node
  | Binary _ i _ _ => i.node
  | Unary _ i _ => i.node

/-- The test `isNumber(value)`. -/
def isNumber : Expr → Bool
  | Number _ _ => true
  | _ => false

end Expr

/-- Number of arguments, `_args.size()`. -/
def Args.size : Args → Nat
  | .nil => 0
  | .cons _ tail => tail.size + 1

/-! ## Expression emitters -/

/-- The common body of `Add::generate`, `Subtract::generate` and `Multiply::generate`
after both operands have been generated; `sized` is the operand whose size selects the
opcode suffix (`_left` for `add` and `sub`, `_right` for `imul`). -/
def arithmetic (m : Machine) (opcode : String) (sized : Node) (this left right : Node)
    (s : State) : Option State := do
  let s ← ensureRegister m left s
  let (rightText, s) := write m right s
  let (leftText, s) := write m left s
  let s := emit (opcode ++ suffix sized.size ++ rightText ++ ", " ++ leftText ++ "\n") s
  let s := assign (some right) none s
  pure (assign (some this) (s.nodeReg left) s)

/-- The common body of `Divide::generate` and `Remainder::generate` after both operands
have been generated; `result` is `rax` for the quotient and `rdx` for the remainder. -/
def division (m : Machine) (result : Register) (this left right : Node)
    (s : State) : State :=
  let s := load m (some left) Register.rax s
  let s := emit "\tcltd\n" s
  let (rightText, s) := write m right s
  let s := emit ("\tidiv" ++ suffix right.size ++ rightText ++ "\n") s
  assign (some this) (some result) s

/-- The part of `Call::generate` that pushes one stack argument. -/
def pushArgument (m : Machine) (arg : Expr) (s : State) : State :=
  match s.nodeReg arg.node with
  | some reg => emit ("\tpushq\t" ++ reg.name 0 ++ "\n") s
  | none =>
      if arg.isNumber || arg.info.size = SIZEOF_PARAM then
        let (text, s) := write m arg.node s
        emit ("\tpushq\t" ++ text ++ "\n") s
      else
        let s := load m (some arg.node) Register.rax s
        emit "\tpushq\t%rax\n" s

/-- The loop of `Call::generate` that spills the caller-saved registers. -/
def spillCallerSaved (m : Machine) (s : State) : State :=
  caller_saved.foldl (fun s reg => load m none reg s) s

mutual
/-- The virtual function `generate` on expressions.  Modelled from the spec:
`Expression::generate`, which the classes without an override of their own inherit
(`Number`, `Identifier`, `String`, the relational and the logical operators), is absent;
it leaves the value where it is and writes nothing to `cout`. -/
def Expr.generate (m : Machine) : Expr → State → Option State
  | .Number _ _, s => some s
  | .Identifier _ _ _, s => some s
  | .String _ _, s => some s
  | .Call i name noParameters args, s => do
      let s := emit "# === call\n" s
      let s ← args.generateCalls m s
      let padding : Nat :=
        if args.size > NUM_PARAM_REGS then
          (align (((args.size - NUM_PARAM_REGS) * SIZEOF_PARAM : Nat) : Int)).toNat
        else 0
      let s := if padding > 0 then emit ("\tsubq\t$" ++ toString padding ++ ", %rsp\n") s
               else s
      let (s, bytesPushed) ← args.marshal m 0 (s, padding)
      let s := spillCallerSaved m s
      let s := if noParameters then emit "\tmovl\t$0, %eax\n" s else s
      let s := emit ("\tcall\t" ++ m.global_prefix ++ name ++ "\n") s
      let s := if bytesPushed > 0 then
                 emit ("\taddq\t$" ++ toString bytesPushed ++ ", %rsp\n") s
               else s
      let s := assign (some i.node) (some Register.rax) s
      pure (emit "# --- call\n" s)
  | .Binary .Add i l r, s => do
      let s ← l.generate m s
      let s ← r.generate m s
      arithmetic m "\tadd" l.node i.node l.node r.node s
  | .Binary .Subtract i l r, s => do
      let s ← l.generate m s
      let s ← r.generate m s
      arithmetic m "\tsub" l.node i.node l.node r.node s
  | .Binary .Multiply i l r, s => do
      let s ← l.generate m s
      let s ← r.generate m s
      arithmetic m "\timul" r.node i.node l.node r.node s
  | .Binary .Divide i l r, s => do
      let s ← l.generate m s
      let s ← r.generate m s
      pure (division m Register.rax i.node l.node r.node s)
  | .Binary .Remainder i l r, s => do
      let s ← l.generate m s
      let s ← r.generate m s
      pure (division m Register.rdx i.node l.node r.node s)
  | .Binary _ _ _ _, s => some s
  | .Unary .Cast i e, s => do
      let s := emit "# === cast\n" s
      let s ← e.generate m s
      let s ← ensureRegister m e.node s
      let s ←
        if i.size ≤ e.info.size then
          pure (assign (some i.node) (s.nodeReg e.node) s)
        else do
          let reg ← s.nodeReg e.node
          let (text, s) := write m e.node s
          let s := emit ("\tmovslq\t" ++ text ++ ", " ++ reg.as_qword ++ "\n") s
          let s := assign (some i.node) (s.nodeReg e.node) s
          pure (assign (some e.node) none s)
      pure (emit "# --- cast\n" s)
  | .Unary .Address i e, s => do
      let s := emit "# === addr\n" s
      let s ← e.generate m s
      let s ←
        if e.info.indirection = 0 then do
          let s ←
            if s.nodeReg e.node = none then do
              let (text, s) := write m e.node s
              let s := emit ("\tleaq\t" ++ text ++ ", ") s
              let (reg, s) ← get_reg m s
              let s := assign (some e.node) (some reg) s
              let reg ← s.nodeReg e.node
              pure (emit (reg.as_qword ++ "\n") s)
            else do
              let reg ← s.nodeReg e.node
              pure (emit ("\tleaq\t(" ++ reg.as_qword ++ "), " ++ reg.as_qword ++ "\n") s)
          let s := assign (some i.node) (s.nodeReg e.node) s
          pure (assign (some e.node) none s)
        else pure s
      pure (emit "# --- addr\n" s)
  | .Unary .Dereference i e, s => do
      let s := emit "# === deref\n" s
      let s ← e.generate m s
      let s ← ensureRegister m e.node s
      let (inner, s) := write m e.node s
      let (target, s) := write m e.node s
      let s := emit ("\tmov" ++ suffix e.info.size ++ "(" ++ inner ++ "), " ++ target ++ "\n") s
      let s := assign (some i.node) (s.nodeReg e.node) s
      let s := assign (some e.node) none s
      pure (emit "# --- deref\n" s)
  | .Unary .Negate i e, s => do
      let s ← e.generate m s
      let s ← ensureRegister m e.node s
      let (text, s) := write m e.node s
      let s := emit ("\tneg" ++ suffix e.info.size ++ text ++ "\n") s
      let s := assign (some i.node) (s.nodeReg e.node) s
      pure (assign (some e.node) none s)
  | .Unary .Not i e, s => do
      let s ← e.generate m s
      let s ← ensureRegister m e.node s
      let (text, s) := write m e.node s
      let s := emit ("\tcmp" ++ suffix e.info.size ++ "\t$0, " ++ text ++ "\n") s
      let reg ← s.nodeReg e.node
      let s := emit ("\tsete\t" ++ reg.as_byte ++ "\n") s
      let reg ← s.nodeReg e.node
      let (text, s) := write m e.node s
      let s := emit ("\tmovzbl\t" ++ reg.as_byte ++ ", " ++ text ++ "\n") s
      let s := assign (some i.node) (s.nodeReg e.node) s
      pure (assign (some e.node) none s)
  | .Unary .Field _ _, s => some s
/-- First loop of `Call::generate`: from the last argument to the first, generate the
arguments flagged `_hasCall`. -/
def Args.generateCalls (m : Machine) : Args → State → Option State
  | .nil, s => some s
  | .cons head tail, s => do
      let s ← tail.generateCalls m s
      if head.info.hasCall then head.generate m s else pure s
/-- Second loop of `Call::generate`: from the last argument to the first, generate the
argument if that is still to do, then load it into its parameter register or push it;
`i` is the index of the first argument of the list and the number carried along is
`bytesPushed`. -/
def Args.marshal (m : Machine) (i : Nat) : Args → State × Nat → Option (State × Nat)
  | .nil, acc => some acc
  | .cons head tail, acc => do
      let (s, bytesPushed) ← tail.marshal m (i + 1) acc
      let s ← if !head.info.hasCall then head.generate m s else pure s
      if i < NUM_PARAM_REGS then do
        let reg ← parameters.get? i
        let s := load m (some head.node) reg s
        pure (assign (some head.node) none s, bytesPushed)
      else
        let s := pushArgument m head s
        pure (assign (some head.node) none s, bytesPushed + SIZEOF_PARAM)
end

/-- The function `Expression::generate_indirect` and its override
`Dereference::generate_indirect`; the flag returned is the reference parameter
`indirect`. -/
def Expr.generate_indirect (m : Machine) : Expr → State → Option (Bool × State)
  | .Unary .Dereference i e, s => do
      let s := emit "# === * deref\n" s
      let s ← e.generate m s
      let s ←
        if e.info.indirection > 0 then do
          let s ← ensureRegister m e.node s
          pure (assign (some i.node) (s.nodeReg e.node) s)
        else pure s
      let s := assign (some e.node) none s
      pure (true, emit "# --- * deref\n" s)
  | e, s => do
      let s ← e.generate m s
      pure (false, s)

/-! ## The test protocol -/

/-- The function `Expression::test`, for the classes without an override. -/
def expressionTest (m : Machine) (e : Expr) (label : Nat) (ifTrue : Bool)
    (s : State) : Option State := do
  let s ← e.generate m s
  let s ← ensureRegister m e.node s
  let (text, s) := write m e.node s
  let s := emit ("\tcmp" ++ suffix e.info.size ++ "$0, " ++ text ++ "\n") s
  let s := emit ((if ifTrue then "\tjne\t" else "\tje\t") ++ labelText label ++ "\n") s
  pure (assign (some e.node) none s)

/-- The common body of the six relational `test` functions; `jumpTrue` and `jumpFalse`
are the two opcodes of the class. -/
def relationalTest (m : Machine) (jumpTrue jumpFalse : String) (l r : Expr)
    (label : Nat) (onTrue : Bool) (s : State) : Option State := do
  let s ← l.generate m s
  let s ← r.generate m s
  let s ← ensureRegister m l.node s
  let (rightText, s) := write m r.node s
  let (leftText, s) := write m l.node s
  let s := emit ("\tcmp" ++ suffix l.info.size ++ rightText ++ ", " ++ leftText ++ "\n") s
  let s := emit ((if onTrue then jumpTrue else jumpFalse) ++ labelText label ++ "\n") s
  let s := assign (some l.node) none s
  pure (assign (some r.node) none s)

/-- The virtual function `test`. -/
def Expr.test (m : Machine) : Expr → Nat → Bool → State → Option State
  | .Binary .LessThan _ l r, label, onTrue, s =>
      relationalTest m "\tjl\t" "\tjge\t" l r label onTrue s
  | .Binary .GreaterThan _ l r, label, onTrue, s =>
      relationalTest m "\tjg\t" "\tjle\t" l r label onTrue s
  | .Binary .LessOrEqual _ l r, label, onTrue, s =>
      relationalTest m "\tjle\t" "\tjg\t" l r label onTrue s
  | .Binary .GreaterOrEqual _ l r, label, onTrue, s =>
      relationalTest m "\tjge\t" "\tjl\t" l r label onTrue s
  | .Binary .Equal _ l r, label, onTrue, s => do
      let s := emit "# ~~~ eql\n" s
      let s ← relationalTest m "\tje\t" "\tjne\t" l r label onTrue s
      pure (emit "# ~~~ eql\n" s)
  | .Binary .NotEqual _ l r, label, onTrue, s =>
      relationalTest m "\tjne\t" "\tje\t" l r label onTrue s
  | .Binary .LogicalOr _ l r, label, _, s => do
      let s := emit "# === or\n" s
      let (skip, s) := newLabel s
      let s ← l.test m skip true s
      let s ← r.test m label false s
      let s := emit (labelText skip ++ ":\n") s
      let s := emit "\tmovl\t$1, %eax\n" s
      pure (emit "# --- or\n" s)
  | .Binary .LogicalAnd _ l r, label, _, s => do
      let s := emit "# === and\n" s
      let s ← l.test m label false s
      let s ← r.test m label false s
      pure (emit "# --- and\n" s)
  | e, label, ifTrue, s => expressionTest m e label ifTrue s

/-! ## Statement emitters -/

mutual
/-- Statements.  `If` without an else-statement (`_elseStmt == nullptr`) and with one
are two constructors. -/
inductive Statement where
  | Simple (expr : Expr)
  | Block (stmts : Statements)
  | Return (expr : Expr)
  | While (expr : Expr) (stmt : Statement)
  | If (expr : Expr) (thenStmt : Statement)
  | IfElse (expr : Expr) (thenStmt elseStmt : Statement)
  | Assignment (left right : Expr)
/-- The vector `_stmts` of a block. -/
inductive Statements where
  | nil
  | cons (head : Statement) (tail : Statements)
end

mutual
/-- The virtual function `generate` on statements. -/
def Statement.generate (m : Machine) : Statement → State → Option State
  | .Simple e, s => do
      let s ← e.generate m s
      pure (assign (some e.node) none s)
  | .Block stmts, s => stmts.generate m s
  | .Return e, s => do
      let s := emit "# === retn\n" s
      let s ← e.generate m s
      let (text, s) := write m e.node s
      let s := emit ("\tmov" ++ suffix e.info.size ++ text ++ ", " ++
        (if e.info.size = SIZEOF_LONG then Register.rax.as_qword
         else Register.rax.as_lword) ++ "\n") s
      let s := emit ("\tjmp\t" ++ labelText s.return_label ++ "\n") s
      pure (emit "# --- retn\n" s)
  | .While e stmt, s => do
      let s := emit "# === whil\n" s
      let (loop, s) := newLabel s
      let (exit, s) := newLabel s
      let s := emit (labelText loop ++ ":\n") s
      let s ← e.test m exit false s
      let s ← stmt.generate m s
      let s := emit ("\tjmp\t" ++ labelText loop ++ "\n") s
      let s := emit (labelText exit ++ ":\n") s
      pure (emit "# --- whil\n" s)
  | .If e thenStmt, s => do
      let s := emit "# === if\n" s
      let (skip, s) := newLabel s
      let (_, s) := newLabel s
      let s ← e.test m skip true s
      let s ← thenStmt.generate m s
      let s := emit (labelText skip ++ ":\n") s
      pure (emit "# --- if\n" s)
  | .IfElse e thenStmt elseStmt, s => do
      let s := emit "# === if\n" s
      let (skip, s) := newLabel s
      let (exit, s) := newLabel s
      let s ← e.test m skip true s
      let s ← thenStmt.generate m s
      let s := emit ("\tjmp\t" ++ labelText exit ++ "\n") s
      let s := emit (labelText skip ++ ":\n") s
      let s ← elseStmt.generate m s
      let s := emit (labelText exit ++ ":\n") s
      pure (emit "# --- if\n" s)
  | .Assignment l r, s => do
      let s := emit "# === asgn\n" s
      let (indirect, s) ← l.generate_indirect m s
      let s ← r.generate m s
      let s ← ensureRegister m r.node s
      let s ←
        if indirect then do
          let s ← ensureRegister m l.node s
          let (text, s) := write m r.node s
          let reg ← s.nodeReg l.node
          pure (emit ("\tmov" ++ suffix r.info.size ++ text ++ ", (" ++
            reg.as_qword ++ ")\n") s)
        else do
          let (rightText, s) := write m r.node s
          let (leftText, s) := write m l.node s
          pure (emit ("\tmov" ++ suffix r.info.size ++ rightText ++ ", " ++
            leftText ++ "\n") s)
      let s := assign (some l.node) none s
      let s := assign (some r.node) none s
      pure (emit "# --- asgn\n" s)
/-- The loop of `Block::generate`. -/
def Statements.generate (m : Machine) : Statements → State → Option State
  | .nil, s => some s
  | .cons head tail, s => do
      let s ← head.generate m s
      tail.generate m s
end


/-! ## Frame builder -/

/-- What `Function::generate` reads of a symbol of the function's scope. -/
structure Symbol where
  name : String
  size : Nat
  offset : Int

/-- A function definition.  `params` is `params->size()`, `symbols` the symbols of the
body's scope (parameters first).  The member function `allocate` is absent: `allocate`
here is the function it computes on the offset counter passed to it by reference (the
symbol offsets it assigns are already part of the tree). -/
structure Function where
  name : String
  params : Nat
  symbols : List Symbol
  hasCall : Bool
  allocate : Int → Int
  body : Statement

/-- The loop of `Function::generate` that stores the register parameters into their
frame slots. -/
def storeParameters (f : Function) (s : State) : Option State :=
  (List.range NUM_PARAM_REGS).foldlM
    (fun s i =>
      if i < f.params then do
        let symbol ← f.symbols.get? i
        let reg ← parameters.get? i
        pure (emit ("\tmov" ++ suffix symbol.size ++ reg.name symbol.size ++ ", " ++
          toString symbol.offset ++ "(%rbp)\n") s)
      else pure s)
    s

/-- The first half of `Function::generate`, up to the point where the body is
generated: prologue, parameter stores, choice of the register pool. -/
def Function.prologue (m : Machine) (f : Function) (s : State) : Option State := do
  let (label, s) := newLabel s
  let s := { s with return_label := label }
  let s := { s with offset := f.allocate paramOffset }
  let s := { s with func_name := f.name }
  let s := emit ( m.global_prefix ++ s.func_name ++ ":\n") s
  let s := emit "\tpushq\t%rbp\n" s
  let s := callee_saved.foldl (fun s reg => emit ("\tpushq\t" ++ reg.name 0 ++ "\n") s) s
  let s := emit "\tmovq\t%rsp, %rbp\n" s
  let s := emit ("\tmovl\t$" ++ s.func_name ++ ".size, %eax\n") s
  let s := emit "\tsubq\t%rax, %rsp\n" s
  let s ← storeParameters f s
  pure { s with registers :=
    if f.hasCall && callee_saved.length != 0 then callee_saved else caller_saved }

/-- The second half of `Function::generate`, after the body: epilogue and the
definition of `<name>.size`. -/
def Function.epilogue (m : Machine) (s : State) : State :=
  let s := emit (labelText s.return_label ++ ":\n") s
  let s := emit ("\n" ++ m.global_prefix ++ s.func_name ++ ".exit:\n") s
  let s := emit "\tmovq\t%rbp, %rsp\n" s
  let s := callee_saved.reverse.foldl
    (fun s reg => emit ("\tpopq\t" ++ reg.name 0 ++ "\n") s) s
  let s := emit "\tpopq\t%rbp\n" s
  let s := emit "\tret\n\n" s
  let s := { s with offset := s.offset - align (s.offset - paramOffset) }
  let s := emit ("\t.set\t" ++ s.func_name ++ ".size, " ++ toString (-s.offset) ++ "\n") s
  let s := emit ("\t.globl\t" ++ m.global_prefix ++ s.func_name ++ "\n") s
  emit ("\t.type\t" ++ m.global_prefix ++ s.func_name ++ ", @function\n\n") s

/-- The function `Function::generate`. -/
def Function.generate (m : Machine) (f : Function) (s : State) : Option State := do
  let s ← f.prologue m s
  let s ← f.body.generate m s
  pure (Function.epilogue m s)

/-- The state `load` hands to `assign`: after the spill and the move. -/
def loadMoves (m : Machine) (expr : Option Node) (reg : Register) (s : State) : State :=
  let s1 : State :=
    match s.regNode reg with
    | some occupant => spill reg occupant s
    | none => s
  match expr with
  | some e =>
      emit ("\tmov" ++ suffix e.size ++ (write m e s1).1 ++ ", " ++ reg.name e.size ++ "\n")
        (write m e s1).2
  | none => s1

/-- The register bijection: `reg._node = e` exactly when `e._register = reg`. -/
def Bijection (s : State) : Prop :=
  ∀ (r : Register) (n : Node), s.regNode r = some n ↔ s.nodeReg n = some r

/-! ## A reading of the emitted text as x86-64 instructions

To say what emitted code computes, the chunks written to `cout` are read back as
instructions: `Instr.text` is the chunk an instruction stands for, and `run` executes a
list of instructions.  Only what the theorems below need is covered: register and
immediate operands of 4 and 8 bytes, the two-operand arithmetic the generator emits,
`cmp` with the signed conditional jumps, and labels. -/

namespace X86

inductive Operand where
  | reg (r : Register)
  | imm (value : Nat)
  deriving DecidableEq, Repr

inductive Cond where
  | l | ge | g | le | e | ne
  deriving DecidableEq, Repr

inductive Instr where
  | comment (text : String)
  | label (l : Nat)
  | mov (size : Nat) (src dst : Operand)
  | add (size : Nat) (src dst : Operand)
  | sub (size : Nat) (src dst : Operand)
  | imul (size : Nat) (src dst : Operand)
  | cmp (size : Nat) (src dst : Operand)
  | jmp (target : Nat)
  | jcc (cond : Cond) (target : Nat)
  deriving DecidableEq, Repr

def Operand.text (size : Nat) : Operand → String
  | .reg r => r.name size
  | .imm value => "$" ++ toString value

def Cond.text : Cond → String
  | .l => "\tjl\t" | .ge => "\tjge\t" | .g => "\tjg\t"
  | .le => "\tjle\t" | .e => "\tje\t" | .ne => "\tjne\t"

/-- The chunk of assembly text an instruction stands for. -/
def Instr.text : Instr → String
  | .comment text => text
  | .label l => labelText l ++ ":\n"
  | .mov size src dst => "\tmov" ++ suffix size ++ src.text size ++ ", " ++ dst.text size ++ "\n"
  | .add size src dst => "\tadd" ++ suffix size ++ src.text size ++ ", " ++ dst.text size ++ "\n"
  | .sub size src dst => "\tsub" ++ suffix size ++ src.text size ++ ", " ++ dst.text size ++ "\n"
  | .imul size src dst =>
      "\timul" ++ suffix size ++ src.text size ++ ", " ++ dst.text size ++ "\n"
  | .cmp size src dst => "\tcmp" ++ suffix size ++ src.text size ++ ", " ++ dst.text size ++ "\n"
  | .jmp target => "\tjmp\t" ++ labelText target ++ "\n"
  | .jcc cond target => cond.text ++ labelText target ++ "\n"

/-- The processor state: the 64-bit contents of the registers, and the two operands of
the last `cmp` as signed numbers (destination first), which is what the signed
conditional jumps depend on. -/
structure Cpu where
  regs : Register → Nat
  compared : Int × Int

/-- Number of values of an operand of `size` bytes. -/
def modulus (size : Nat) : Nat := 2 ^ (8 * size)

/-- The value of an operand read at `size` bytes. -/
def Cpu.read (cpu : Cpu) (size : Nat) : Operand → Nat
  | .reg r => cpu.regs r % modulus size
  | .imm value => value % modulus size

/-- The signed reading of a `size`-byte value. -/
def signed (size : Nat) (value : Nat) : Int :=
  if value < modulus size / 2 then (value : Int) else (value : Int) - (modulus size : Int)

/-- Write a 4- or 8-byte result to a register; a 4-byte write clears the upper half. -/
def Cpu.write (cpu : Cpu) (size : Nat) (dst : Operand) (value : Nat) : Option Cpu :=
  match dst with
  | .reg r =>
      if size = 4 ∨ size = 8 then
        some { cpu with regs := fun r' => if r' = r then value % modulus size else cpu.regs r' }
      else none
  | .imm _ => none

def Cond.holds (cpu : Cpu) : Cond → Bool
  | .l => decide (cpu.compared.1 < cpu.compared.2)
  | .ge => decide (cpu.compared.1 ≥ cpu.compared.2)
  | .g => decide (cpu.compared.1 > cpu.compared.2)
  | .le => decide (cpu.compared.1 ≤ cpu.compared.2)
  | .e => decide (cpu.compared.1 = cpu.compared.2)
  | .ne => decide (cpu.compared.1 ≠ cpu.compared.2)

/-- How a run ends: control leaves the instruction list through a jump to a label that
is not defined in it (`some label`), or runs off its end (`none`). -/
abbrev Exit := Option Nat

/-- Execute `program` from position `pc` for at most `fuel` steps.  `none` means that
the fuel ran out or that an instruction outside the covered fragment was met. -/
def run (program : List Instr) : Nat → Nat → Cpu → Option (Exit × Cpu)
  | 0, _, _ => none
  | fuel + 1, pc, cpu =>
      match program.get? pc with
      | none => some (none, cpu)
      | some (.comment _) => run program fuel (pc + 1) cpu
      | some (.label _) => run program fuel (pc + 1) cpu
      | some (.mov size src dst) =>
          match cpu.write size dst (cpu.read size src) with
          | some cpu' => run program fuel (pc + 1) cpu'
          | none => none
      | some (.add size src dst) =>
          match cpu.write size dst (cpu.read size dst + cpu.read size src) with
          | some cpu' => run program fuel (pc + 1) cpu'
          | none => none
      | some (.sub size src dst) =>
          match cpu.write size dst (cpu.read size dst + modulus size - cpu.read size src) with
          | some cpu' => run program fuel (pc + 1) cpu'
          | none => none
      | some (.imul size src dst) =>
          match cpu.write size dst (cpu.read size dst * cpu.read size src) with
          | some cpu' => run program fuel (pc + 1) cpu'
          | none => none
      | some (.cmp size src dst) =>
          run program fuel (pc + 1)
            { cpu with compared :=
                (signed size (cpu.read size dst), signed size (cpu.read size src)) }
      | some (.jmp target) =>
          if program.indexOf (.label target) < program.length then
            run program fuel (program.indexOf (.label target)) cpu
          else some (some target, cpu)
      | some (.jcc cond target) =>
          if cond.holds cpu then
            if program.indexOf (.label target) < program.length then
              run program fuel (program.indexOf (.label target)) cpu
            else some (some target, cpu)
          else run program fuel (pc + 1) cpu

/-- The contents of `%eax`. -/
def Cpu.eax (cpu : Cpu) : Nat := cpu.regs Register.rax % modulus 4

end X86

/-- The instructions emitted for `return 2 + 3 * 4;` from `freshState`. -/
def returnFourteenCode : List X86.Instr :=
  [ .comment "# === retn\n",
    .mov 4 (.imm 3) (.reg .r11),
    .imul 4 (.imm 4) (.reg .r11),
    .mov 4 (.imm 2) (.reg .r10),
    .add 4 (.reg .r11) (.reg .r10),
    .mov 4 (.reg .r10) (.reg .rax),
    .jmp 0,
    .comment "# --- retn\n" ]

/-- The statement `if (1 < 2) return 1; else return 0;` over 4-byte integers. -/
def ifOneLessThanTwo : Statement :=
  .IfElse
    (.Binary .LessThan ⟨0, 4, 0, false⟩ (.Number ⟨1, 4, 0, false⟩ 1)
      (.Number ⟨2, 4, 0, false⟩ 2))
    (.Return (.Number ⟨3, 4, 0, false⟩ 1))
    (.Return (.Number ⟨4, 4, 0, false⟩ 0))

/-- The instructions emitted for `if (1 < 2) return 1; else return 0;` from
`freshState`. -/
def ifOneLessThanTwoCode : List X86.Instr :=
  [ .comment "# === if\n",
    .mov 4 (.imm 1) (.reg .r11),
    .cmp 4 (.imm 2) (.reg .r11),
    .jcc .l 1,
    .comment "# === retn\n",
    .mov 4 (.imm 1) (.reg .rax),
    .jmp 0,
    .comment "# --- retn\n",
    .jmp 2,
    .label 1,
    .comment "# === retn\n",
    .mov 4 (.imm 0) (.reg .rax),
    .jmp 0,
    .comment "# --- retn\n",
    .label 2,
    .comment "# --- if\n" ]

/-- No register is shared by two nodes and no node sits in two registers. -/
def Exclusive (s : State) : Prop :=
  (∀ (n n' : Node) (r : Register), s.nodeReg n = some r → s.nodeReg n' = some r → n = n') ∧
  (∀ (r r' : Register) (n : Node), s.regNode r = some n → s.regNode r' = some n → r = r')

/-! ## Relations between states used in the proofs -/

/-- The part of the state that `assign` never touches. -/
structure SameFrame (s s' : State) : Prop where
  offset : s'.offset = s.offset
  func_name : s'.func_name = s.func_name
  return_label : s'.return_label = s.return_label
  strings : s'.strings = s.strings
  labels : s'.labels = s.labels
  registers : s'.registers = s.registers
  nodeOffset : s'.nodeOffset = s.nodeOffset
  out : s'.out = s.out

/-- What writing an operand leaves alone: everything but the label counter and the
string pool. -/
structure SamePool (s s' : State) : Prop where
  offset : s'.offset = s.offset
  func_name : s'.func_name = s.func_name
  return_label : s'.return_label = s.return_label
  registers : s'.registers = s.registers
  regNode : s'.regNode = s.regNode
  nodeReg : s'.nodeReg = s.nodeReg
  nodeOffset : s'.nodeOffset = s.nodeOffset
  out : s'.out = s.out
  labels : s.labels ≤ s'.labels

/-- The relation between the state before and after a piece of generation: the pool is
the same, the offset counter has not gone up, the bijection is kept, output is only
appended, labels are only added, and the function's name and return label stay. -/
structure Progress (s s' : State) : Prop where
  registers : s'.registers = s.registers
  offset : s'.offset ≤ s.offset
  bijection : Bijection s → Bijection s'
  out : s.out <+: s'.out
  labels : s.labels ≤ s'.labels
  return_label : s'.return_label = s.return_label
  func_name : s'.func_name = s.func_name

/-- A partial emitter runs: on a non-empty pool it returns, and makes progress. -/
def Runs (f : State → Option State) : Prop :=
  ∀ s, s.registers ≠ [] → ∃ s', f s = some s' ∧ Progress s s'

/-! ## Sample inputs -/

/-- A machine description without symbol decoration. -/
def plainMachine : Machine := ⟨"", ""⟩

/-- The state in which the body of a function starts when no register is occupied:
the pool is `caller_saved`, no node has a register, label 0 is the return label. -/
def freshState : State :=
  { offset := 0, func_name := "f", return_label := 0, strings := [], labels := 1,
    registers := caller_saved, regNode := fun _ => none, nodeReg := fun _ => none,
    nodeOffset := fun _ => 0, out := [] }

/-- A 4-byte temporary. -/
def tempA : Node := ⟨1, 4, .Other⟩

/-- An 8-byte temporary. -/
def tempB : Node := ⟨2, 8, .Other⟩

/-- A state whose pool has the two registers `r11` and `r10`, both occupied. -/
def fullState : State :=
  { offset := -8, func_name := "f", return_label := 0, strings := [], labels := 1,
    registers := [Register.r11, Register.r10],
    regNode := fun r => if r = Register.r11 then some tempA
                        else if r = Register.r10 then some tempB else none,
    nodeReg := fun n => if n = tempA then some Register.r11
                        else if n = tempB then some Register.r10 else none,
    nodeOffset := fun _ => 0, out := [] }

/-- The expression `2 + 3 * 4` over 4-byte integers; the ids are the nodes' identities. -/
def twoPlusThreeTimesFour : Expr :=
  .Binary .Add ⟨0, 4, 0, false⟩
    (.Number ⟨1, 4, 0, false⟩ 2)
    (.Binary .Multiply ⟨2, 4, 0, false⟩
      (.Number ⟨3, 4, 0, false⟩ 3)
      (.Number ⟨4, 4, 0, false⟩ 4))

/-- The expression `8 % (1 + 1)` over 4-byte integers. -/
def eightModTwo : Expr :=
  .Binary .Remainder ⟨0, 4, 0, false⟩
    (.Number ⟨1, 4, 0, false⟩ 8)
    (.Binary .Add ⟨2, 4, 0, false⟩
      (.Number ⟨3, 4, 0, false⟩ 1)
      (.Number ⟨4, 4, 0, false⟩ 1))

/-- A function `f` without parameters, with 4 bytes of locals, whose body is
`return 2 + 3 * 4;`. -/
def sampleFunction : Function :=
  { name := "f", params := 0, symbols := [], hasCall := false,
    allocate := fun _ => -4, body := .Return twoPlusThreeTimesFour }

/-- The comparison `a < b` of two 4-byte numbers; the three nodes take the ids `id`,
`id + 1` and `id + 2`. -/
def lessThan (id a b : Nat) : Expr :=
  .Binary .LessThan ⟨id, 4, 0, false⟩ (.Number ⟨id + 1, 4, 0, false⟩ a)
    (.Number ⟨id + 2, 4, 0, false⟩ b)

/-- The expression `(1 < 2) && (1 < 2)`, whose value is true. -/
def bothTrue : Expr :=
  .Binary .LogicalAnd ⟨0, 4, 0, false⟩ (lessThan 1 1 2) (lessThan 4 1 2)

/-- The instructions emitted for `bothTrue` by `test(.L7, true)` as well as by
`test(.L7, false)`, from `freshState`. -/
def bothTrueCode : List X86.Instr :=
  [ .comment "# === and\n",
    .mov 4 (.imm 1) (.reg .r11),
    .cmp 4 (.imm 2) (.reg .r11),
    .jcc .ge 7,
    .mov 4 (.imm 1) (.reg .r11),
    .cmp 4 (.imm 2) (.reg .r11),
    .jcc .ge 7,
    .comment "# --- and\n" ]

/-- The expression `(1 < 2) || (1 < 2)`, whose value is true. -/
def eitherTrue : Expr :=
  .Binary .LogicalOr ⟨0, 4, 0, false⟩ (lessThan 1 1 2) (lessThan 4 1 2)

/-- The instructions emitted for `eitherTrue` by `test(.L7, true)` as well as by
`test(.L7, false)`, from `freshState`. -/
def eitherTrueCode : List X86.Instr :=
  [ .comment "# === or\n",
    .mov 4 (.imm 1) (.reg .r11),
    .cmp 4 (.imm 2) (.reg .r11),
    .jcc .l 1,
    .mov 4 (.imm 1) (.reg .r11),
    .cmp 4 (.imm 2) (.reg .r11),
    .jcc .ge 7,
    .label 1,
    .mov 4 (.imm 1) (.reg .rax),
    .comment "# --- or\n" ]

/-- The expression `((1 < 2) && (1 < 2)) || (3 < 4)`: the left operand of `||` is
true. -/
def trueOrElse : Expr :=
  .Binary .LogicalOr ⟨10, 4, 0, false⟩ bothTrue (lessThan 11 3 4)

/-- The instructions emitted for `trueOrElse` by `test(.L7, false)` from `freshState`. -/
def trueOrElseCode : List X86.Instr :=
  [ .comment "# === or\n",
    .comment "# === and\n",
    .mov 4 (.imm 1) (.reg .r11),
    .cmp 4 (.imm 2) (.reg .r11),
    .jcc .ge 1,
    .mov 4 (.imm 1) (.reg .r11),
    .cmp 4 (.imm 2) (.reg .r11),
    .jcc .ge 1,
    .comment "# --- and\n",
    .mov 4 (.imm 3) (.reg .r11),
    .cmp 4 (.imm 4) (.reg .r11),
    .jcc .ge 7,
    .label 1,
    .mov 4 (.imm 1) (.reg .rax),
    .comment "# --- or\n" ]

/-- The cast `(int) 5` of a 4-byte number to a 4-byte type. -/
def castOfNumber : Expr :=
  .Unary .Cast ⟨0, 4, 0, false⟩ (.Number ⟨1, 4, 0, false⟩ 5)

/-- The function `int f(int a, int b) { return a + b; }`: both parameters arrive in
registers and are given the slots -4 and -8. -/
def sumFunction : Function :=
  { name := "f", params := 2,
    symbols := [⟨"a", 4, -4⟩, ⟨"b", 4, -8⟩],
    hasCall := false,
    allocate := fun _ => -8,
    body := .Return (.Binary .Add ⟨0, 4, 0, false⟩
      (.Identifier ⟨1, 4, 0, false⟩ "a" (-4)) (.Identifier ⟨2, 4, 0, false⟩ "b" (-8))) }

/-- The function `int g() { return 0; }`. -/
def zeroFunction : Function :=
  { name := "g", params := 0, symbols := [], hasCall := false,
    allocate := fun _ => 0, body := .Return (.Number ⟨0, 4, 0, false⟩ 0) }

/-- The state before any function has been generated: the pool is still empty and
no register has an occupant. -/
def startState : State :=
  { offset := 0, func_name := "", return_label := 0, strings := [], labels := 0,
    registers := [], regNode := fun _ => none, nodeReg := fun _ => none,
    nodeOffset := fun _ => 0, out := [] }

/-! ## The parts of `Call::generate` -/

/-- The arguments of a call as a list, first argument first. -/
def Args.toList : Args → List Expr
  | .nil => []
  | .cons head tail => head :: tail.toList

/-- The initial value of `bytesPushed` in `Call::generate` for `n` arguments: the
padding `align((n - NUM_PARAM_REGS) * SIZEOF_PARAM)` when there are stack arguments. -/
def callPadding (n : Nat) : Nat :=
  if n > NUM_PARAM_REGS then
    (align (((n - NUM_PARAM_REGS) * SIZEOF_PARAM : Nat) : Int)).toNat
  else 0

/-- The statement of `Call::generate` that reserves the padding. -/
def callReserve (padding : Nat) (s : State) : State :=
  if padding > 0 then emit ("\tsubq\t$" ++ toString padding ++ ", %rsp\n") s else s

/-- The part of `Call::generate` between the flush of the caller-saved registers and
the end: the call instruction, the stack adjustment and the binding of the result. -/
def callFinish (m : Machine) (i : Info) (name : String) (noParameters : Bool)
    (bytesPushed : Nat) (s : State) : State :=
  let s := if noParameters then emit "\tmovl\t$0, %eax\n" s else s
  let s := emit ("\tcall\t" ++ m.global_prefix ++ name ++ "\n") s
  let s := if bytesPushed > 0 then
             emit ("\taddq\t$" ++ toString bytesPushed ++ ", %rsp\n") s
           else s
  let s := assign (some i.node) (some Register.rax) s
  emit "# --- call\n" s

/-! ## The argument protocol of a call, as the specification words it -/

/-- One step of the protocol: an argument is evaluated, or it is placed (loaded into a
parameter register, or pushed) and released. -/
inductive CallStep where
  | evaluate (arg : Expr)
  | toRegister (arg : Expr) (reg : Register)
  | toStack (arg : Expr)

/-- The effect of one step on the state and on the count of bytes pushed. -/
def CallStep.run (m : Machine) : CallStep → State × Nat → Option (State × Nat)
  | .evaluate arg, (s, bytes) => (arg.generate m s).map fun s' => (s', bytes)
  | .toRegister arg reg, (s, bytes) =>
      some (assign (some arg.node) none (load m (some arg.node) reg s), bytes)
  | .toStack arg, (s, bytes) =>
      some (assign (some arg.node) none (pushArgument m arg s), bytes + SIZEOF_PARAM)

/-- The parameter register of the argument of index `i < NUM_PARAM_REGS`:
`rdi`, `rsi`, `rdx`, `rcx`, `r8`, `r9` in that order. -/
def parameterRegister : Nat → Register
  | 0 => .rdi
  | 1 => .rsi
  | 2 => .rdx
  | 3 => .rcx
  | 4 => .r8
  | _ => .r9

/-- The store `load` emits when it spills the occupant `n` of `reg` to `offset`. -/
def spillText (reg : Register) (n : Node) (offset : Int) : String :=
  "\tmov" ++ suffix n.size ++ reg.name n.size ++ ", " ++ toString offset ++ "(%rbp)\n"

/-- The call `f(1, 2, 3, 4, 5, 6, 7)`: one argument more than there are parameter
registers. -/
def sevenArgumentCall : Expr :=
  .Call ⟨0, 4, 0, false⟩ "f" false
    (.cons (.Number ⟨1, 4, 0, false⟩ 1) (.cons (.Number ⟨2, 4, 0, false⟩ 2)
    (.cons (.Number ⟨3, 4, 0, false⟩ 3) (.cons (.Number ⟨4, 4, 0, false⟩ 4)
    (.cons (.Number ⟨5, 4, 0, false⟩ 5) (.cons (.Number ⟨6, 4, 0, false⟩ 6)
    (.cons (.Number ⟨7, 4, 0, false⟩ 7) .nil)))))))

/-! ## A call whose arguments are marshalled while two values are held -/

/-- The expression `1 + 2` over 4-byte integers. -/
def onePlusTwo : Expr :=
  .Binary .Add ⟨1, 4, 0, false⟩ (.Number ⟨2, 4, 0, false⟩ 1) (.Number ⟨3, 4, 0, false⟩ 2)

/-- The expression `3 + 4` over 4-byte integers. -/
def threePlusFour : Expr :=
  .Binary .Add ⟨5, 4, 0, false⟩ (.Number ⟨15, 4, 0, false⟩ 3) (.Number ⟨16, 4, 0, false⟩ 4)

/-- The call `f(10, 20, 30, 40, 7 + 8, 60)`; no argument contains a call. -/
def sixArgumentCall : Expr :=
  .Call ⟨6, 4, 0, true⟩ "f" false
    (.cons (.Number ⟨7, 4, 0, false⟩ 10) (.cons (.Number ⟨8, 4, 0, false⟩ 20)
    (.cons (.Number ⟨9, 4, 0, false⟩ 30) (.cons (.Number ⟨10, 4, 0, false⟩ 40)
    (.cons (.Binary .Add ⟨11, 4, 0, false⟩ (.Number ⟨12, 4, 0, false⟩ 7)
        (.Number ⟨13, 4, 0, false⟩ 8))
    (.cons (.Number ⟨14, 4, 0, false⟩ 60) .nil))))))

/-- The expression `(1 + 2) + ((3 + 4) + f(10, 20, 30, 40, 7 + 8, 60))`: the two sums
are held in `r11` and `r10` when the call is generated. -/
def sumsAroundCall : Expr :=
  .Binary .Add ⟨0, 4, 0, true⟩ onePlusTwo
    (.Binary .Add ⟨4, 4, 0, true⟩ threePlusFour sixArgumentCall)

/-- The instructions the second loop of `Call::generate` emits for `sixArgumentCall`
inside `sumsAroundCall`. -/
def sixArgumentCode : List X86.Instr :=
  [ .mov 4 (.imm 60) (.reg .r9),
    .mov 4 (.imm 7) (.reg .r9),
    .add 4 (.imm 8) (.reg .r9),
    .mov 4 (.reg .r9) (.reg .r8),
    .mov 4 (.imm 40) (.reg .rcx),
    .mov 4 (.imm 30) (.reg .rdx),
    .mov 4 (.imm 20) (.reg .rsi),
    .mov 4 (.imm 10) (.reg .rdi) ]

/-! ## A store through a pointer under register pressure -/

/-- The statement `return 1 + 1;` over 4-byte integers; the three nodes take the ids
`id`, `id + 1` and `id + 2`. -/
def returnOnePlusOne (id : Nat) : Statement :=
  .Return (.Binary .Add ⟨id, 4, 0, false⟩ (.Number ⟨id + 1, 4, 0, false⟩ 1)
    (.Number ⟨id + 2, 4, 0, false⟩ 1))

/-- Nine statements `return 1 + 1;` in a row. -/
def nineReturns : Statements :=
  .cons (returnOnePlusOne 10) (.cons (returnOnePlusOne 20) (.cons (returnOnePlusOne 30)
  (.cons (returnOnePlusOne 40) (.cons (returnOnePlusOne 50) (.cons (returnOnePlusOne 60)
  (.cons (returnOnePlusOne 70) (.cons (returnOnePlusOne 80) (.cons (returnOnePlusOne 90)
  .nil))))))))

/-- The left side `*p` of a store, `p` a pointer to a 4-byte integer at `-8(%rbp)`. -/
def starP : Expr :=
  .Unary .Dereference ⟨1, 4, 0, false⟩ (.Identifier ⟨2, 8, 1, false⟩ "p" (-8))

/-- The right side `2 + 3` over 4-byte integers. -/
def twoPlusThree : Expr :=
  .Binary .Add ⟨3, 4, 0, false⟩ (.Number ⟨4, 4, 0, false⟩ 2) (.Number ⟨5, 4, 0, false⟩ 3)

/-- The state in which the body of a function with one 8-byte local starts. -/
def bodyState : State := { freshState with offset := -8 }

/-! ## The jumps of the relational tests -/

/-- The conditional jump of a relational or equality `test`, as the specification words
it: `jl`, `jg`, `jle`, `jge`, `je`, `jne` for polarity true and the negated jump
`jge`, `jle`, `jg`, `jl`, `jne`, `je` for polarity false. -/
def relationalJump : BinaryOp → Bool → Option X86.Cond
  | .LessThan, true => some .l
  | .GreaterThan, true => some .g
  | .LessOrEqual, true => some .le
  | .GreaterOrEqual, true => some .ge
  | .Equal, true => some .e
  | .NotEqual, true => some .ne
  | .LessThan, false => some .ge
  | .GreaterThan, false => some .le
  | .LessOrEqual, false => some .g
  | .GreaterOrEqual, false => some .l
  | .Equal, false => some .ne
  | .NotEqual, false => some .e
  | _, _ => none

/-! ## A named variable left in a register -/

/-- The 4-byte local variable `x` at `-4(%rbp)`. -/
def localX : Expr := .Identifier ⟨1, 4, 0, false⟩ "x" (-4)

/-- The 4-byte local variable `y` at `-8(%rbp)`. -/
def localY : Expr := .Identifier ⟨2, 4, 0, false⟩ "y" (-8)

/-- The expression statement `x % y;`. -/
def xModY : Statement := .Simple (.Binary .Remainder ⟨0, 4, 0, false⟩ localX localY)

/-! ## A division while six sums are held -/

/-- The expression `1 + 1` over 4-byte integers; the three nodes take the ids `id`,
`id + 1` and `id + 2`. -/
def onePlusOne (id : Nat) : Expr :=
  .Binary .Add ⟨id, 4, 0, false⟩ (.Number ⟨id + 1, 4, 0, false⟩ 1)
    (.Number ⟨id + 2, 4, 0, false⟩ 1)

/-- The left operands of the six enclosing sums of `underSixSums`, outermost first. -/
def sixSums : List Expr :=
  [onePlusOne 10, onePlusOne 20, onePlusOne 30, onePlusOne 40, onePlusOne 50, onePlusOne 60]

/-- The expression
`(1+1) + ((1+1) + ((1+1) + ((1+1) + ((1+1) + ((1+1) + (x op y))))))` for `op` one of
`/` and `%`: when `x op y` is generated the six sums are held in `r11`, `r10`, `r9`,
`r8`, `rcx` and `rdx`. -/
def underSixSums (op : BinaryOp) : Expr :=
  .Binary .Add ⟨100, 4, 0, false⟩ (onePlusOne 10)
    (.Binary .Add ⟨101, 4, 0, false⟩ (onePlusOne 20)
      (.Binary .Add ⟨102, 4, 0, false⟩ (onePlusOne 30)
        (.Binary .Add ⟨103, 4, 0, false⟩ (onePlusOne 40)
          (.Binary .Add ⟨104, 4, 0, false⟩ (onePlusOne 50)
            (.Binary .Add ⟨105, 4, 0, false⟩ (onePlusOne 60)
              (.Binary op ⟨106, 4, 0, false⟩ localX localY))))))

/-! ## The recursive-descent parser of phase 2 -/

namespace Parser

/-- Modelled from the spec: `tokens.h` is absent.  The token kinds `parser.cpp` compares
the lookahead with: the named constants, the single characters it matches, and `other`
for any further token the lexer returns.  The named constants are taken to be distinct
from one another and from the characters. -/
inductive Token where
  | DONE | INT | LONG | STRUCT | SIZEOF | NUM | ID
  | OR | AND | EQL | NEQ | LEQ | GEQ
  | less | greater | plus | minus | star | slash | percent | bang | ampersand
  | leftParen | rightParen | leftBracket | rightBracket | dot
  | other (code : Nat)
  deriving DecidableEq, Repr

/-- What the parser reads and writes: the tokens not yet consumed, the first of which
is the lookahead, and the lines written by `print`. -/
structure Input where
  tokens : List Token
  printed : List String
  deriving DecidableEq, Repr

/-- The variable `lookahead`.  Modelled from the spec: the lexer is absent; `lexan`
returns the next token of the input, and `DONE` once the input is exhausted. -/
def lookahead (st : Input) : Token := st.tokens.headD .DONE

/-- The assignment `lookahead = lexan(buffer)`. -/
def advance (st : Input) : Input := { st with tokens := st.tokens.tail }

/-- How a call ends: in `error`, which calls `exit(EXIT_FAILURE)`, or by returning. -/
inductive Outcome where
  | fatal
  | returns (st : Input)
  deriving DecidableEq, Repr

/-- Sequencing: what follows a call runs if the call returns; `none` is a call that
ran out of fuel. -/
def andThen (r : Option Outcome) (k : Input → Option Outcome) : Option Outcome :=
  match r with
  | some (.returns st) => k st
  | some .fatal => some .fatal
  | none => none

/-- The function `match`. -/
def matchToken (token : Token) (st : Input) : Option Outcome :=
  if lookahead st = token then some (.returns (advance st)) else some .fatal

/-- The function `print`. -/
def print (output : String) (st : Input) : Input :=
  { st with printed := st.printed ++ [output] }

/-- The function `is_specifier`. -/
def is_specifier (st : Input) : Bool :=
  lookahead st = .INT || lookahead st = .LONG || lookahead st = .STRUCT

/-- The function `general_expression`; the call of `argument_list` is commented out
in the source. -/
def general_expression (st : Input) : Option Outcome :=
  if lookahead st = .NUM then matchToken .NUM st
  else if lookahead st = .ID then
    andThen (matchToken .ID st) fun st =>
      if lookahead st = .leftParen then
        andThen (matchToken .leftParen st) fun st => matchToken .rightParen st
      else some (.returns st)
  else some .fatal

mutual
/-- The function `expression`. -/
def expression : Nat → Input → Option Outcome
  | 0, _ => none
  | fuel + 1, st => andThen (logical_cmp_expression fuel st) (expression_loop fuel)
/-- The `while` loop of `expression`. -/
def expression_loop : Nat → Input → Option Outcome
  | 0, _ => none
  | fuel + 1, st =>
      if lookahead st = .OR then
        andThen (matchToken .OR st) fun st =>
          andThen (logical_cmp_expression fuel st) fun st =>
            expression_loop fuel (print "or" st)
      else some (.returns st)
/-- The function `logical_cmp_expression`. -/
def logical_cmp_expression : Nat → Input → Option Outcome
  | 0, _ => none
  | fuel + 1, st => andThen (equality_expression fuel st) (logical_cmp_expression_loop fuel)
/-- The `while` loop of `logical_cmp_expression`. -/
def logical_cmp_expression_loop : Nat → Input → Option Outcome
  | 0, _ => none
  | fuel + 1, st =>
      if lookahead st = .AND then
        andThen (matchToken .AND st) fun st =>
          andThen (equality_expression fuel st) fun st =>
            logical_cmp_expression_loop fuel (print "and" st)
      else some (.returns st)
/-- The function `equality_expression`. -/
def equality_expression : Nat → Input → Option Outcome
  | 0, _ => none
  | fuel + 1, st => andThen (relation_expression fuel st) (equality_expression_loop fuel)
/-- The `while` loop of `equality_expression`. -/
def equality_expression_loop : Nat → Input → Option Outcome
  | 0, _ => none
  | fuel + 1, st =>
      if lookahead st = .EQL then
        andThen (matchToken .EQL st) fun st =>
          andThen (relation_expression fuel st) fun st =>
            equality_expression_loop fuel (print "eql" st)
      else if lookahead st = .NEQ then
        andThen (matchToken .NEQ st) fun st =>
          andThen (relation_expression fuel st) fun st =>
            equality_expression_loop fuel (print "neq" st)
      else some (.returns st)
/-- The function `relation_expression`. -/
def relation_expression : Nat → Input → Option Outcome
  | 0, _ => none
  | fuel + 1, st => andThen (add_expression fuel st) (relation_expression_loop fuel)
/-- The `while` loop of `relation_expression`. -/
def relation_expression_loop : Nat → Input → Option Outcome
  | 0, _ => none
  | fuel + 1, st =>
      if lookahead st = .LEQ then
        andThen (matchToken .LEQ st) fun st =>
          andThen (add_expression fuel st) fun st =>
            relation_expression_loop fuel (print "leq" st)
      else if lookahead st = .GEQ then
        andThen (matchToken .GEQ st) fun st =>
          andThen (add_expression fuel st) fun st =>
            relation_expression_loop fuel (print "geq" st)
      else if lookahead st = .less then
        andThen (matchToken .less st) fun st =>
          andThen (add_expression fuel st) fun st =>
            relation_expression_loop fuel (print "ltn" st)
      else if lookahead st = .greater then
        andThen (matchToken .greater st) fun st =>
          andThen (add_expression fuel st) fun st =>
            relation_expression_loop fuel (print "gtn" st)
      else some (.returns st)
/-- The function `add_expression`. -/
def add_expression : Nat → Input → Option Outcome
  | 0, _ => none
  | fuel + 1, st => andThen (multiply_expression fuel st) (add_expression_loop fuel)
/-- The `while` loop of `add_expression`. -/
def add_expression_loop : Nat → Input → Option Outcome
  | 0, _ => none
  | fuel + 1, st =>
      if lookahead st = .plus then
        andThen (matchToken .plus st) fun st =>
          andThen (multiply_expression fuel st) fun st =>
            add_expression_loop fuel (print "add" st)
      else if lookahead st = .minus then
        andThen (matchToken .minus st) fun st =>
          andThen (multiply_expression fuel st) fun st =>
            add_expression_loop fuel (print "sub" st)
      else some (.returns st)
/-- The function `multiply_expression`. -/
def multiply_expression : Nat → Input → Option Outcome
  | 0, _ => none
  | fuel + 1, st => andThen (prefix_expression fuel st) (multiply_expression_loop fuel)
/-- The `while` loop of `multiply_expression`. -/
def multiply_expression_loop : Nat → Input → Option Outcome
  | 0, _ => none
  | fuel + 1, st =>
      if lookahead st = .star then
        andThen (matchToken .star st) fun st =>
          andThen (prefix_expression fuel st) fun st =>
            multiply_expression_loop fuel (print "mul" st)
      else if lookahead st = .slash then
        andThen (matchToken .slash st) fun st =>
          andThen (prefix_expression fuel st) fun st =>
            multiply_expression_loop fuel (print "div" st)
      else if lookahead st = .percent then
        andThen (matchToken .percent st) fun st =>
          andThen (prefix_expression fuel st) fun st =>
            multiply_expression_loop fuel (print "rem" st)
      else some (.returns st)
/-- The function `prefix_expression`. -/
def prefix_expression : Nat → Input → Option Outcome
  | 0, _ => none
  | fuel + 1, st =>
      if lookahead st = .bang then
        andThen (matchToken .bang st) fun st =>
          andThen (prefix_expression fuel st) fun st => some (.returns (print "not" st))
      else if lookahead st = .minus then
        andThen (matchToken .minus st) fun st =>
          andThen (post_expression fuel st) fun st => some (.returns (print "neg" st))
      else if lookahead st = .ampersand then
        andThen (matchToken .ampersand st) fun st =>
          andThen (post_expression fuel st) fun st => some (.returns (print "addr" st))
      else if lookahead st = .star then
        andThen (matchToken .star st) fun st =>
          andThen (post_expression fuel st) fun st => some (.returns (print "deref" st))
      else if lookahead st = .SIZEOF then
        andThen (matchToken .SIZEOF st) fun st =>
          andThen
            (if lookahead st = .leftParen then
              andThen (matchToken .leftParen st) fun st =>
                andThen (prefix_expression fuel st) fun st => matchToken .rightParen st
            else some (.returns st))
            fun st => some (.returns (print "sizeof" st))
      else post_expression fuel st
/-- The function `post_expression`. -/
def post_expression : Nat → Input → Option Outcome
  | 0, _ => none
  | fuel + 1, st => andThen (cast_expression fuel st) (post_expression_loop fuel)
/-- The `while` loop of `post_expression`. -/
def post_expression_loop : Nat → Input → Option Outcome
  | 0, _ => none
  | fuel + 1, st =>
      if lookahead st = .leftBracket then
        andThen (matchToken .leftBracket st) fun st =>
          andThen (expression fuel st) fun st =>
            andThen (matchToken .rightBracket st) fun st =>
              post_expression_loop fuel (print "index" st)
      else if lookahead st = .dot then
        andThen (matchToken .dot st) fun st =>
          andThen (matchToken .ID st) fun st =>
            post_expression_loop fuel (print "dot" st)
      else if lookahead st = .minus then
        andThen (matchToken .minus st) fun st =>
          andThen (matchToken .greater st) fun st =>
            andThen (matchToken .ID st) fun st =>
              post_expression_loop fuel (print "arrow" st)
      else some (.returns st)
/-- The function `cast_expression`; the call of `pointers` is commented out in the
source. -/
def cast_expression : Nat → Input → Option Outcome
  | 0, _ => none
  | fuel + 1, st =>
      if lookahead st = .leftParen then
        andThen (matchToken .leftParen st) fun st =>
          if is_specifier st then
            andThen
              (if lookahead st = .INT then matchToken .INT st
               else if lookahead st = .LONG then matchToken .LONG st
               else if lookahead st = .STRUCT then matchToken .STRUCT st
               else some (.returns st))
              fun st =>
                andThen (matchToken .rightParen st) fun st =>
                  andThen (expression fuel st) fun st => some (.returns (print "cast" st))
          else
            andThen (expression fuel st) fun st => matchToken .rightParen st
      else general_expression st
end

/-- The `while` loop of `main`: `expression()` is called until the lookahead is
`DONE`; then `main` returns `EXIT_SUCCESS`. -/
def main_loop : Nat → Input → Option Outcome
  | 0, _ => none
  | fuel + 1, st =>
      if lookahead st ≠ .DONE then andThen (expression fuel st) (main_loop fuel)
      else some (.returns st)

/-- The function `main` on a token stream; nothing has been printed yet. -/
def main (fuel : Nat) (tokens : List Token) : Option Outcome :=
  main_loop fuel ⟨tokens, []⟩

/-- A call that has returned or ended in `error`, and that, if it has returned, has
consumed at least `d` of the `n` tokens it started with. -/
def Consumes (r : Option Outcome) (n d : Nat) : Prop :=
  ∃ o, r = some o ∧ ∀ st', o = .returns st' → st'.tokens.length + d ≤ n

end Parser

namespace Parser

/-- What the proof of termination carries along: with fuel `rank + 10 * n` a call on
`n` remaining tokens has returned or ended in `error`; a returned call of one of the
grammar functions has consumed a token, a returned loop has not produced any. -/
structure Settled (fuel : Nat) : Prop where
  expression : ∀ st : Input, 9 + 10 * st.tokens.length ≤ fuel →
    Consumes (expression fuel st) st.tokens.length 1
  expression_loop : ∀ st : Input, 1 + 10 * st.tokens.length ≤ fuel →
    Consumes (expression_loop fuel st) st.tokens.length 0
  logical_cmp_expression : ∀ st : Input, 8 + 10 * st.tokens.length ≤ fuel →
    Consumes (logical_cmp_expression fuel st) st.tokens.length 1
  logical_cmp_expression_loop : ∀ st : Input, 1 + 10 * st.tokens.length ≤ fuel →
    Consumes (logical_cmp_expression_loop fuel st) st.tokens.length 0
  equality_expression : ∀ st : Input, 7 + 10 * st.tokens.length ≤ fuel →
    Consumes (equality_expression fuel st) st.tokens.length 1
  equality_expression_loop : ∀ st : Input, 1 + 10 * st.tokens.length ≤ fuel →
    Consumes (equality_expression_loop fuel st) st.tokens.length 0
  relation_expression : ∀ st : Input, 6 + 10 * st.tokens.length ≤ fuel →
    Consumes (relation_expression fuel st) st.tokens.length 1
  relation_expression_loop : ∀ st : Input, 1 + 10 * st.tokens.length ≤ fuel →
    Consumes (relation_expression_loop fuel st) st.tokens.length 0
  add_expression : ∀ st : Input, 5 + 10 * st.tokens.length ≤ fuel →
    Consumes (add_expression fuel st) st.tokens.length 1
  add_expression_loop : ∀ st : Input, 1 + 10 * st.tokens.length ≤ fuel →
    Consumes (add_expression_loop fuel st) st.tokens.length 0
  multiply_expression : ∀ st : Input, 4 + 10 * st.tokens.length ≤ fuel →
    Consumes (multiply_expression fuel st) st.tokens.length 1
  multiply_expression_loop : ∀ st : Input, 1 + 10 * st.tokens.length ≤ fuel →
    Consumes (multiply_expression_loop fuel st) st.tokens.length 0
  prefix_expression : ∀ st : Input, 3 + 10 * st.tokens.length ≤ fuel →
    Consumes (prefix_expression fuel st) st.tokens.length 1
  post_expression : ∀ st : Input, 2 + 10 * st.tokens.length ≤ fuel →
    Consumes (post_expression fuel st) st.tokens.length 1
  post_expression_loop : ∀ st : Input, 1 + 10 * st.tokens.length ≤ fuel →
    Consumes (post_expression_loop fuel st) st.tokens.length 0
  cast_expression : ∀ st : Input, 1 + 10 * st.tokens.length ≤ fuel →
    Consumes (cast_expression fuel st) st.tokens.length 1

end Parser

/-! ## Register pool: the bijection is an invariant -/

/-! ### Projections of the elementary updates -/

@[simp] theorem setNode_regNode (s : State) (reg : Register) (x : Option Node) (r : Register) :
    (s.setNode reg x).regNode r = if r = reg then x else s.regNode r := rfl
@[simp] theorem setNode_nodeReg (s : State) (reg : Register) (x : Option Node) :
    (s.setNode reg x).nodeReg = s.nodeReg := rfl
@[simp] theorem setRegister_nodeReg (s : State) (e : Node) (x : Option Register) (n : Node) :
    (s.setRegister e x).nodeReg n = if n = e then x else s.nodeReg n := rfl
@[simp] theorem setRegister_regNode (s : State) (e : Node) (x : Option Register) :
    (s.setRegister e x).regNode = s.regNode := rfl

@[simp] theorem clearNode_regNode (o : Option Register) (s : State) (r : Register) :
    (clearNode o s).regNode r = if o = some r then none else s.regNode r := by
  cases o <;> simp [clearNode, eq_comm]
@[simp] theorem clearNode_nodeReg (o : Option Register) (s : State) :
    (clearNode o s).nodeReg = s.nodeReg := by
  cases o <;> simp [clearNode]
@[simp] theorem clearRegister_nodeReg (o : Option Node) (s : State) (n : Node) :
    (clearRegister o s).nodeReg n = if o = some n then none else s.nodeReg n := by
  cases o <;> simp [clearRegister, eq_comm]
@[simp] theorem clearRegister_regNode (o : Option Node) (s : State) :
    (clearRegister o s).regNode = s.regNode := by
  cases o <;> simp [clearRegister]

theorem sameFrame_refl (s : State) : SameFrame s s := by
  constructor <;> rfl

theorem sameFrame_trans {s s' s'' : State} (h : SameFrame s s') (h' : SameFrame s' s'') :
    SameFrame s s'' := by
  constructor
  · exact h'.offset.trans h.offset
  · exact h'.func_name.trans h.func_name
  · exact h'.return_label.trans h.return_label
  · exact h'.strings.trans h.strings
  · exact h'.labels.trans h.labels
  · exact h'.registers.trans h.registers
  · exact h'.nodeOffset.trans h.nodeOffset
  · exact h'.out.trans h.out

theorem setNode_sameFrame (s : State) (r : Register) (x : Option Node) :
    SameFrame s (s.setNode r x) := by
  constructor <;> rfl

theorem setRegister_sameFrame (s : State) (n : Node) (x : Option Register) :
    SameFrame s (s.setRegister n x) := by
  constructor <;> rfl

theorem clearNode_sameFrame (o : Option Register) (s : State) :
    SameFrame s (clearNode o s) := by
  cases o
  · exact sameFrame_refl s
  · exact setNode_sameFrame s _ _

theorem clearRegister_sameFrame (o : Option Node) (s : State) :
    SameFrame s (clearRegister o s) := by
  cases o
  · exact sameFrame_refl s
  · exact setRegister_sameFrame s _ _

theorem assign_sameFrame (expr : Option Node) (reg : Option Register) (s : State) :
    SameFrame s (assign expr reg s) := by
  unfold assign
  rcases expr with _ | e <;> rcases reg with _ | r <;> simp only []
  · exact sameFrame_refl s
  · exact sameFrame_trans (clearRegister_sameFrame _ _) (setNode_sameFrame _ _ _)
  · exact sameFrame_trans (clearNode_sameFrame _ _) (setRegister_sameFrame _ _ _)
  · exact sameFrame_trans
      (sameFrame_trans (clearNode_sameFrame _ _) (setRegister_sameFrame _ _ _))
      (sameFrame_trans (clearRegister_sameFrame _ _) (setNode_sameFrame _ _ _))

@[simp] theorem assign_offset (expr : Option Node) (reg : Option Register) (s : State) :
    (assign expr reg s).offset = s.offset := (assign_sameFrame expr reg s).offset
@[simp] theorem assign_out (expr : Option Node) (reg : Option Register) (s : State) :
    (assign expr reg s).out = s.out := (assign_sameFrame expr reg s).out
@[simp] theorem assign_registers (expr : Option Node) (reg : Option Register) (s : State) :
    (assign expr reg s).registers = s.registers := (assign_sameFrame expr reg s).registers
@[simp] theorem assign_nodeOffset (expr : Option Node) (reg : Option Register) (s : State) :
    (assign expr reg s).nodeOffset = s.nodeOffset := (assign_sameFrame expr reg s).nodeOffset
@[simp] theorem assign_labels (expr : Option Node) (reg : Option Register) (s : State) :
    (assign expr reg s).labels = s.labels := (assign_sameFrame expr reg s).labels
@[simp] theorem assign_strings (expr : Option Node) (reg : Option Register) (s : State) :
    (assign expr reg s).strings = s.strings := (assign_sameFrame expr reg s).strings
@[simp] theorem assign_return_label (expr : Option Node) (reg : Option Register) (s : State) :
    (assign expr reg s).return_label = s.return_label :=
  (assign_sameFrame expr reg s).return_label
@[simp] theorem assign_func_name (expr : Option Node) (reg : Option Register) (s : State) :
    (assign expr reg s).func_name = s.func_name := (assign_sameFrame expr reg s).func_name

/-! ### The two maps after `assign`, in closed form -/

theorem assign_regNode (expr : Option Node) (reg : Option Register) (s : State)
    (r : Register) :
    (assign expr reg s).regNode r =
      if reg = some r then expr
      else if (∃ e, expr = some e ∧ s.nodeReg e = some r) then none
      else s.regNode r := by
  unfold assign
  rcases expr with _ | e <;> rcases reg with _ | r0 <;>
    simp only [setNode_regNode, clearRegister_regNode, setRegister_regNode,
      clearNode_regNode] <;> simp [eq_comm]

theorem assign_nodeReg (expr : Option Node) (reg : Option Register) (s : State)
    (n : Node) :
    (assign expr reg s).nodeReg n =
      if (∃ r, reg = some r ∧ s.regNode r = some n ∧
            ¬ (∃ e, expr = some e ∧ s.nodeReg e = some r)) then none
      else if expr = some n then reg
      else s.nodeReg n := by
  unfold assign
  rcases expr with _ | e <;> rcases reg with _ | r0 <;>
    simp only [setNode_nodeReg, clearRegister_nodeReg, setRegister_nodeReg,
      clearNode_nodeReg, setNode_regNode, clearRegister_regNode, setRegister_regNode,
      clearNode_regNode] <;> simp [eq_comm, and_comm]

theorem assign_bijection (expr : Option Node) (reg : Option Register) (s : State)
    (h : Bijection s) : Bijection (assign expr reg s) := by
  intro r n
  rcases expr with _ | e <;> rcases reg with _ | r0 <;> simp only [assign]
  · exact h r n
  · have h1 := h r n
    have h2 := h r0 n
    simp only [setNode_regNode, clearRegister_regNode, setNode_nodeReg,
      clearRegister_nodeReg]
    split_ifs <;> simp_all
    aesop
  · have h1 := h r n
    have h3 := h r e
    simp only [setRegister_regNode, clearNode_regNode, setRegister_nodeReg,
      clearNode_nodeReg]
    split_ifs <;> simp_all
    aesop
  · have h1 := h r n
    have h2 := h r0 n
    have h3 := h r e
    have h4 := h r0 e
    simp only [setNode_regNode, clearRegister_regNode, setNode_nodeReg,
      clearRegister_nodeReg, setRegister_regNode, clearNode_regNode, setRegister_nodeReg,
      clearNode_nodeReg]
    split_ifs <;> simp_all <;> aesop

/-! ### `emit`, `spill`, `write` and `load` -/

@[simp] theorem emit_out (t : String) (s : State) : (emit t s).out = s.out ++ [t] := rfl
@[simp] theorem emit_offset (t : String) (s : State) : (emit t s).offset = s.offset := rfl
@[simp] theorem emit_registers (t : String) (s : State) :
    (emit t s).registers = s.registers := rfl
@[simp] theorem emit_regNode (t : String) (s : State) : (emit t s).regNode = s.regNode := rfl
@[simp] theorem emit_nodeReg (t : String) (s : State) : (emit t s).nodeReg = s.nodeReg := rfl
@[simp] theorem emit_nodeOffset (t : String) (s : State) :
    (emit t s).nodeOffset = s.nodeOffset := rfl
@[simp] theorem emit_labels (t : String) (s : State) : (emit t s).labels = s.labels := rfl
@[simp] theorem emit_strings (t : String) (s : State) : (emit t s).strings = s.strings := rfl
@[simp] theorem emit_return_label (t : String) (s : State) :
    (emit t s).return_label = s.return_label := rfl
@[simp] theorem emit_func_name (t : String) (s : State) :
    (emit t s).func_name = s.func_name := rfl

@[simp] theorem spill_offset (reg : Register) (n : Node) (s : State) :
    (spill reg n s).offset = s.offset - n.size := rfl
@[simp] theorem spill_out (reg : Register) (n : Node) (s : State) :
    (spill reg n s).out = s.out ++ ["\tmov" ++ suffix n.size ++ reg.name n.size ++ ", " ++
      toString (s.offset - n.size) ++ "(%rbp)\n"] := rfl
@[simp] theorem spill_registers (reg : Register) (n : Node) (s : State) :
    (spill reg n s).registers = s.registers := rfl
@[simp] theorem spill_regNode (reg : Register) (n : Node) (s : State) :
    (spill reg n s).regNode = s.regNode := rfl
@[simp] theorem spill_nodeReg (reg : Register) (n : Node) (s : State) :
    (spill reg n s).nodeReg = s.nodeReg := rfl
@[simp] theorem spill_nodeOffset (reg : Register) (n : Node) (s : State) (n' : Node) :
    (spill reg n s).nodeOffset n' = if n' = n then s.offset - n.size else s.nodeOffset n' :=
  rfl
@[simp] theorem spill_labels (reg : Register) (n : Node) (s : State) :
    (spill reg n s).labels = s.labels := rfl
@[simp] theorem spill_strings (reg : Register) (n : Node) (s : State) :
    (spill reg n s).strings = s.strings := rfl
@[simp] theorem spill_return_label (reg : Register) (n : Node) (s : State) :
    (spill reg n s).return_label = s.return_label := rfl
@[simp] theorem spill_func_name (reg : Register) (n : Node) (s : State) :
    (spill reg n s).func_name = s.func_name := rfl

theorem operand_samePool (m : Machine) (n : Node) (s : State) :
    SamePool s (operand m n s).2 := by
  unfold operand
  split
  · constructor <;> rfl
  · split <;> constructor <;> rfl
  · constructor <;> first | rfl | exact Nat.le_succ _
  · constructor <;> rfl

theorem write_samePool (m : Machine) (n : Node) (s : State) :
    SamePool s (write m n s).2 := by
  unfold write
  split
  · constructor <;> rfl
  · exact operand_samePool m n s

@[simp] theorem write_offset (m : Machine) (n : Node) (s : State) :
    (write m n s).2.offset = s.offset := (write_samePool m n s).offset
@[simp] theorem write_registers (m : Machine) (n : Node) (s : State) :
    (write m n s).2.registers = s.registers := (write_samePool m n s).registers
@[simp] theorem write_regNode (m : Machine) (n : Node) (s : State) :
    (write m n s).2.regNode = s.regNode := (write_samePool m n s).regNode
@[simp] theorem write_nodeReg (m : Machine) (n : Node) (s : State) :
    (write m n s).2.nodeReg = s.nodeReg := (write_samePool m n s).nodeReg
@[simp] theorem write_nodeOffset (m : Machine) (n : Node) (s : State) :
    (write m n s).2.nodeOffset = s.nodeOffset := (write_samePool m n s).nodeOffset
@[simp] theorem write_out (m : Machine) (n : Node) (s : State) :
    (write m n s).2.out = s.out := (write_samePool m n s).out
@[simp] theorem write_return_label (m : Machine) (n : Node) (s : State) :
    (write m n s).2.return_label = s.return_label := (write_samePool m n s).return_label
@[simp] theorem write_func_name (m : Machine) (n : Node) (s : State) :
    (write m n s).2.func_name = s.func_name := (write_samePool m n s).func_name

theorem load_eq (m : Machine) (expr : Option Node) (reg : Register) (s : State) :
    load m expr reg s =
      if s.regNode reg ≠ expr then assign expr (some reg) (loadMoves m expr reg s) else s := by
  unfold load loadMoves
  rfl

@[simp] theorem loadMoves_regNode (m : Machine) (expr : Option Node) (reg : Register)
    (s : State) : (loadMoves m expr reg s).regNode = s.regNode := by
  unfold loadMoves
  cases expr <;> cases s.regNode reg <;> simp

@[simp] theorem loadMoves_nodeReg (m : Machine) (expr : Option Node) (reg : Register)
    (s : State) : (loadMoves m expr reg s).nodeReg = s.nodeReg := by
  unfold loadMoves
  cases expr <;> cases s.regNode reg <;> simp

@[simp] theorem loadMoves_registers (m : Machine) (expr : Option Node) (reg : Register)
    (s : State) : (loadMoves m expr reg s).registers = s.registers := by
  unfold loadMoves
  cases expr <;> cases s.regNode reg <;> simp

theorem bijection_congr {s s' : State} (h1 : s'.regNode = s.regNode)
    (h2 : s'.nodeReg = s.nodeReg) (h : Bijection s) : Bijection s' := by
  intro r n
  rw [h1, h2]
  exact h r n

theorem load_bijection (m : Machine) (expr : Option Node) (reg : Register) (s : State)
    (h : Bijection s) : Bijection (load m expr reg s) := by
  rw [load_eq]
  split
  · exact assign_bijection _ _ _ (bijection_congr (by simp) (by simp) h)
  · exact h

@[simp] theorem load_registers (m : Machine) (expr : Option Node) (reg : Register)
    (s : State) : (load m expr reg s).registers = s.registers := by
  rw [load_eq]
  split <;> simp

theorem get_reg_cases (m : Machine) (s : State) (reg : Register) (s' : State)
    (h : get_reg m s = some (reg, s')) :
    (s' = s ∧ s.regNode reg = none ∧ reg ∈ s.registers) ∨
    (s' = load m none reg s ∧ s.registers.head? = some reg ∧
      ∀ r ∈ s.registers, s.regNode r ≠ none) := by
  unfold get_reg at h
  split at h
  · rename_i r hr
    simp only [Option.some.injEq, Prod.mk.injEq] at h
    obtain ⟨rfl, rfl⟩ := h
    left
    refine ⟨rfl, ?_, List.mem_of_find?_eq_some hr⟩
    have := List.find?_some hr
    simpa using this
  · rename_i hnone
    split at h
    · rename_i r0 rest hl
      simp only [Option.some.injEq, Prod.mk.injEq] at h
      obtain ⟨rfl, rfl⟩ := h
      right
      refine ⟨rfl, by simp [hl], ?_⟩
      intro r hr
      have := List.find?_eq_none.1 hnone r hr
      simpa using this
    · simp at h

theorem get_reg_bijection (m : Machine) (s : State) (reg : Register) (s' : State)
    (h : Bijection s) (hg : get_reg m s = some (reg, s')) : Bijection s' := by
  rcases get_reg_cases m s reg s' hg with ⟨rfl, _⟩ | ⟨rfl, _⟩
  · exact h
  · exact load_bijection m none reg s h

theorem get_reg_isSome (m : Machine) (s : State) (h : s.registers ≠ []) :
    ∃ reg s', get_reg m s = some (reg, s') := by
  unfold get_reg
  split
  · exact ⟨_, _, rfl⟩
  · cases hl : s.registers with
    | nil => exact absurd hl h
    | cons r0 rest => exact ⟨_, _, rfl⟩

theorem fullState_bijection : Bijection fullState := by
  intro r n
  simp only [fullState]
  split_ifs <;> simp_all <;> first | decide | (intro hx; exact absurd hx.symm ‹_›)

theorem freshState_bijection : Bijection freshState := by
  intro r n
  simp [freshState]

theorem Bijection.exclusive {s : State} (h : Bijection s) : Exclusive s := by
  refine ⟨fun n n' r h1 h2 => ?_, fun r r' n h1 h2 => ?_⟩
  · have a := (h r n).2 h1
    have b := (h r n').2 h2
    rw [a] at b
    exact Option.some.inj b
  have a := (h r n).1 h1
  have b := (h r' n).1 h2
  rw [a] at b
  exact Option.some.inj b

/-- C1: the register bijection is an invariant of the pool operations.  From every
state in which `reg._node = e` holds exactly when `e._register = reg`, the states after
`assign(expr, reg)` (null `expr` and null `reg` included), after `load(expr, reg)` and
after `get_reg()` satisfy that equivalence again, so no two distinct nodes share a
register and no node occupies two registers; on a non-empty pool `get_reg` does return. -/
theorem register_bijection_invariant (m : Machine) (s : State) (h : Bijection s) :
    (∀ (expr : Option Node) (reg : Option Register),
        Bijection (assign expr reg s) ∧ Exclusive (assign expr reg s)) ∧
    (∀ (expr : Option Node) (reg : Register),
        Bijection (load m expr reg s) ∧ Exclusive (load m expr reg s)) ∧
    (∀ (reg : Register) (s' : State), get_reg m s = some (reg, s') →
        Bijection s' ∧ Exclusive s') ∧
    (s.registers ≠ [] → ∃ (reg : Register) (s' : State),
        get_reg m s = some (reg, s') ∧ Bijection s' ∧ Exclusive s') := by
  refine ⟨fun expr reg => ?_, fun expr reg => ?_, fun reg s' hg => ?_, fun hne => ?_⟩
  · exact ⟨assign_bijection expr reg s h, (assign_bijection expr reg s h).exclusive⟩
  · exact ⟨load_bijection m expr reg s h, (load_bijection m expr reg s h).exclusive⟩
  · exact ⟨get_reg_bijection m s reg s' h hg, (get_reg_bijection m s reg s' h hg).exclusive⟩
  · obtain ⟨reg, s', hg⟩ := get_reg_isSome m s hne
    exact ⟨reg, s', hg, get_reg_bijection m s reg s' h hg,
      (get_reg_bijection m s reg s' h hg).exclusive⟩

/-- C1 at a concrete state: `fullState` satisfies the bijection, and so do the states
after an `assign`, after a `load` that spills, and after `get_reg`. -/
theorem register_bijection_invariant_witness :
    Bijection fullState ∧
    Bijection (assign (some tempB) (some Register.r11) fullState) ∧
    Bijection (load plainMachine (some tempB) Register.r11 fullState) ∧
    ∃ (reg : Register) (s' : State),
      get_reg plainMachine fullState = some (reg, s') ∧ Bijection s' ∧ Exclusive s' :=
  ⟨fullState_bijection,
   ((register_bijection_invariant plainMachine fullState fullState_bijection).1
      (some tempB) (some Register.r11)).1,
   ((register_bijection_invariant plainMachine fullState fullState_bijection).2.1
      (some tempB) Register.r11).1,
   (register_bijection_invariant plainMachine fullState fullState_bijection).2.2.2
      (by decide)⟩

/-! ## `get_reg` -/

theorem find?_first {α : Type} (p : α → Bool) (pre : List α) (x : α) (post : List α)
    (hpre : ∀ y ∈ pre, p y = false) (hx : p x = true) :
    (pre ++ x :: post).find? p = some x := by
  induction pre with
  | nil => simp [List.find?, hx]
  | cons y ys ih =>
      have hy : p y = false := hpre y (List.mem_cons_self _ _)
      simp only [List.cons_append, List.find?, hy]
      exact ih (fun z hz => hpre z (List.mem_cons_of_mem _ hz))

theorem get_reg_first_free (m : Machine) (s : State) (pre : List Register) (r : Register)
    (post : List Register) (hl : s.registers = pre ++ r :: post)
    (hpre : ∀ x ∈ pre, s.regNode x ≠ none) (hr : s.regNode r = none) :
    get_reg m s = some (r, s) := by
  unfold get_reg
  rw [hl, find?_first _ pre r post]
  · intro y hy
    have := hpre y hy
    cases hs : s.regNode y
    · exact absurd hs this
    · rfl
  · simp [hr]

theorem load_none_occupied (m : Machine) (reg : Register) (n : Node) (s : State)
    (h : s.regNode reg = some n) :
    load m none reg s = assign none (some reg) (spill reg n s) := by
  rw [load_eq, if_pos (by simp [h])]
  simp [loadMoves, h]

theorem get_reg_all_occupied (m : Machine) (s : State) (r0 : Register)
    (rest : List Register) (n : Node) (hl : s.registers = r0 :: rest)
    (hall : ∀ x ∈ s.registers, s.regNode x ≠ none) (h0 : s.regNode r0 = some n) :
    get_reg m s = some (r0, assign none (some r0) (spill r0 n s)) := by
  unfold get_reg
  have hnone : s.registers.find? (fun r => (s.regNode r).isNone) = none := by
    apply List.find?_eq_none.2
    intro x hx
    have := hall x hx
    cases hs : s.regNode x
    · exact absurd hs this
    · simp
  rw [hnone, hl]
  simp only []
  rw [load_none_occupied m r0 n s h0]

/-- C2: `get_reg` on a non-empty pool.  If a register of the pool is unoccupied, the
first such register in pool order is returned and the state is unchanged (nothing is
emitted).  If every register is occupied, the occupant of `registers[0]` is spilled to
a newly assigned frame slot (the counter moves down by its size, exactly one store is
emitted, the slot is recorded as the occupant's offset) and `registers[0]` is
returned.  In both cases the call returns and the returned register has no occupant. -/
theorem get_reg_contract (m : Machine) (s : State) (hne : s.registers ≠ []) :
    (∀ (pre : List Register) (r : Register) (post : List Register),
        s.registers = pre ++ r :: post → (∀ x ∈ pre, s.regNode x ≠ none) →
        s.regNode r = none → get_reg m s = some (r, s)) ∧
    (∀ (r0 : Register) (rest : List Register) (n : Node),
        s.registers = r0 :: rest → (∀ x ∈ s.registers, s.regNode x ≠ none) →
        s.regNode r0 = some n →
        ∃ s', get_reg m s = some (r0, s') ∧
          s'.out = s.out ++ ["\tmov" ++ suffix n.size ++ r0.name n.size ++ ", " ++
            toString (s.offset - n.size) ++ "(%rbp)\n"] ∧
          s'.offset = s.offset - n.size ∧
          s'.nodeOffset n = s.offset - n.size ∧
          s'.nodeReg n = none ∧
          s'.regNode r0 = none) ∧
    (∃ (reg : Register) (s' : State), get_reg m s = some (reg, s') ∧ s'.regNode reg = none) := by
  refine ⟨fun pre r post hl hpre hr => get_reg_first_free m s pre r post hl hpre hr,
    fun r0 rest n hl hall h0 => ?_, ?_⟩
  · refine ⟨_, get_reg_all_occupied m s r0 rest n hl hall h0, ?_, ?_, ?_, ?_, ?_⟩
    · simp
    · simp
    · simp
    · rw [assign_nodeReg]; simp [h0]
    · rw [assign_regNode]; simp
  · obtain ⟨reg, s', hg⟩ := get_reg_isSome m s hne
    refine ⟨reg, s', hg, ?_⟩
    rcases get_reg_cases m s reg s' hg with ⟨rfl, hfree, _⟩ | ⟨rfl, _, _⟩
    · exact hfree
    · rw [load_eq]
      split
      · rw [assign_regNode]; simp
      · rename_i hx
        simpa using hx

/-- C2 at a concrete state: in `fullState` both pool registers are occupied, so
`get_reg` spills the 4-byte occupant of `r11` to offset -12 and returns `r11`. -/
theorem get_reg_contract_witness :
    fullState.registers ≠ [] ∧
    ∃ s', get_reg plainMachine fullState = some (Register.r11, s') ∧
      s'.out = fullState.out ++ ["\tmovl\t%r11d, -12(%rbp)\n"] ∧
      s'.offset = -12 ∧ s'.nodeOffset tempA = -12 ∧ s'.nodeReg tempA = none ∧
      s'.regNode Register.r11 = none :=
  ⟨by decide,
   (get_reg_contract plainMachine fullState (by decide)).2.1 Register.r11 [Register.r10]
     tempA rfl (by decide) rfl⟩

theorem find?_first_or_same {α : Type} [DecidableEq α] (p : α → Bool) (pre : List α)
    (x : α) (post : List α) (hpre : ∀ y ∈ pre, y ≠ x → p y = false) (hx : p x = true) :
    (pre ++ x :: post).find? p = some x := by
  induction pre with
  | nil => simp [List.find?, hx]
  | cons y ys ih =>
      by_cases hyx : y = x
      · subst hyx
        simp [List.find?, hx]
      · have hy : p y = false := hpre y (List.mem_cons_self _ _) hyx
        simp only [List.cons_append, List.find?, hy]
        exact ih (fun z hz => hpre z (List.mem_cons_of_mem _ hz))

theorem get_reg_first_free_or_same (m : Machine) (s : State) (pre : List Register)
    (r : Register) (post : List Register) (hl : s.registers = pre ++ r :: post)
    (hpre : ∀ x ∈ pre, x ≠ r → s.regNode x ≠ none) (hr : s.regNode r = none) :
    get_reg m s = some (r, s) := by
  unfold get_reg
  rw [hl, find?_first_or_same _ pre r post]
  · intro y hy hyr
    have := hpre y hy hyr
    cases hs : s.regNode y
    · exact absurd hs this
    · rfl
  · simp [hr]

/-! ## `assign` -/


/-- C3: `assign` is pure bookkeeping.  It emits nothing and leaves the offset counter
(and every frame offset) unchanged; afterwards `expr` is bound to `reg` and `reg` to
`expr`, the node that occupied `reg` before has no register, the register that held
`expr` before has no occupant, and all other bindings are unchanged.  With a null
`reg` the node's former register is free afterwards: a following `get_reg` on a pool
that contains it returns a free register without spilling, and returns that very
register when the pool registers in front of it are occupied. -/
theorem assign_bookkeeping (m : Machine) (s : State) (h : Bijection s)
    (expr : Option Node) (reg : Option Register) :
    (assign expr reg s).out = s.out ∧
    (assign expr reg s).offset = s.offset ∧
    (assign expr reg s).nodeOffset = s.nodeOffset ∧
    (∀ e, expr = some e → (assign expr reg s).nodeReg e = reg) ∧
    (∀ r, reg = some r → (assign expr reg s).regNode r = expr) ∧
    (∀ r n, reg = some r → s.regNode r = some n → expr ≠ some n →
        (assign expr reg s).nodeReg n = none) ∧
    (∀ e r0, expr = some e → s.nodeReg e = some r0 → reg ≠ some r0 →
        (assign expr reg s).regNode r0 = none) ∧
    (∀ n, expr ≠ some n → (∀ r, reg = some r → s.regNode r ≠ some n) →
        (assign expr reg s).nodeReg n = s.nodeReg n) ∧
    (∀ r, reg ≠ some r → (∀ e, expr = some e → s.nodeReg e ≠ some r) →
        (assign expr reg s).regNode r = s.regNode r) ∧
    (∀ e r0, expr = some e → reg = none → s.nodeReg e = some r0 →
        (assign expr reg s).regNode r0 = none ∧
        (r0 ∈ s.registers →
          ∃ r, get_reg m (assign expr reg s) = some (r, assign expr reg s) ∧
            (assign expr reg s).regNode r = none) ∧
        (∀ pre post, s.registers = pre ++ r0 :: post → (∀ x ∈ pre, s.regNode x ≠ none) →
          get_reg m (assign expr reg s) = some (r0, assign expr reg s))) := by
  refine ⟨by simp, by simp, by simp, ?_, ?_, ?_, ?_, ?_, ?_, ?_⟩
  · rintro e rfl
    have hc : ¬ ∃ r, reg = some r ∧ s.regNode r = some e ∧
        ¬ ∃ e', some e = some e' ∧ s.nodeReg e' = some r := by
      rintro ⟨r, _, h2, h3⟩
      exact h3 ⟨e, rfl, (h r e).1 h2⟩
    rw [assign_nodeReg, if_neg hc, if_pos rfl]
  · rintro r rfl
    rw [assign_regNode, if_pos rfl]
  · rintro r n rfl hrn hne
    have hc : ∃ r', some r = some r' ∧ s.regNode r' = some n ∧
        ¬ ∃ e, expr = some e ∧ s.nodeReg e = some r' := by
      refine ⟨r, rfl, hrn, ?_⟩
      rintro ⟨e, rfl, he⟩
      have := (h r e).2 he
      rw [hrn] at this
      exact hne this.symm
    rw [assign_nodeReg, if_pos hc]
  · rintro e r0 rfl he hne
    have hc : ∃ e', some e = some e' ∧ s.nodeReg e' = some r0 := ⟨e, rfl, he⟩
    rw [assign_regNode, if_neg hne, if_pos hc]
  · intro n hne hfree
    have hc : ¬ ∃ r, reg = some r ∧ s.regNode r = some n ∧
        ¬ ∃ e, expr = some e ∧ s.nodeReg e = some r := by
      rintro ⟨r, h1, h2, _⟩
      exact hfree r h1 h2
    rw [assign_nodeReg, if_neg hc, if_neg hne]
  · intro r hne hfree
    have hc : ¬ ∃ e, expr = some e ∧ s.nodeReg e = some r := by
      rintro ⟨e, h1, h2⟩
      exact hfree e h1 h2
    rw [assign_regNode, if_neg hne, if_neg hc]
  · rintro e r0 rfl rfl he
    have hfree : (assign (some e) none s).regNode r0 = none := by
      have hc : ∃ e', some e = some e' ∧ s.nodeReg e' = some r0 := ⟨e, rfl, he⟩
      rw [assign_regNode, if_neg (by simp), if_pos hc]
    refine ⟨hfree, fun hmem => ?_, fun pre post hl hpre => ?_⟩
    · have hne : (assign (some e) none s).registers ≠ [] := by
        simp only [assign_registers]
        exact List.ne_nil_of_mem hmem
      obtain ⟨r, s', hg⟩ := get_reg_isSome m _ hne
      rcases get_reg_cases m _ r s' hg with ⟨rfl, hr, _⟩ | ⟨_, _, hall⟩
      · exact ⟨r, hg, hr⟩
      · exact absurd hfree (hall r0 (by simpa using hmem))
    · apply get_reg_first_free_or_same m _ pre r0 post (by simpa using hl) _ hfree
      intro x hx hxr
      have hc : ¬ ∃ e', some e = some e' ∧ s.nodeReg e' = some x := by
        rintro ⟨e', he', hx'⟩
        cases he'
        rw [he] at hx'
        exact hxr (Option.some.inj hx').symm
      rw [assign_regNode, if_neg (by simp), if_neg hc]
      exact hpre x hx

/-- C3 at a concrete state: releasing `tempA` in `fullState` emits nothing and frees
`r11`, which the next `get_reg` returns. -/
theorem assign_bookkeeping_witness :
    Bijection fullState ∧
    (assign (some tempA) none fullState).out = fullState.out ∧
    (assign (some tempA) none fullState).regNode Register.r11 = none ∧
    get_reg plainMachine (assign (some tempA) none fullState) =
      some (Register.r11, assign (some tempA) none fullState) :=
  ⟨fullState_bijection,
   (assign_bookkeeping plainMachine fullState fullState_bijection (some tempA) none).1,
   ((assign_bookkeeping plainMachine fullState fullState_bijection (some tempA)
      none).2.2.2.2.2.2.2.2.2 tempA Register.r11 rfl rfl rfl).1,
   ((assign_bookkeeping plainMachine fullState fullState_bijection (some tempA)
      none).2.2.2.2.2.2.2.2.2 tempA Register.r11 rfl rfl rfl).2.2 [] [Register.r10] rfl
      (by simp)⟩

/-! ## Operand rendering, `suffix` -/

/-- C4 (as amended): operand rendering.  A node bound to a register is written as that
register's name at the width of the node's type size, whatever its kind.  A node bound
to no register is written as `$value` if it is a `Number`, as
`global_prefix + name + global_suffix` if it is an `Identifier` whose symbol offset is 0,
as `<symbol offset>(%rbp)` if it is an `Identifier` with another symbol offset, as a
newly made label followed by `global_suffix` if it is a `String` (whose definition is
appended to the string pool), and as `<node offset>(%rbp)` for every remaining kind.
Only the `String` case changes the state. -/
theorem operand_rendering (m : Machine) (s : State) (n : Node) :
    (∀ reg, s.nodeReg n = some reg → write m n s = (reg.name n.size, s)) ∧
    (s.nodeReg n = none →
      (∀ value, n.kind = .Number value → write m n s = ("$" ++ toString value, s)) ∧
      (∀ name, n.kind = .Identifier name 0 →
          write m n s = ( m.global_prefix ++ name ++ m.global_suffix, s)) ∧
      (∀ name symbolOffset, n.kind = .Identifier name symbolOffset → symbolOffset ≠ 0 →
          write m n s = (toString symbolOffset ++ "(%rbp)", s)) ∧
      (∀ value, n.kind = .String value →
          (write m n s).1 = labelText s.labels ++ m.global_suffix ∧
          (write m n s).2.labels = s.labels + 1 ∧
          (write m n s).2.strings = s.strings ++
            [labelText s.labels ++ ":\n\t.string " ++ value ++ "\n"]) ∧
      (n.kind = .Other → write m n s = (toString (s.nodeOffset n) ++ "(%rbp)", s))) := by
  refine ⟨fun reg h => ?_, fun h => ⟨fun value hk => ?_, fun name hk => ?_,
    fun name symbolOffset hk hne => ?_, fun value hk => ?_, fun hk => ?_⟩⟩
  · simp [write, h]
  · simp [write, h, operand, hk]
  · simp [write, h, operand, hk]
  · simp [write, h, operand, hk, hne]
  · simp [write, h, operand, hk, newLabel]
  · simp [write, h, operand, hk]

/-- C4 (as stated) fails: a `String` node bound to no register is neither a `Number` nor
an `Identifier`, and it is written as a label, not as `<node offset>(%rbp)`. -/
theorem string_operand_is_a_label :
    freshState.nodeReg ⟨7, 8, .String "\"hi\""⟩ = none ∧
    (write plainMachine ⟨7, 8, .String "\"hi\""⟩ freshState).1 = ".L1" ∧
    (write plainMachine ⟨7, 8, .String "\"hi\""⟩ freshState).1 ≠
      toString (freshState.nodeOffset ⟨7, 8, .String "\"hi\""⟩) ++ "(%rbp)" := by
  decide

/-- C5 (as amended): `suffix` returns `b` for size 1, `l` for size 4 and `q` for size 8,
each followed by a tab, and for every other size it returns the quad suffix as well. -/
theorem suffix_total (size : Nat) :
    suffix 1 = "b\t" ∧ suffix 4 = "l\t" ∧ suffix 8 = "q\t" ∧
    (size ≠ 1 → size ≠ 4 → suffix size = "q\t") := by
  refine ⟨rfl, rfl, rfl, fun h1 h4 => ?_⟩
  simp [suffix, h1, h4]

/-- C5 (as stated) fails: size 2 is none of the three legal sizes, and `suffix` returns
the quad suffix for it instead of failing. -/
theorem suffix_of_illegal_size : suffix 2 = "q\t" := by
  decide

/-! ## What every emitter preserves -/

theorem Progress.refl (s : State) : Progress s s :=
  ⟨rfl, le_refl _, id, List.prefix_refl _, le_refl _, rfl, rfl⟩

theorem Progress.trans {s s' s'' : State} (h : Progress s s') (h' : Progress s' s'') :
    Progress s s'' :=
  ⟨h'.registers.trans h.registers, le_trans h'.offset h.offset,
   fun b => h'.bijection (h.bijection b), List.IsPrefix.trans h.out h'.out,
   le_trans h.labels h'.labels, h'.return_label.trans h.return_label,
   h'.func_name.trans h.func_name⟩

theorem emit_progress (t : String) (s : State) : Progress s (emit t s) :=
  ⟨rfl, le_refl _, fun b => bijection_congr rfl rfl b, by simp, le_refl _, rfl, rfl⟩

theorem assign_progress (expr : Option Node) (reg : Option Register) (s : State) :
    Progress s (assign expr reg s) :=
  ⟨by simp, by simp, assign_bijection expr reg s, by simp, by simp, by simp, by simp⟩

theorem write_progress (m : Machine) (n : Node) (s : State) :
    Progress s (write m n s).2 :=
  ⟨by simp, by simp, fun b => bijection_congr (by simp) (by simp) b, by simp,
   (write_samePool m n s).labels, by simp, by simp⟩

theorem newLabel_progress (s : State) : Progress s (newLabel s).2 :=
  ⟨rfl, le_refl _, fun b => bijection_congr rfl rfl b, List.prefix_refl _,
   Nat.le_succ _, rfl, rfl⟩

theorem spill_progress (reg : Register) (n : Node) (s : State) :
    Progress s (spill reg n s) :=
  ⟨rfl, by simp, fun b => bijection_congr rfl rfl b, by simp, le_refl _, rfl, rfl⟩

theorem loadMoves_progress (m : Machine) (expr : Option Node) (reg : Register) (s : State) :
    Progress s (loadMoves m expr reg s) := by
  unfold loadMoves
  have h1 : Progress s (match s.regNode reg with
      | some occupant => spill reg occupant s
      | none => s) := by
    cases s.regNode reg
    · exact Progress.refl s
    · exact spill_progress _ _ _
  cases expr
  · exact h1
  · exact h1.trans ((write_progress m _ _).trans (emit_progress _ _))

theorem load_progress (m : Machine) (expr : Option Node) (reg : Register) (s : State) :
    Progress s (load m expr reg s) := by
  rw [load_eq]
  split
  · exact (loadMoves_progress m expr reg s).trans (assign_progress _ _ _)
  · exact Progress.refl s

theorem get_reg_returns_free (m : Machine) (s : State) (reg : Register) (s' : State)
    (hg : get_reg m s = some (reg, s')) : s'.regNode reg = none := by
  rcases get_reg_cases m s reg s' hg with ⟨rfl, hfree, _⟩ | ⟨rfl, _, _⟩
  · exact hfree
  · rw [load_eq]
    split
    · rw [assign_regNode, if_pos rfl]
    · rename_i hx
      simpa using hx

theorem get_reg_progress (m : Machine) (s : State) (hne : s.registers ≠ []) :
    ∃ reg s', get_reg m s = some (reg, s') ∧ Progress s s' ∧ s'.regNode reg = none := by
  obtain ⟨reg, s', hg⟩ := get_reg_isSome m s hne
  refine ⟨reg, s', hg, ?_, get_reg_returns_free m s reg s' hg⟩
  rcases get_reg_cases m s reg s' hg with ⟨rfl, _⟩ | ⟨rfl, _⟩
  · exact Progress.refl _
  · exact load_progress m none reg _

theorem Progress.nonempty {s s' : State} (h : Progress s s') (hne : s.registers ≠ []) :
    s'.registers ≠ [] := by
  rw [h.registers]
  exact hne

theorem load_binds (m : Machine) (n : Node) (reg : Register) (s : State)
    (h : s.regNode reg = none) : (load m (some n) reg s).nodeReg n = some reg := by
  rw [load_eq, if_pos (by simp [h])]
  have hc : ¬ ∃ r, some reg = some r ∧ (loadMoves m (some n) reg s).regNode r = some n ∧
      ¬ ∃ e, some n = some e ∧ (loadMoves m (some n) reg s).nodeReg e = some r := by
    rintro ⟨r, hr, h2, _⟩
    cases hr
    simp [h] at h2
  rw [assign_nodeReg, if_neg hc, if_pos rfl]

theorem ensureRegister_runs (m : Machine) (n : Node) (s : State) (hne : s.registers ≠ []) :
    ∃ s', ensureRegister m n s = some s' ∧ Progress s s' ∧ s'.nodeReg n ≠ none := by
  unfold ensureRegister
  split
  · obtain ⟨reg, s1, hg, p, hfree⟩ := get_reg_progress m s hne
    rw [hg]
    refine ⟨_, rfl, p.trans (load_progress _ _ _ _), ?_⟩
    rw [load_binds m n reg s1 hfree]
    simp
  · rename_i hb
    exact ⟨s, rfl, Progress.refl s, hb⟩

theorem arithmetic_runs (m : Machine) (opcode : String) (sized this left right : Node)
    (s : State) (hne : s.registers ≠ []) :
    ∃ s', arithmetic m opcode sized this left right s = some s' ∧ Progress s s' := by
  obtain ⟨s1, h1, p1, _⟩ := ensureRegister_runs m left s hne
  simp only [arithmetic, h1, Option.bind_eq_bind, Option.some_bind, Option.pure_def]
  refine ⟨_, rfl, ?_⟩
  exact p1.trans ((write_progress _ _ _).trans ((write_progress _ _ _).trans
    ((emit_progress _ _).trans ((assign_progress _ _ _).trans (assign_progress _ _ _)))))

theorem division_progress (m : Machine) (result : Register) (this left right : Node)
    (s : State) : Progress s (division m result this left right s) := by
  unfold division
  exact (load_progress _ _ _ _).trans ((emit_progress _ _).trans
    ((write_progress _ _ _).trans ((emit_progress _ _).trans (assign_progress _ _ _))))

theorem pushArgument_progress (m : Machine) (arg : Expr) (s : State) :
    Progress s (pushArgument m arg s) := by
  unfold pushArgument
  split
  · exact emit_progress _ _
  · split
    · exact (write_progress _ _ _).trans (emit_progress _ _)
    · exact (load_progress _ _ _ _).trans (emit_progress _ _)

theorem foldl_progress {α : Type} (f : State → α → State)
    (hf : ∀ s a, Progress s (f s a)) (l : List α) (s : State) :
    Progress s (l.foldl f s) := by
  induction l generalizing s with
  | nil => exact Progress.refl s
  | cons a l ih => exact (hf s a).trans (ih (f s a))

theorem spillCallerSaved_progress (m : Machine) (s : State) :
    Progress s (spillCallerSaved m s) :=
  foldl_progress _ (fun s reg => load_progress m none reg s) _ s

theorem bound_of_ne_none {s : State} {n : Node} (h : s.nodeReg n ≠ none) :
    ∃ reg, s.nodeReg n = some reg := by
  cases hn : s.nodeReg n
  · exact absurd hn h
  · exact ⟨_, rfl⟩

theorem assign_binds (n : Node) (reg : Register) (s : State) (h : s.regNode reg = none) :
    (assign (some n) (some reg) s).nodeReg n = some reg := by
  have hc : ¬ ∃ r, some reg = some r ∧ s.regNode r = some n ∧
      ¬ ∃ e, some n = some e ∧ s.nodeReg e = some r := by
    rintro ⟨r, hr, h2, _⟩
    cases hr
    simp [h] at h2
  rw [assign_nodeReg, if_neg hc, if_pos rfl]

theorem ite_emit_progress (c : Prop) [Decidable c] (t : String) (s : State) :
    Progress s (if c then emit t s else s) := by
  split
  · exact emit_progress t s
  · exact Progress.refl s

theorem parameters_get? (i : Nat) (h : i < NUM_PARAM_REGS) :
    ∃ reg, parameters.get? i = some reg := by
  have hl : i < parameters.length := h
  exact ⟨parameters.get ⟨i, hl⟩, List.get?_eq_get hl⟩

mutual
theorem expr_generate_runs (m : Machine) : ∀ (e : Expr), Runs (e.generate m)
  | .Number _ _ => fun s _ => ⟨s, rfl, Progress.refl s⟩
  | .Identifier _ _ _ => fun s _ => ⟨s, rfl, Progress.refl s⟩
  | .String _ _ => fun s _ => ⟨s, rfl, Progress.refl s⟩
  | .Call i name noParameters args => by
      intro s hs
      have p0 := emit_progress "# === call\n" s
      obtain ⟨s1, h1, p1⟩ := args_generateCalls_runs m args _ (p0.nonempty hs)
      have hs1 := p1.nonempty (p0.nonempty hs)
      have p2 := ite_emit_progress
        ((if args.size > NUM_PARAM_REGS then
          (align (((args.size - NUM_PARAM_REGS) * SIZEOF_PARAM : Nat) : Int)).toNat
          else 0) > 0)
        ("\tsubq\t$" ++ toString (if args.size > NUM_PARAM_REGS then
          (align (((args.size - NUM_PARAM_REGS) * SIZEOF_PARAM : Nat) : Int)).toNat
          else 0) ++ ", %rsp\n") s1
      obtain ⟨s3, b3, h3, p3⟩ := args_marshal_runs m args 0 _
        (if args.size > NUM_PARAM_REGS then
          (align (((args.size - NUM_PARAM_REGS) * SIZEOF_PARAM : Nat) : Int)).toNat
          else 0) (p2.nonempty hs1)
      simp only [Expr.generate, h1, h3, Option.bind_eq_bind, Option.some_bind, Option.pure_def]
      exact ⟨_, rfl, p0.trans (p1.trans (p2.trans (p3.trans
        ((spillCallerSaved_progress _ _).trans ((ite_emit_progress _ _ _).trans
        ((emit_progress _ _).trans ((ite_emit_progress _ _ _).trans
        ((assign_progress _ _ _).trans (emit_progress _ _)))))))))⟩
  | .Binary .Add i l r => by
      intro s hs
      obtain ⟨s1, h1, p1⟩ := expr_generate_runs m l s hs
      obtain ⟨s2, h2, p2⟩ := expr_generate_runs m r s1 (p1.nonempty hs)
      obtain ⟨s3, h3, p3⟩ := arithmetic_runs m "\tadd" l.node i.node l.node r.node s2
        (p2.nonempty (p1.nonempty hs))
      simp only [Expr.generate, h1, h2, Option.bind_eq_bind, Option.some_bind]
      exact ⟨s3, h3, p1.trans (p2.trans p3)⟩
  | .Binary .Subtract i l r => by
      intro s hs
      obtain ⟨s1, h1, p1⟩ := expr_generate_runs m l s hs
      obtain ⟨s2, h2, p2⟩ := expr_generate_runs m r s1 (p1.nonempty hs)
      obtain ⟨s3, h3, p3⟩ := arithmetic_runs m "\tsub" l.node i.node l.node r.node s2
        (p2.nonempty (p1.nonempty hs))
      simp only [Expr.generate, h1, h2, Option.bind_eq_bind, Option.some_bind]
      exact ⟨s3, h3, p1.trans (p2.trans p3)⟩
  | .Binary .Multiply i l r => by
      intro s hs
      obtain ⟨s1, h1, p1⟩ := expr_generate_runs m l s hs
      obtain ⟨s2, h2, p2⟩ := expr_generate_runs m r s1 (p1.nonempty hs)
      obtain ⟨s3, h3, p3⟩ := arithmetic_runs m "\timul" r.node i.node l.node r.node s2
        (p2.nonempty (p1.nonempty hs))
      simp only [Expr.generate, h1, h2, Option.bind_eq_bind, Option.some_bind]
      exact ⟨s3, h3, p1.trans (p2.trans p3)⟩
  | .Binary .Divide i l r => by
      intro s hs
      obtain ⟨s1, h1, p1⟩ := expr_generate_runs m l s hs
      obtain ⟨s2, h2, p2⟩ := expr_generate_runs m r s1 (p1.nonempty hs)
      simp only [Expr.generate, h1, h2, Option.bind_eq_bind, Option.some_bind, Option.pure_def]
      exact ⟨_, rfl, p1.trans (p2.trans (division_progress _ _ _ _ _ _))⟩
  | .Binary .Remainder i l r => by
      intro s hs
      obtain ⟨s1, h1, p1⟩ := expr_generate_runs m l s hs
      obtain ⟨s2, h2, p2⟩ := expr_generate_runs m r s1 (p1.nonempty hs)
      simp only [Expr.generate, h1, h2, Option.bind_eq_bind, Option.some_bind, Option.pure_def]
      exact ⟨_, rfl, p1.trans (p2.trans (division_progress _ _ _ _ _ _))⟩
  | .Binary .LessThan _ _ _ => fun s _ => ⟨s, rfl, Progress.refl s⟩
  | .Binary .GreaterThan _ _ _ => fun s _ => ⟨s, rfl, Progress.refl s⟩
  | .Binary .LessOrEqual _ _ _ => fun s _ => ⟨s, rfl, Progress.refl s⟩
  | .Binary .GreaterOrEqual _ _ _ => fun s _ => ⟨s, rfl, Progress.refl s⟩
  | .Binary .Equal _ _ _ => fun s _ => ⟨s, rfl, Progress.refl s⟩
  | .Binary .NotEqual _ _ _ => fun s _ => ⟨s, rfl, Progress.refl s⟩
  | .Binary .LogicalOr _ _ _ => fun s _ => ⟨s, rfl, Progress.refl s⟩
  | .Binary .LogicalAnd _ _ _ => fun s _ => ⟨s, rfl, Progress.refl s⟩
  | .Unary .Cast i e => by
      intro s hs
      have p0 := emit_progress "# === cast\n" s
      obtain ⟨s1, h1, p1⟩ := expr_generate_runs m e _ (p0.nonempty hs)
      obtain ⟨s2, h2, p2, hb⟩ := ensureRegister_runs m e.node s1 (p1.nonempty (p0.nonempty hs))
      obtain ⟨reg, hreg⟩ := bound_of_ne_none hb
      simp only [Expr.generate, h1, h2, Option.bind_eq_bind, Option.some_bind, Option.pure_def]
      split
      · exact ⟨_, rfl, p0.trans (p1.trans (p2.trans ((assign_progress _ _ _).trans
          (emit_progress _ _))))⟩
      · simp only [hreg, Option.some_bind]
        exact ⟨_, rfl, p0.trans (p1.trans (p2.trans ((write_progress _ _ _).trans
          ((emit_progress _ _).trans ((assign_progress _ _ _).trans
          ((assign_progress _ _ _).trans (emit_progress _ _)))))))⟩
  | .Unary .Address i e => by
      intro s hs
      have p0 := emit_progress "# === addr\n" s
      obtain ⟨s1, h1, p1⟩ := expr_generate_runs m e _ (p0.nonempty hs)
      have hs1 := p1.nonempty (p0.nonempty hs)
      simp only [Expr.generate, h1, Option.bind_eq_bind, Option.some_bind, Option.pure_def]
      by_cases hind : e.info.indirection = 0
      · simp only [if_pos hind]
        by_cases hnone : s1.nodeReg e.node = none
        · simp only [if_pos hnone]
          have pw := (write_progress m e.node s1).trans
            (emit_progress ("\tleaq\t" ++ (write m e.node s1).1 ++ ", ") _)
          obtain ⟨reg, s2, hg, p2, hfree⟩ := get_reg_progress m _ (pw.nonempty hs1)
          simp only [hg, Option.some_bind, assign_binds e.node reg s2 hfree]
          exact ⟨_, rfl, p0.trans (p1.trans (pw.trans (p2.trans ((assign_progress _ _ _).trans
            ((emit_progress _ _).trans ((assign_progress _ _ _).trans
            ((assign_progress _ _ _).trans (emit_progress _ _))))))))⟩
        · obtain ⟨reg, hreg⟩ := bound_of_ne_none hnone
          simp only [if_neg hnone, hreg, Option.some_bind]
          exact ⟨_, rfl, p0.trans (p1.trans ((emit_progress _ _).trans
            ((assign_progress _ _ _).trans ((assign_progress _ _ _).trans
            (emit_progress _ _)))))⟩
      · simp only [if_neg hind, Option.some_bind]
        exact ⟨_, rfl, p0.trans (p1.trans (emit_progress _ _))⟩
  | .Unary .Dereference i e => by
      intro s hs
      have p0 := emit_progress "# === deref\n" s
      obtain ⟨s1, h1, p1⟩ := expr_generate_runs m e _ (p0.nonempty hs)
      obtain ⟨s2, h2, p2, hb⟩ := ensureRegister_runs m e.node s1 (p1.nonempty (p0.nonempty hs))
      simp only [Expr.generate, h1, h2, Option.bind_eq_bind, Option.some_bind, Option.pure_def]
      exact ⟨_, rfl, p0.trans (p1.trans (p2.trans ((write_progress _ _ _).trans
          ((write_progress _ _ _).trans ((emit_progress _ _).trans
          ((assign_progress _ _ _).trans ((assign_progress _ _ _).trans
          (emit_progress _ _))))))))⟩
  | .Unary .Negate i e => by
      intro s hs
      obtain ⟨s1, h1, p1⟩ := expr_generate_runs m e _ hs
      obtain ⟨s2, h2, p2, hb⟩ := ensureRegister_runs m e.node s1 (p1.nonempty hs)
      simp only [Expr.generate, h1, h2, Option.bind_eq_bind, Option.some_bind, Option.pure_def]
      exact ⟨_, rfl, p1.trans (p2.trans ((write_progress _ _ _).trans
          ((emit_progress _ _).trans ((assign_progress _ _ _).trans
          (assign_progress _ _ _)))))⟩
  | .Unary .Not i e => by
      intro s hs
      obtain ⟨s1, h1, p1⟩ := expr_generate_runs m e _ hs
      obtain ⟨s2, h2, p2, hb⟩ := ensureRegister_runs m e.node s1 (p1.nonempty hs)
      obtain ⟨reg, hreg⟩ := bound_of_ne_none hb
      simp only [Expr.generate, h1, h2, Option.bind_eq_bind, Option.some_bind, Option.pure_def,
        emit_nodeReg, write_nodeReg, hreg]
      exact ⟨_, rfl, p1.trans (p2.trans ((write_progress _ _ _).trans
          ((emit_progress _ _).trans ((emit_progress _ _).trans ((write_progress _ _ _).trans
          ((emit_progress _ _).trans ((assign_progress _ _ _).trans
          (assign_progress _ _ _))))))))⟩
  | .Unary .Field _ _ => fun s _ => ⟨s, rfl, Progress.refl s⟩
theorem args_generateCalls_runs (m : Machine) : ∀ (a : Args), Runs (a.generateCalls m)
  | .nil => fun s _ => ⟨s, rfl, Progress.refl s⟩
  | .cons head tail => by
      intro s hs
      obtain ⟨s1, h1, p1⟩ := args_generateCalls_runs m tail s hs
      simp only [Args.generateCalls, h1, Option.bind_eq_bind, Option.some_bind]
      split
      · obtain ⟨s2, h2, p2⟩ := expr_generate_runs m head s1 (p1.nonempty hs)
        exact ⟨s2, h2, p1.trans p2⟩
      · exact ⟨s1, rfl, p1⟩
theorem args_marshal_runs (m : Machine) : ∀ (a : Args) (i : Nat) (s : State) (b : Nat),
    s.registers ≠ [] → ∃ s' b', a.marshal m i (s, b) = some (s', b') ∧ Progress s s'
  | .nil, _, s, b, _ => ⟨s, b, rfl, Progress.refl s⟩
  | .cons head tail, i, s, b, hs => by
      obtain ⟨s1, b1, h1, p1⟩ := args_marshal_runs m tail (i + 1) s b hs
      have hs1 := p1.nonempty hs
      have key : ∀ s2, Progress s1 s2 → ∃ s' b',
          (if i < NUM_PARAM_REGS then
              (parameters.get? i).bind fun reg =>
                pure (assign (some head.node) none (load m (some head.node) reg s2), b1)
            else pure (assign (some head.node) none (pushArgument m head s2),
              b1 + SIZEOF_PARAM)) = some (s', b') ∧ Progress s s' := by
        intro s2 p2
        by_cases hi : i < NUM_PARAM_REGS
        · obtain ⟨reg, hreg⟩ := parameters_get? i hi
          simp only [if_pos hi, hreg, Option.some_bind, Option.pure_def]
          exact ⟨_, _, rfl, p1.trans (p2.trans ((load_progress _ _ _ _).trans
            (assign_progress _ _ _)))⟩
        · simp only [if_neg hi, Option.pure_def]
          exact ⟨_, _, rfl, p1.trans (p2.trans ((pushArgument_progress _ _ _).trans
            (assign_progress _ _ _)))⟩
      rw [Args.marshal]
      simp only [h1, Option.bind_eq_bind, Option.some_bind]
      split
      · obtain ⟨s2, h2, p2⟩ := expr_generate_runs m head s1 hs1
        simp only [h2, Option.some_bind]
        exact key s2 p2
      · simp only [Option.pure_def, Option.some_bind]
        exact key s1 (Progress.refl s1)
end

theorem Expr.generate_indirect_runs (m : Machine) (e : Expr) (s : State)
    (hs : s.registers ≠ []) :
    ∃ indirect s', e.generate_indirect m s = some (indirect, s') ∧ Progress s s' := by
  have fallback : (∃ s', e.generate m s = some s' ∧ Progress s s') :=
    expr_generate_runs m e s hs
  obtain ⟨sf, hf, pf⟩ := fallback
  cases e with
  | Unary op i e =>
      cases op
      case Dereference =>
        have p0 := emit_progress "# === * deref\n" s
        obtain ⟨s1, h1, p1⟩ := expr_generate_runs m e _ (p0.nonempty hs)
        have hs1 := p1.nonempty (p0.nonempty hs)
        simp only [Expr.generate_indirect, h1, Option.bind_eq_bind, Option.some_bind,
          Option.pure_def]
        split
        · obtain ⟨s2, h2, p2, _⟩ := ensureRegister_runs m e.node s1 hs1
          rw [h2]
          simp only [Option.some_bind]
          exact ⟨_, _, rfl, p0.trans (p1.trans (p2.trans ((assign_progress _ _ _).trans
            ((assign_progress _ _ _).trans (emit_progress _ _)))))⟩
        · exact ⟨_, _, rfl, p0.trans (p1.trans ((assign_progress _ _ _).trans
            (emit_progress _ _)))⟩
      all_goals
        simp only [Expr.generate_indirect, hf, Option.bind_eq_bind, Option.some_bind,
          Option.pure_def]
        exact ⟨_, _, rfl, pf⟩
  | _ =>
      simp only [Expr.generate_indirect, hf, Option.bind_eq_bind, Option.some_bind,
        Option.pure_def]
      exact ⟨_, _, rfl, pf⟩

theorem expressionTest_runs (m : Machine) (e : Expr) (label : Nat) (ifTrue : Bool) :
    Runs (expressionTest m e label ifTrue) := by
  intro s hs
  obtain ⟨s1, h1, p1⟩ := expr_generate_runs m e s hs
  obtain ⟨s2, h2, p2, _⟩ := ensureRegister_runs m e.node s1 (p1.nonempty hs)
  simp only [expressionTest, h1, h2, Option.bind_eq_bind, Option.some_bind, Option.pure_def]
  exact ⟨_, rfl, p1.trans (p2.trans ((write_progress _ _ _).trans ((emit_progress _ _).trans
    ((emit_progress _ _).trans (assign_progress _ _ _)))))⟩

theorem relationalTest_runs (m : Machine) (jumpTrue jumpFalse : String) (l r : Expr)
    (label : Nat) (onTrue : Bool) :
    Runs (relationalTest m jumpTrue jumpFalse l r label onTrue) := by
  intro s hs
  obtain ⟨s1, h1, p1⟩ := expr_generate_runs m l s hs
  obtain ⟨s2, h2, p2⟩ := expr_generate_runs m r s1 (p1.nonempty hs)
  obtain ⟨s3, h3, p3, _⟩ := ensureRegister_runs m l.node s2 (p2.nonempty (p1.nonempty hs))
  simp only [relationalTest, h1, h2, h3, Option.bind_eq_bind, Option.some_bind,
    Option.pure_def]
  exact ⟨_, rfl, p1.trans (p2.trans (p3.trans ((write_progress _ _ _).trans
    ((write_progress _ _ _).trans ((emit_progress _ _).trans ((emit_progress _ _).trans
    ((assign_progress _ _ _).trans (assign_progress _ _ _))))))))⟩

theorem Expr.test_runs (m : Machine) : ∀ (e : Expr) (label : Nat) (onTrue : Bool),
    Runs (e.test m label onTrue)
  | .Binary .LessThan _ l r, label, onTrue => by
      simpa only [Expr.test] using relationalTest_runs m _ _ l r label onTrue
  | .Binary .GreaterThan _ l r, label, onTrue => by
      simpa only [Expr.test] using relationalTest_runs m _ _ l r label onTrue
  | .Binary .LessOrEqual _ l r, label, onTrue => by
      simpa only [Expr.test] using relationalTest_runs m _ _ l r label onTrue
  | .Binary .GreaterOrEqual _ l r, label, onTrue => by
      simpa only [Expr.test] using relationalTest_runs m _ _ l r label onTrue
  | .Binary .NotEqual _ l r, label, onTrue => by
      simpa only [Expr.test] using relationalTest_runs m _ _ l r label onTrue
  | .Binary .Equal _ l r, label, onTrue => by
      intro s hs
      have p0 := emit_progress "# ~~~ eql\n" s
      obtain ⟨s1, h1, p1⟩ := relationalTest_runs m "\tje\t" "\tjne\t" l r label onTrue _
        (p0.nonempty hs)
      simp only [Expr.test, h1, Option.bind_eq_bind, Option.some_bind, Option.pure_def]
      exact ⟨_, rfl, p0.trans (p1.trans (emit_progress _ _))⟩
  | .Binary .LogicalOr _ l r, label, _ => by
      intro s hs
      have p0 := (emit_progress "# === or\n" s).trans (newLabel_progress _)
      obtain ⟨s1, h1, p1⟩ := Expr.test_runs m l (newLabel (emit "# === or\n" s)).1 true _
        (p0.nonempty hs)
      obtain ⟨s2, h2, p2⟩ := Expr.test_runs m r label false _ (p1.nonempty (p0.nonempty hs))
      simp only [Expr.test, h1, h2, Option.bind_eq_bind, Option.some_bind, Option.pure_def]
      exact ⟨_, rfl, p0.trans (p1.trans (p2.trans ((emit_progress _ _).trans
        ((emit_progress _ _).trans (emit_progress _ _)))))⟩
  | .Binary .LogicalAnd _ l r, label, _ => by
      intro s hs
      have p0 := emit_progress "# === and\n" s
      obtain ⟨s1, h1, p1⟩ := Expr.test_runs m l label false _ (p0.nonempty hs)
      obtain ⟨s2, h2, p2⟩ := Expr.test_runs m r label false _ (p1.nonempty (p0.nonempty hs))
      simp only [Expr.test, h1, h2, Option.bind_eq_bind, Option.some_bind, Option.pure_def]
      exact ⟨_, rfl, p0.trans (p1.trans (p2.trans (emit_progress _ _)))⟩
  | .Binary .Add _ _ _, label, onTrue => by
      simpa only [Expr.test] using expressionTest_runs m _ label onTrue
  | .Binary .Subtract _ _ _, label, onTrue => by
      simpa only [Expr.test] using expressionTest_runs m _ label onTrue
  | .Binary .Multiply _ _ _, label, onTrue => by
      simpa only [Expr.test] using expressionTest_runs m _ label onTrue
  | .Binary .Divide _ _ _, label, onTrue => by
      simpa only [Expr.test] using expressionTest_runs m _ label onTrue
  | .Binary .Remainder _ _ _, label, onTrue => by
      simpa only [Expr.test] using expressionTest_runs m _ label onTrue
  | .Number _ _, label, onTrue => by
      simpa only [Expr.test] using expressionTest_runs m _ label onTrue
  | .Identifier _ _ _, label, onTrue => by
      simpa only [Expr.test] using expressionTest_runs m _ label onTrue
  | .String _ _, label, onTrue => by
      simpa only [Expr.test] using expressionTest_runs m _ label onTrue
  | .Call _ _ _ _, label, onTrue => by
      simpa only [Expr.test] using expressionTest_runs m _ label onTrue
  | .Unary _ _ _, label, onTrue => by
      simpa only [Expr.test] using expressionTest_runs m _ label onTrue

mutual
theorem statement_generate_runs (m : Machine) : ∀ (stmt : Statement), Runs (stmt.generate m)
  | .Simple e => by
      intro s hs
      obtain ⟨s1, h1, p1⟩ := expr_generate_runs m e s hs
      simp only [Statement.generate, h1, Option.bind_eq_bind, Option.some_bind,
        Option.pure_def]
      exact ⟨_, rfl, p1.trans (assign_progress _ _ _)⟩
  | .Block stmts => by
      intro s hs
      simpa only [Statement.generate] using statements_generate_runs m stmts s hs
  | .Return e => by
      intro s hs
      have p0 := emit_progress "# === retn\n" s
      obtain ⟨s1, h1, p1⟩ := expr_generate_runs m e _ (p0.nonempty hs)
      simp only [Statement.generate, h1, Option.bind_eq_bind, Option.some_bind,
        Option.pure_def]
      exact ⟨_, rfl, p0.trans (p1.trans ((write_progress _ _ _).trans
        ((emit_progress _ _).trans ((emit_progress _ _).trans (emit_progress _ _)))))⟩
  | .While e stmt => by
      intro s hs
      have p0 := (emit_progress "# === whil\n" s).trans ((newLabel_progress _).trans
        ((newLabel_progress _).trans (emit_progress
          (labelText (newLabel (emit "# === whil\n" s)).1 ++ ":\n") _)))
      obtain ⟨s1, h1, p1⟩ := Expr.test_runs m e
        (newLabel (newLabel (emit "# === whil\n" s)).2).1 false _ (p0.nonempty hs)
      obtain ⟨s2, h2, p2⟩ := statement_generate_runs m stmt _ (p1.nonempty (p0.nonempty hs))
      simp only [Statement.generate, h1, h2, Option.bind_eq_bind, Option.some_bind,
        Option.pure_def]
      exact ⟨_, rfl, p0.trans (p1.trans (p2.trans ((emit_progress _ _).trans
        ((emit_progress _ _).trans (emit_progress _ _)))))⟩
  | .If e thenStmt => by
      intro s hs
      have p0 := (emit_progress "# === if\n" s).trans ((newLabel_progress _).trans
        (newLabel_progress _))
      obtain ⟨s1, h1, p1⟩ := Expr.test_runs m e (newLabel (emit "# === if\n" s)).1 true _
        (p0.nonempty hs)
      obtain ⟨s2, h2, p2⟩ := statement_generate_runs m thenStmt _
        (p1.nonempty (p0.nonempty hs))
      simp only [Statement.generate, h1, h2, Option.bind_eq_bind, Option.some_bind,
        Option.pure_def]
      exact ⟨_, rfl, p0.trans (p1.trans (p2.trans ((emit_progress _ _).trans
        (emit_progress _ _))))⟩
  | .IfElse e thenStmt elseStmt => by
      intro s hs
      have p0 := (emit_progress "# === if\n" s).trans ((newLabel_progress _).trans
        (newLabel_progress _))
      obtain ⟨s1, h1, p1⟩ := Expr.test_runs m e (newLabel (emit "# === if\n" s)).1 true _
        (p0.nonempty hs)
      obtain ⟨s2, h2, p2⟩ := statement_generate_runs m thenStmt _
        (p1.nonempty (p0.nonempty hs))
      have p3 := (emit_progress ("\tjmp\t" ++ labelText
          (newLabel (newLabel (emit "# === if\n" s)).2).1 ++ "\n") s2).trans
        (emit_progress (labelText (newLabel (emit "# === if\n" s)).1 ++ ":\n") _)
      obtain ⟨s4, h4, p4⟩ := statement_generate_runs m elseStmt _
        (p3.nonempty (p2.nonempty (p1.nonempty (p0.nonempty hs))))
      simp only [Statement.generate, h1, h2, h4, Option.bind_eq_bind, Option.some_bind,
        Option.pure_def]
      exact ⟨_, rfl, p0.trans (p1.trans (p2.trans (p3.trans (p4.trans
        ((emit_progress _ _).trans (emit_progress _ _))))))⟩
  | .Assignment l r => by
      intro s hs
      have p0 := emit_progress "# === asgn\n" s
      obtain ⟨indirect, s1, h1, p1⟩ := Expr.generate_indirect_runs m l _ (p0.nonempty hs)
      obtain ⟨s2, h2, p2⟩ := expr_generate_runs m r s1 (p1.nonempty (p0.nonempty hs))
      have hs2 := p2.nonempty (p1.nonempty (p0.nonempty hs))
      obtain ⟨s3, h3, p3, _⟩ := ensureRegister_runs m r.node s2 hs2
      simp only [Statement.generate, h1, h2, h3, Option.bind_eq_bind, Option.some_bind,
        Option.pure_def]
      cases indirect
      · simp only [Bool.false_eq_true, if_false, Option.some_bind]
        exact ⟨_, rfl, p0.trans (p1.trans (p2.trans (p3.trans ((write_progress _ _ _).trans
          ((write_progress _ _ _).trans ((emit_progress _ _).trans
          ((assign_progress _ _ _).trans ((assign_progress _ _ _).trans
          (emit_progress _ _)))))))))⟩
      · obtain ⟨s4, h4, p4, hb⟩ := ensureRegister_runs m l.node s3 (p3.nonempty hs2)
        obtain ⟨reg, hreg⟩ := bound_of_ne_none hb
        simp only [if_true, h4, Option.some_bind, write_nodeReg, hreg]
        exact ⟨_, rfl, p0.trans (p1.trans (p2.trans (p3.trans (p4.trans
          ((write_progress _ _ _).trans ((emit_progress _ _).trans
          ((assign_progress _ _ _).trans ((assign_progress _ _ _).trans
          (emit_progress _ _)))))))))⟩
theorem statements_generate_runs (m : Machine) : ∀ (stmts : Statements),
    Runs (stmts.generate m)
  | .nil => fun s _ => ⟨s, rfl, Progress.refl s⟩
  | .cons head tail => by
      intro s hs
      obtain ⟨s1, h1, p1⟩ := statement_generate_runs m head s hs
      obtain ⟨s2, h2, p2⟩ := statements_generate_runs m tail s1 (p1.nonempty hs)
      simp only [Statements.generate, h1, Option.bind_eq_bind, Option.some_bind]
      exact ⟨s2, h2, p1.trans p2⟩
end

/-! ## `align` and the frame size -/

theorem align_of_nonpos (x : Int) (h : x ≤ 0) :
    align x = if x % 16 = 0 then 0 else 16 - (-x) % 16 := by
  unfold align STACK_ALIGNMENT
  have habs : Int.ofNat x.natAbs = -x := by
    have := Int.ofNat_natAbs_of_nonpos h
    simpa using this
  have hmod : (Int.ofNat x.natAbs).tmod 16 = (-x) % 16 := by
    rw [habs]
    exact Int.tmod_eq_emod (by omega) (by omega)
  have hz : x.tmod 16 = 0 ↔ x % 16 = 0 := by
    rw [← Int.dvd_iff_tmod_eq_zero]
    constructor
    · intro hd; exact Int.emod_eq_zero_of_dvd hd
    · intro hd; exact Int.dvd_of_emod_eq_zero hd
  by_cases c : x % 16 = 0
  · rw [if_pos (hz.2 c), if_pos c]
  · rw [if_neg (fun hx => c (hz.1 hx)), if_neg c, hmod]

theorem frameSize_aligned (offset : Int) (h : offset ≤ paramOffset) :
    STACK_ALIGNMENT ∣ frameSize paramOffset offset ∧
    -offset ≤ frameSize paramOffset offset ∧
    frameSize paramOffset offset < -offset + STACK_ALIGNMENT := by
  have hp : paramOffset = 16 := by decide
  rw [hp] at h ⊢
  unfold frameSize
  rw [align_of_nonpos (offset - 16) (by omega)]
  unfold STACK_ALIGNMENT
  split <;> refine ⟨?_, ?_, ?_⟩ <;> omega

theorem foldlM_runs {α : Type} (g : State → α → Option State) (l : List α)
    (hg : ∀ a ∈ l, ∀ s, ∃ s', g s a = some s' ∧ Progress s s') (s : State) :
    ∃ s', l.foldlM g s = some s' ∧ Progress s s' := by
  induction l generalizing s with
  | nil => exact ⟨s, rfl, Progress.refl s⟩
  | cons a l ih =>
      obtain ⟨s1, h1, p1⟩ := hg a (List.mem_cons_self _ _) s
      obtain ⟨s2, h2, p2⟩ := ih (fun b hb => hg b (List.mem_cons_of_mem _ hb)) s1
      refine ⟨s2, ?_, p1.trans p2⟩
      simp only [List.foldlM, h1, Option.bind_eq_bind, Option.some_bind]
      exact h2

theorem storeParameters_runs (f : Function) (hsym : f.params ≤ f.symbols.length)
    (s : State) : ∃ s', storeParameters f s = some s' ∧ Progress s s' := by
  unfold storeParameters
  apply foldlM_runs
  intro i hi s
  have hi6 : i < NUM_PARAM_REGS := by simpa using hi
  split
  · rename_i hlt
    have hl : i < f.symbols.length := lt_of_lt_of_le hlt hsym
    obtain ⟨reg, hreg⟩ := parameters_get? i hi6
    simp only [List.get?_eq_get hl, hreg, Option.bind_eq_bind, Option.some_bind,
      Option.pure_def]
    exact ⟨_, rfl, emit_progress _ _⟩
  · exact ⟨s, rfl, Progress.refl s⟩

theorem Function.prologue_runs (m : Machine) (f : Function)
    (hsym : f.params ≤ f.symbols.length) (s : State) :
    ∃ s0, f.prologue m s = some s0 ∧ s0.registers = caller_saved ∧
      s0.offset ≤ f.allocate paramOffset ∧ s0.func_name = f.name := by
  have key : ∀ sx : State, sx.offset = f.allocate paramOffset → sx.func_name = f.name →
      ∃ s0, ((storeParameters f sx).bind fun s1 => some { s1 with registers :=
          if f.hasCall && callee_saved.length != 0 then callee_saved else caller_saved })
          = some s0 ∧ s0.registers = caller_saved ∧
        s0.offset ≤ f.allocate paramOffset ∧ s0.func_name = f.name := by
    intro sx hoff hname
    obtain ⟨s1, h1, p1⟩ := storeParameters_runs f hsym sx
    rw [h1]
    refine ⟨_, rfl, ?_, ?_, ?_⟩
    · simp [callee_saved]
    · exact hoff ▸ p1.offset
    · exact hname ▸ p1.func_name
  exact key _ rfl rfl

theorem Function.epilogue_set (m : Machine) (s : State) :
    (Function.epilogue m s).offset = - frameSize paramOffset s.offset ∧
    ("\t.set\t" ++ s.func_name ++ ".size, " ++ toString (frameSize paramOffset s.offset) ++
      "\n") ∈ (Function.epilogue m s).out := by
  simp [Function.epilogue, callee_saved, frameSize]

/-- C6: frame alignment.  For every function (with a symbol for each parameter, and
whose `allocate` leaves the offset counter at or below `param_offset`, where frame
slots lie) `Function::generate` returns, and whatever value the offset counter has
when body generation ends, the frame size it then defines for `<name>.size`, namely
`-(offset - align(offset - param_offset))`, is a multiple of `STACK_ALIGNMENT` and is
at least the unrounded magnitude `-offset` (and less than one alignment unit above). -/
theorem frame_alignment (m : Machine) (f : Function) (s : State)
    (hsym : f.params ≤ f.symbols.length)
    (halloc : f.allocate paramOffset ≤ paramOffset) :
    ∃ s0 sb, f.prologue m s = some s0 ∧ f.body.generate m s0 = some sb ∧
      f.generate m s = some (Function.epilogue m sb) ∧
      ("\t.set\t" ++ f.name ++ ".size, " ++ toString (frameSize paramOffset sb.offset) ++
        "\n") ∈ (Function.epilogue m sb).out ∧
      STACK_ALIGNMENT ∣ frameSize paramOffset sb.offset ∧
      -sb.offset ≤ frameSize paramOffset sb.offset ∧
      frameSize paramOffset sb.offset < -sb.offset + STACK_ALIGNMENT := by
  obtain ⟨s0, h0, hreg, hoff, hname⟩ := Function.prologue_runs m f hsym s
  have hne : s0.registers ≠ [] := by
    rw [hreg]
    decide
  obtain ⟨sb, hb, pb⟩ := statement_generate_runs m f.body s0 hne
  have hle : sb.offset ≤ paramOffset := le_trans pb.offset (le_trans hoff halloc)
  have hset := (Function.epilogue_set m sb).2
  rw [pb.func_name, hname] at hset
  refine ⟨s0, sb, h0, hb, ?_, hset, frameSize_aligned sb.offset hle⟩
  simp only [Function.generate, h0, hb, Option.bind_eq_bind, Option.some_bind,
    Option.pure_def]

/-! ## Spills and the offset counter -/

theorem load_spill_offset (m : Machine) (s : State) (expr : Option Node) (reg : Register)
    (n : Node) (hocc : s.regNode reg = some n) (hne : expr ≠ some n) :
    (load m expr reg s).offset = s.offset - n.size ∧
    (load m expr reg s).nodeOffset n = s.offset - n.size := by
  have hcond : s.regNode reg ≠ expr := by
    rw [hocc]
    exact fun c => hne c.symm
  rw [load_eq, if_pos hcond]
  simp only [assign_offset, assign_nodeOffset]
  unfold loadMoves
  rw [hocc]
  cases expr <;> simp

theorem load_no_spill_offset (m : Machine) (s : State) (expr : Option Node)
    (reg : Register) (h : s.regNode reg = none ∨ s.regNode reg = expr) :
    (load m expr reg s).offset = s.offset := by
  rw [load_eq]
  split
  · rename_i hcond
    rcases h with h | h
    · simp only [assign_offset]
      unfold loadMoves
      rw [h]
      cases expr <;> simp
    · exact absurd h hcond
  · rfl

/-- C7: offset monotonicity.  When `load` spills a node, the offset counter moves down
by exactly the node's type size and the new value is the slot assigned to the node, so
for every spilled node of positive type size (the type sizes are 1, 4 and 8) the newly
assigned offset is strictly smaller than the previous value of the counter; a `load`
that does not spill leaves the counter alone, and no statement's generation raises the
counter.  Hence within one function body each slot assigned by a spill lies strictly
below every offset assigned earlier. -/
theorem offset_monotonicity (m : Machine) (s : State) (expr : Option Node)
    (reg : Register) :
    (∀ n, s.regNode reg = some n → expr ≠ some n →
        (load m expr reg s).offset = s.offset - n.size ∧
        (load m expr reg s).nodeOffset n = (load m expr reg s).offset ∧
        (0 < n.size → (load m expr reg s).offset < s.offset)) ∧
    (s.regNode reg = none ∨ s.regNode reg = expr → (load m expr reg s).offset = s.offset) ∧
    (∀ stmt : Statement, s.registers ≠ [] →
        ∃ s', stmt.generate m s = some s' ∧ s'.offset ≤ s.offset) := by
  refine ⟨fun n hocc hne => ?_, load_no_spill_offset m s expr reg, fun stmt hs => ?_⟩
  · obtain ⟨h1, h2⟩ := load_spill_offset m s expr reg n hocc hne
    refine ⟨h1, by rw [h1, h2], fun hpos => ?_⟩
    rw [h1]
    have : (0 : Int) < n.size := by exact_mod_cast hpos
    omega
  · obtain ⟨s', h, p⟩ := statement_generate_runs m stmt s hs
    exact ⟨s', h, p.offset⟩

/-- C7 at a concrete spill: flushing `r11`, which holds the 4-byte temporary of
`fullState`, assigns it the slot `-12(%rbp)`, below the counter's value `-8`. -/
theorem offset_monotonicity_witness :
    fullState.regNode Register.r11 = some tempA ∧ (none : Option Node) ≠ some tempA ∧
    0 < tempA.size ∧
    (load plainMachine none Register.r11 fullState).nodeOffset tempA =
      (load plainMachine none Register.r11 fullState).offset ∧
    (load plainMachine none Register.r11 fullState).offset < fullState.offset := by
  obtain ⟨h, _, _⟩ := offset_monotonicity plainMachine fullState none Register.r11
  obtain ⟨_, h2, h3⟩ := h tempA (by decide) (by simp)
  exact ⟨by decide, by simp, by decide, h2, h3 (by decide)⟩

/-- C6 at a concrete function: `sampleFunction`, whose `allocate` leaves the counter
at -4. -/
theorem frame_alignment_witness :
    sampleFunction.params ≤ sampleFunction.symbols.length ∧
    sampleFunction.allocate paramOffset ≤ paramOffset ∧
    ∃ s0 sb, sampleFunction.prologue plainMachine freshState = some s0 ∧
      sampleFunction.body.generate plainMachine s0 = some sb ∧
      sampleFunction.generate plainMachine freshState =
        some (Function.epilogue plainMachine sb) ∧
      ("\t.set\t" ++ sampleFunction.name ++ ".size, " ++
        toString (frameSize paramOffset sb.offset) ++ "\n") ∈
          (Function.epilogue plainMachine sb).out ∧
      STACK_ALIGNMENT ∣ frameSize paramOffset sb.offset ∧
      -sb.offset ≤ frameSize paramOffset sb.offset ∧
      frameSize paramOffset sb.offset < -sb.offset + STACK_ALIGNMENT :=
  ⟨by decide, by decide,
   frame_alignment plainMachine sampleFunction freshState (by decide) (by decide)⟩
open X86

/-! ## Two concrete programs -/

set_option maxHeartbeats 1000000 in
theorem returnFourteen_out (m : Machine) :
    ((Statement.Return twoPlusThreeTimesFour).generate m freshState).map (fun s => s.out) =
      some (returnFourteenCode.map Instr.text) := by
  rfl

theorem returnFourteen_run (cpu : Cpu) :
    (run returnFourteenCode (returnFourteenCode.length + 1) 0 cpu).map
      (fun x => (x.1, x.2.eax)) = some (some freshState.return_label, 14) := by
  rfl

set_option maxHeartbeats 1000000 in
theorem ifOneLessThanTwo_out (m : Machine) :
    (ifOneLessThanTwo.generate m freshState).map (fun s => s.out) =
      some (ifOneLessThanTwoCode.map Instr.text) := by
  rfl

theorem ifOneLessThanTwo_run (cpu : Cpu) :
    (run ifOneLessThanTwoCode (ifOneLessThanTwoCode.length + 1) 0 cpu).map
      (fun x => (x.1, x.2.eax)) = some (some freshState.return_label, 0) := by
  rfl

/-- C9: for `return 2 + 3 * 4;` over 4-byte integers, generated with all registers free,
generation returns, the emitted chunks are exactly the instructions of
`returnFourteenCode`, and executing them from any processor state leaves 14 in `%eax`
and ends with the jump to the function's return label. -/
theorem return_two_plus_three_times_four (m : Machine) (cpu : Cpu) :
    ∃ s', (Statement.Return twoPlusThreeTimesFour).generate m freshState = some s' ∧
      s'.out = returnFourteenCode.map Instr.text ∧
      ∃ cpu', run returnFourteenCode (returnFourteenCode.length + 1) 0 cpu =
          some (some freshState.return_label, cpu') ∧
        cpu'.eax = 14 := by
  obtain ⟨s', h1, h2⟩ := Option.map_eq_some'.1 (returnFourteen_out m)
  obtain ⟨x, h3, h4⟩ := Option.map_eq_some'.1 (returnFourteen_run cpu)
  obtain ⟨exit, cpu'⟩ := x
  simp only [Prod.mk.injEq] at h4
  obtain ⟨rfl, h5⟩ := h4
  exact ⟨s', h1, h2, cpu', h3, h5⟩

/-- C8, the code at the failing input: for `if (1 < 2) return 1; else return 0;`
generation returns, the emitted chunks are exactly the instructions of
`ifOneLessThanTwoCode`, whose conditional jump `jl` leaves for the else-branch when the
condition is true, and executing them from any processor state ends at the function's
return label with 0 in `%eax`, not 1. -/
theorem if_one_less_than_two_returns_zero (m : Machine) (cpu : Cpu) :
    ∃ s', ifOneLessThanTwo.generate m freshState = some s' ∧
      s'.out = ifOneLessThanTwoCode.map Instr.text ∧
      ∃ cpu', run ifOneLessThanTwoCode (ifOneLessThanTwoCode.length + 1) 0 cpu =
          some (some freshState.return_label, cpu') ∧
        cpu'.eax = 0 ∧ cpu'.eax ≠ 1 := by
  obtain ⟨s', h1, h2⟩ := Option.map_eq_some'.1 (ifOneLessThanTwo_out m)
  obtain ⟨x, h3, h4⟩ := Option.map_eq_some'.1 (ifOneLessThanTwo_run cpu)
  obtain ⟨exit, cpu'⟩ := x
  simp only [Prod.mk.injEq] at h4
  obtain ⟨rfl, h5⟩ := h4
  exact ⟨s', h1, h2, cpu', h3, h5, by rw [h5]; decide⟩

/-! ## Binary arithmetic nodes -/

theorem assign_nodeReg_self {s : State} (hb : Bijection s) (e : Node)
    (reg : Option Register) : (assign (some e) reg s).nodeReg e = reg := by
  have hc : ¬ ∃ r, reg = some r ∧ s.regNode r = some e ∧
      ¬ ∃ e', some e = some e' ∧ s.nodeReg e' = some r := by
    rintro ⟨r, _, h2, h3⟩
    exact h3 ⟨e, rfl, (hb r e).1 h2⟩
  rw [assign_nodeReg, if_neg hc, if_pos rfl]

theorem assign_regNode_self (s : State) (expr : Option Node) (r : Register) :
    (assign expr (some r) s).regNode r = expr := by
  rw [assign_regNode, if_pos rfl]

theorem assign_nodeReg_evicted {s : State} (hb : Bijection s) (expr : Option Node)
    (r : Register) (n : Node) (hocc : s.regNode r = some n) (hne : expr ≠ some n) :
    (assign expr (some r) s).nodeReg n = none := by
  have hc : ∃ r', some r = some r' ∧ s.regNode r' = some n ∧
      ¬ ∃ e, expr = some e ∧ s.nodeReg e = some r' := by
    refine ⟨r, rfl, hocc, ?_⟩
    rintro ⟨e, rfl, he⟩
    have := (hb r e).2 he
    rw [hocc] at this
    exact hne this.symm
  rw [assign_nodeReg, if_pos hc]

theorem assign_nodeReg_other (s : State) (expr : Option Node) (reg : Option Register)
    (n : Node) (hne : expr ≠ some n) (hfree : ∀ r, reg = some r → s.regNode r ≠ some n) :
    (assign expr reg s).nodeReg n = s.nodeReg n := by
  have hc : ¬ ∃ r, reg = some r ∧ s.regNode r = some n ∧
      ¬ ∃ e, expr = some e ∧ s.nodeReg e = some r := by
    rintro ⟨r, h1, h2, _⟩
    exact hfree r h1 h2
  rw [assign_nodeReg, if_neg hc, if_neg hne]

theorem load_nodeReg_self (m : Machine) {s : State} (hb : Bijection s) (n : Node)
    (reg : Register) : (load m (some n) reg s).nodeReg n = some reg := by
  rw [load_eq]
  split
  · exact assign_nodeReg_self (bijection_congr (by simp) (by simp) hb) n _
  · rename_i hcond
    have : s.regNode reg = some n := by
      by_contra c
      exact hcond c
    exact (hb reg n).1 this

theorem write_bound (m : Machine) (n : Node) (s : State) (reg : Register)
    (h : s.nodeReg n = some reg) : write m n s = (reg.name n.size, s) := by
  simp [write, h]

/-- What `Add::generate`, `Subtract::generate` and `Multiply::generate` do once both
operands are generated. -/
theorem arithmetic_spec (m : Machine) (opcode : String) (sized this left right : Node)
    (s : State) (hb : Bijection s) (hne : s.registers ≠ [])
    (h1 : this ≠ left) (h2 : this ≠ right) (h3 : left ≠ right) :
    ∃ s3 reg s', ensureRegister m left s = some s3 ∧ s.out <+: s3.out ∧
      s3.nodeReg left = some reg ∧
      arithmetic m opcode sized this left right s = some s' ∧
      s'.out = s3.out ++ [opcode ++ suffix sized.size ++ (write m right s3).1 ++ ", " ++
        reg.name left.size ++ "\n"] ∧
      s'.nodeReg right = none ∧ s'.nodeReg left = none ∧
      s'.nodeReg this = some reg ∧ s'.regNode reg = some this := by
  obtain ⟨s3, he, p3, hbound⟩ := ensureRegister_runs m left s hne
  obtain ⟨reg, hreg⟩ := bound_of_ne_none hbound
  have hb3 : Bijection s3 := p3.bijection hb
  -- the state when the opcode has been written
  have hwl : write m left (write m right s3).2 = (reg.name left.size, (write m right s3).2) :=
    write_bound m left _ reg (by simpa using hreg)
  have hbe : Bijection (emit (opcode ++ suffix sized.size ++ (write m right s3).1 ++ ", " ++
      reg.name left.size ++ "\n") (write m right s3).2) :=
    bijection_congr (by simp) (by simp) hb3
  generalize hse : emit (opcode ++ suffix sized.size ++ (write m right s3).1 ++ ", " ++
      reg.name left.size ++ "\n") (write m right s3).2 = se at hbe
  have hse_out : se.out = s3.out ++ [opcode ++ suffix sized.size ++ (write m right s3).1 ++
      ", " ++ reg.name left.size ++ "\n"] := by
    rw [← hse]; simp
  have hse_left : se.nodeReg left = some reg := by
    rw [← hse]; simpa using hreg
  -- release of the right operand
  have hb1 : Bijection (assign (some right) none se) := assign_bijection _ _ _ hbe
  have hl1 : (assign (some right) none se).nodeReg left = some reg := by
    rw [assign_nodeReg_other se (some right) none left
      (fun c => h3 (Option.some.inj c).symm) (fun r hr => by cases hr)]
    exact hse_left
  have hr1 : (assign (some right) none se).nodeReg right = none :=
    assign_nodeReg_self hbe right none
  have hocc : (assign (some right) none se).regNode reg = some left := (hb1 reg left).2 hl1
  refine ⟨s3, reg, assign (some this) (some reg) (assign (some right) none se), he, p3.out,
    hreg, ?_, by simp [hse_out], ?_, ?_, ?_, ?_⟩
  · simp only [arithmetic, he, Option.bind_eq_bind, Option.some_bind, Option.pure_def, hwl,
      hse, hl1]
  · rw [assign_nodeReg_other _ (some this) (some reg) right
      (fun c => h2 (Option.some.inj c))]
    · exact hr1
    · intro r hr
      cases hr
      rw [hocc]
      exact fun c => h3 (Option.some.inj c)
  · exact assign_nodeReg_evicted hb1 (some this) reg left hocc
      (fun c => h1 (Option.some.inj c))
  · exact assign_nodeReg_self hb1 this (some reg)
  · exact assign_regNode_self _ _ _

/-- What `Divide::generate` and `Remainder::generate` do once both operands are
generated. -/
theorem division_spec (m : Machine) (result : Register) (this left right : Node)
    (s : State) (hb : Bijection s) (h1 : this ≠ left) :
    (load m (some left) Register.rax s).nodeReg left = some Register.rax ∧
    (division m result this left right s).out =
      (load m (some left) Register.rax s).out ++ ["\tcltd\n",
        "\tidiv" ++ suffix right.size ++
          (write m right (emit "\tcltd\n" (load m (some left) Register.rax s))).1 ++ "\n"] ∧
    (division m result this left right s).nodeReg this = some result ∧
    (division m result this left right s).regNode result = some this ∧
    (result = Register.rax → (division m result this left right s).nodeReg left = none) := by
  have hbl : Bijection (load m (some left) Register.rax s) := load_bijection _ _ _ _ hb
  have hl := load_nodeReg_self m hb left Register.rax
  have hbe : Bijection (emit ("\tidiv" ++ suffix right.size ++
      (write m right (emit "\tcltd\n" (load m (some left) Register.rax s))).1 ++ "\n")
      (write m right (emit "\tcltd\n" (load m (some left) Register.rax s))).2) :=
    bijection_congr (by simp) (by simp) hbl
  refine ⟨hl, by simp [division], ?_, ?_, ?_⟩
  · exact assign_nodeReg_self hbe this (some result)
  · exact assign_regNode_self _ _ _
  · rintro rfl
    apply assign_nodeReg_evicted hbe (some this) Register.rax left _
      (fun c => h1 (Option.some.inj c))
    apply (hbe Register.rax left).2
    simpa using hl

/-- C10 (as amended): binary arithmetic nodes.  On a non-empty pool, from a state that
satisfies the register bijection, for distinct nodes `this`, `left`, `right`: `generate`
of each of `Add`, `Subtract`, `Multiply`, `Divide`, `Remainder` returns; it emits the
left operand's code, then the right operand's code, then (after the move that brings
the left operand into a register, if one is needed) the opcode.  For `Add`,
`Subtract` and `Multiply` the right operand and the left operand are bound to no
register afterwards and the result node is bound to the register that held the left
operand when the opcode was emitted.  For `Divide` the result node is bound to `rax`,
which held the left operand when `idiv` was emitted, and the left operand is bound to
no register.  For `Remainder` the result node is bound to `rdx`. -/
theorem binary_arithmetic_generate (m : Machine) (s : State) (i : Info) (l r : Expr)
    (hb : Bijection s) (hne : s.registers ≠ [])
    (hl : i.node ≠ l.node) (hr : i.node ≠ r.node) (hlr : l.node ≠ r.node) :
    ∃ s1 s2, l.generate m s = some s1 ∧ r.generate m s1 = some s2 ∧
      s.out <+: s1.out ∧ s1.out <+: s2.out ∧
      (∃ s3 reg s', ensureRegister m l.node s2 = some s3 ∧ s2.out <+: s3.out ∧
        s3.nodeReg l.node = some reg ∧
        (Expr.Binary .Add i l r).generate m s = some s' ∧
        s'.out = s3.out ++ ["\tadd" ++ suffix l.node.size ++ (write m r.node s3).1 ++ ", " ++
          reg.name l.node.size ++ "\n"] ∧
        s'.nodeReg r.node = none ∧ s'.nodeReg l.node = none ∧
        s'.nodeReg i.node = some reg ∧ s'.regNode reg = some i.node) ∧
      (∃ s3 reg s', ensureRegister m l.node s2 = some s3 ∧ s2.out <+: s3.out ∧
        s3.nodeReg l.node = some reg ∧
        (Expr.Binary .Subtract i l r).generate m s = some s' ∧
        s'.out = s3.out ++ ["\tsub" ++ suffix l.node.size ++ (write m r.node s3).1 ++ ", " ++
          reg.name l.node.size ++ "\n"] ∧
        s'.nodeReg r.node = none ∧ s'.nodeReg l.node = none ∧
        s'.nodeReg i.node = some reg ∧ s'.regNode reg = some i.node) ∧
      (∃ s3 reg s', ensureRegister m l.node s2 = some s3 ∧ s2.out <+: s3.out ∧
        s3.nodeReg l.node = some reg ∧
        (Expr.Binary .Multiply i l r).generate m s = some s' ∧
        s'.out = s3.out ++ ["\timul" ++ suffix r.node.size ++ (write m r.node s3).1 ++ ", " ++
          reg.name l.node.size ++ "\n"] ∧
        s'.nodeReg r.node = none ∧ s'.nodeReg l.node = none ∧
        s'.nodeReg i.node = some reg ∧ s'.regNode reg = some i.node) ∧
      (∃ s', (Expr.Binary .Divide i l r).generate m s = some s' ∧
        s2.out <+: (load m (some l.node) Register.rax s2).out ∧
        (load m (some l.node) Register.rax s2).nodeReg l.node = some Register.rax ∧
        s'.out = (load m (some l.node) Register.rax s2).out ++ ["\tcltd\n",
          "\tidiv" ++ suffix r.node.size ++
            (write m r.node (emit "\tcltd\n" (load m (some l.node) Register.rax s2))).1 ++
            "\n"] ∧
        s'.nodeReg i.node = some Register.rax ∧ s'.regNode Register.rax = some i.node ∧
        s'.nodeReg l.node = none) ∧
      (∃ s', (Expr.Binary .Remainder i l r).generate m s = some s' ∧
        s2.out <+: (load m (some l.node) Register.rax s2).out ∧
        (load m (some l.node) Register.rax s2).nodeReg l.node = some Register.rax ∧
        s'.out = (load m (some l.node) Register.rax s2).out ++ ["\tcltd\n",
          "\tidiv" ++ suffix r.node.size ++
            (write m r.node (emit "\tcltd\n" (load m (some l.node) Register.rax s2))).1 ++
            "\n"] ∧
        s'.nodeReg i.node = some Register.rdx ∧ s'.regNode Register.rdx = some i.node) := by
  obtain ⟨s1, h1, p1⟩ := expr_generate_runs m l s hne
  obtain ⟨s2, h2, p2⟩ := expr_generate_runs m r s1 (p1.nonempty hne)
  have hb2 : Bijection s2 := p2.bijection (p1.bijection hb)
  have hne2 : s2.registers ≠ [] := p2.nonempty (p1.nonempty hne)
  refine ⟨s1, s2, h1, h2, p1.out, p2.out, ?_, ?_, ?_, ?_, ?_⟩
  · obtain ⟨s3, reg, s', e1, e2, e3, e4, e5, e6, e7, e8, e9⟩ :=
      arithmetic_spec m "\tadd" l.node i.node l.node r.node s2 hb2 hne2 hl hr hlr
    refine ⟨s3, reg, s', e1, e2, e3, ?_, e5, e6, e7, e8, e9⟩
    simp only [Expr.generate, h1, h2, Option.bind_eq_bind, Option.some_bind]
    exact e4
  · obtain ⟨s3, reg, s', e1, e2, e3, e4, e5, e6, e7, e8, e9⟩ :=
      arithmetic_spec m "\tsub" l.node i.node l.node r.node s2 hb2 hne2 hl hr hlr
    refine ⟨s3, reg, s', e1, e2, e3, ?_, e5, e6, e7, e8, e9⟩
    simp only [Expr.generate, h1, h2, Option.bind_eq_bind, Option.some_bind]
    exact e4
  · obtain ⟨s3, reg, s', e1, e2, e3, e4, e5, e6, e7, e8, e9⟩ :=
      arithmetic_spec m "\timul" r.node i.node l.node r.node s2 hb2 hne2 hl hr hlr
    refine ⟨s3, reg, s', e1, e2, e3, ?_, e5, e6, e7, e8, e9⟩
    simp only [Expr.generate, h1, h2, Option.bind_eq_bind, Option.some_bind]
    exact e4
  · obtain ⟨d1, d2, d3, d4, d5⟩ :=
      division_spec m Register.rax i.node l.node r.node s2 hb2 hl
    refine ⟨division m Register.rax i.node l.node r.node s2, ?_,
      (load_progress m _ _ s2).out, d1, d2, d3, d4, d5 rfl⟩
    simp only [Expr.generate, h1, h2, Option.bind_eq_bind, Option.some_bind, Option.pure_def]
  · obtain ⟨d1, d2, d3, d4, _⟩ :=
      division_spec m Register.rdx i.node l.node r.node s2 hb2 hl
    refine ⟨division m Register.rdx i.node l.node r.node s2, ?_,
      (load_progress m _ _ s2).out, d1, d2, d3, d4⟩
    simp only [Expr.generate, h1, h2, Option.bind_eq_bind, Option.some_bind, Option.pure_def]

/-- C10 at a concrete tree: `2 + 3 * 4` generated from `freshState`. -/
theorem binary_arithmetic_generate_witness :
    Bijection freshState ∧ freshState.registers ≠ [] ∧
    ∃ s', twoPlusThreeTimesFour.generate plainMachine freshState = some s' ∧
      s'.nodeReg ⟨2, 4, .Other⟩ = none ∧ s'.nodeReg ⟨1, 4, .Number 2⟩ = none ∧
      ∃ reg, s'.nodeReg ⟨0, 4, .Other⟩ = some reg ∧ s'.regNode reg = some ⟨0, 4, .Other⟩ := by
  refine ⟨freshState_bijection, by decide, ?_⟩
  obtain ⟨_, _, _, _, _, _, ⟨_, reg, s', _, _, _, hg, _, h1, h2, h3, h4⟩, _⟩ :=
    binary_arithmetic_generate plainMachine freshState ⟨0, 4, 0, false⟩
      (.Number ⟨1, 4, 0, false⟩ 2)
      (.Binary .Multiply ⟨2, 4, 0, false⟩ (.Number ⟨3, 4, 0, false⟩ 3)
        (.Number ⟨4, 4, 0, false⟩ 4))
      freshState_bijection (by decide) (by decide) (by decide) (by decide)
  exact ⟨s', hg, h1, h2, reg, h3, h4⟩

/-- C10 (as stated) fails for `Remainder`: after `8 % (1 + 1)` is generated with all
registers free, the right operand still has its register `r11`, the left operand still
has `rax`, and the result node is bound to `rdx`, not to the register that held the
left operand. -/
theorem remainder_leaves_operands_bound :
    (eightModTwo.generate plainMachine freshState).map
      (fun s => (s.nodeReg ⟨2, 4, .Other⟩, s.nodeReg ⟨1, 4, .Number 8⟩,
        s.nodeReg ⟨0, 4, .Other⟩, s.out)) =
      some (some Register.r11, some Register.rax, some Register.rdx,
        ["\tmovl\t$1, %r11d\n", "\taddl\t$1, %r11d\n", "\tmovl\t$8, %eax\n", "\tcltd\n",
         "\tidivl\t%r11d\n"]) := by
  decide
open X86

/-! ## `align` on every integer -/

theorem align_eq_emod (x : Int) :
    align x = if x % 16 = 0 then 0 else 16 - |x| % 16 := by
  unfold align STACK_ALIGNMENT
  have habs : Int.ofNat x.natAbs = |x| := (Int.abs_eq_natAbs x).symm
  have hmod : (Int.ofNat x.natAbs).tmod 16 = |x| % 16 := by
    rw [habs]
    exact Int.tmod_eq_emod (abs_nonneg x) (by omega)
  have hz : x.tmod 16 = 0 ↔ x % 16 = 0 := by
    rw [← Int.dvd_iff_tmod_eq_zero]
    constructor
    · intro hd; exact Int.emod_eq_zero_of_dvd hd
    · intro hd; exact Int.dvd_of_emod_eq_zero hd
  by_cases c : x % 16 = 0
  · rw [if_pos (hz.2 c), if_pos c]
  · rw [if_neg (fun hx => c (hz.1 hx)), if_neg c, hmod]

/-- C20: `align` returns the number of bytes needed to align its argument.  For every
integer `x`, `0 <= align(x) < STACK_ALIGNMENT`, `|x| + align(x)` is a multiple of
`STACK_ALIGNMENT`, and `align(x) = 0` exactly when `x` is a multiple of
`STACK_ALIGNMENT`. -/
theorem align_contract (x : Int) :
    0 ≤ align x ∧ align x < STACK_ALIGNMENT ∧ STACK_ALIGNMENT ∣ |x| + align x ∧
    (align x = 0 ↔ STACK_ALIGNMENT ∣ x) := by
  rw [align_eq_emod]
  unfold STACK_ALIGNMENT
  rcases abs_cases x with ⟨h, _⟩ | ⟨h, _⟩ <;> rw [h] <;> split <;>
    refine ⟨?_, ?_, ?_, ?_⟩ <;> omega
open X86

/-! ## The logical operators and the polarity of `test` -/

theorem bothTrue_out (polarity : Bool) :
    (bothTrue.test plainMachine 7 polarity freshState).map (fun s => s.out) =
      some (bothTrueCode.map Instr.text) := by
  cases polarity <;> decide

theorem bothTrue_run (cpu : Cpu) :
    (run bothTrueCode (bothTrueCode.length + 1) 0 cpu).map (fun x => x.1) = some none := by
  rfl

theorem eitherTrue_out (polarity : Bool) :
    (eitherTrue.test plainMachine 7 polarity freshState).map (fun s => s.out) =
      some (eitherTrueCode.map Instr.text) := by
  cases polarity <;> decide

theorem eitherTrue_run (cpu : Cpu) :
    (run eitherTrueCode (eitherTrueCode.length + 1) 0 cpu).map (fun x => x.1) = some none := by
  rfl

/-- C11, the code at the failing inputs: `LogicalAnd::test` and `LogicalOr::test` never
look at the polarity, so `test(label, true)` and `test(label, false)` are the same
emitter for every node of these two kinds.  For `(1 < 2) && (1 < 2)` and for
`(1 < 2) || (1 < 2)`, whose value is true, the code emitted by `test(.L7, true)` is the
code emitted by `test(.L7, false)`, and executed from any processor state it runs off
its end without ever branching to `.L7`. -/
theorem logical_tests_ignore_polarity (m : Machine) :
    (∀ (i : Info) (l r : Expr) (label : Nat) (s : State),
        (Expr.Binary .LogicalAnd i l r).test m label true s =
          (Expr.Binary .LogicalAnd i l r).test m label false s) ∧
    (∀ (i : Info) (l r : Expr) (label : Nat) (s : State),
        (Expr.Binary .LogicalOr i l r).test m label true s =
          (Expr.Binary .LogicalOr i l r).test m label false s) ∧
    (∀ polarity : Bool,
        (bothTrue.test plainMachine 7 polarity freshState).map (fun s => s.out) =
          some (bothTrueCode.map Instr.text)) ∧
    (∀ cpu : Cpu,
        (run bothTrueCode (bothTrueCode.length + 1) 0 cpu).map (fun x => x.1) = some none) ∧
    (∀ polarity : Bool,
        (eitherTrue.test plainMachine 7 polarity freshState).map (fun s => s.out) =
          some (eitherTrueCode.map Instr.text)) ∧
    (∀ cpu : Cpu,
        (run eitherTrueCode (eitherTrueCode.length + 1) 0 cpu).map (fun x => x.1) =
          some none) := by
  refine ⟨fun i l r label s => ?_, fun i l r label s => ?_, bothTrue_out, bothTrue_run,
    eitherTrue_out, eitherTrue_run⟩
  · simp only [Expr.test]
  · simp only [Expr.test]

theorem trueOrElse_out :
    (trueOrElse.test plainMachine 7 false freshState).map (fun s => s.out) =
      some (trueOrElseCode.map Instr.text) := by
  decide

theorem trueOrElse_run (cpu : Cpu) :
    (run trueOrElseCode (trueOrElseCode.length + 1) 0 cpu).map
      (fun x => (x.1, x.2.compared)) = some (none, (3, 4)) := by
  rfl

/-- C12, the code at the failing input.  What is emitted has the stated shape:
`LogicalAnd::test` is `left.test(label, false)` then `right.test(label, false)`
between two comment lines, and `LogicalOr::test` is `left.test(skip, true)` for a new
label `skip`, then `right.test(label, false)`, then the definition of `skip` (followed
by `movl $1, %eax`).  But for `((1 < 2) && (1 < 2)) || (3 < 4)` the left operand is
true and the instructions of the right operand are executed all the same: the run
ends with the operands 3 and 4 of the right operand's `cmp` as the last ones
compared. -/
theorem short_circuit_or_runs_right_operand (m : Machine) :
    (∀ (i : Info) (l r : Expr) (label : Nat) (polarity : Bool) (s : State),
        (Expr.Binary .LogicalAnd i l r).test m label polarity s =
          ((l.test m label false (emit "# === and\n" s)).bind fun s1 =>
            (r.test m label false s1).bind fun s2 => some (emit "# --- and\n" s2))) ∧
    (∀ (i : Info) (l r : Expr) (label : Nat) (polarity : Bool) (s : State),
        (Expr.Binary .LogicalOr i l r).test m label polarity s =
          ((l.test m (emit "# === or\n" s).labels true
              (newLabel (emit "# === or\n" s)).2).bind fun s1 =>
            (r.test m label false s1).bind fun s2 =>
              some (emit "# --- or\n" (emit "\tmovl\t$1, %eax\n"
                (emit (labelText (emit "# === or\n" s).labels ++ ":\n") s2))))) ∧
    (trueOrElse.test plainMachine 7 false freshState).map (fun s => s.out) =
      some (trueOrElseCode.map Instr.text) ∧
    (∀ cpu : Cpu,
        (run trueOrElseCode (trueOrElseCode.length + 1) 0 cpu).map
          (fun x => (x.1, x.2.compared)) = some (none, (3, 4))) := by
  refine ⟨fun i l r label polarity s => ?_, fun i l r label polarity s => ?_,
    trueOrElse_out, trueOrElse_run⟩
  · simp only [Expr.test]
    rfl
  · simp only [Expr.test]
    rfl
open X86

/-! ## `Cast::generate` -/

theorem Expr.node_size (e : Expr) : e.node.size = e.info.size := by
  cases e <;> rfl

/-- C13 (as amended): `Cast::generate`.  After the operand's own `generate`, the operand
is brought into a register if it is not in one (`ensureRegister`: nothing is emitted
when it already has a register).  For a cast whose target size is at most the
operand's size nothing else is emitted but the closing comment line; for a cast whose
target size is greater, exactly one `movslq` from the operand's register into its
quad name is emitted.  In both cases the cast node ends bound to the operand's
register and the operand bound to none. -/
theorem cast_generate (m : Machine) (s : State) (i : Info) (e : Expr)
    (hb : Bijection s) (hne : s.registers ≠ []) (hd : i.node ≠ e.node) :
    ∃ s1 s2 reg s', e.generate m (emit "# === cast\n" s) = some s1 ∧
      ensureRegister m e.node s1 = some s2 ∧
      (s1.nodeReg e.node ≠ none → s2 = s1) ∧
      s2.nodeReg e.node = some reg ∧
      (Expr.Unary .Cast i e).generate m s = some s' ∧
      (i.size ≤ e.info.size → s'.out = s2.out ++ ["# --- cast\n"]) ∧
      (e.info.size < i.size → s'.out = s2.out ++
        ["\tmovslq\t" ++ reg.name e.info.size ++ ", " ++ reg.as_qword ++ "\n",
         "# --- cast\n"]) ∧
      s'.nodeReg i.node = some reg ∧ s'.regNode reg = some i.node ∧
      s'.nodeReg e.node = none := by
  have p0 := emit_progress "# === cast\n" s
  obtain ⟨s1, h1, p1⟩ := expr_generate_runs m e _ (p0.nonempty hne)
  obtain ⟨s2, h2, p2, hbound⟩ := ensureRegister_runs m e.node s1 (p1.nonempty (p0.nonempty hne))
  obtain ⟨reg, hreg⟩ := bound_of_ne_none hbound
  have hb2 : Bijection s2 := p2.bijection (p1.bijection (p0.bijection hb))
  have hocc : s2.regNode reg = some e.node := (hb2 reg e.node).2 hreg
  have hkeep : s1.nodeReg e.node ≠ none → s2 = s1 := by
    intro hx
    unfold ensureRegister at h2
    rw [if_neg hx] at h2
    exact (Option.some.inj h2).symm
  have hne' : (some i.node : Option Node) ≠ some e.node := fun c => hd (Option.some.inj c)
  by_cases hsize : i.size ≤ e.info.size
  · refine ⟨s1, s2, reg, emit "# --- cast\n" (assign (some i.node) (some reg) s2), h1, h2,
      hkeep, hreg, ?_, fun _ => by simp, fun hlt => absurd hsize (by omega), ?_, ?_, ?_⟩
    · simp only [Expr.generate, h1, h2, Option.bind_eq_bind, Option.some_bind,
        Option.pure_def, if_pos hsize, hreg]
    · simpa using assign_nodeReg_self hb2 i.node (some reg)
    · simpa using assign_regNode_self s2 (some i.node) reg
    · simpa using assign_nodeReg_evicted hb2 (some i.node) reg e.node hocc hne'
  · have hw : write m e.node s2 = (reg.name e.node.size, s2) := write_bound m e.node s2 reg hreg
    have hbe : Bijection (emit ("\tmovslq\t" ++ reg.name e.node.size ++ ", " ++
        reg.as_qword ++ "\n") s2) := bijection_congr (by simp) (by simp) hb2
    have hba := assign_bijection (some i.node) (some reg) _ hbe
    have hev : (assign (some i.node) (some reg) (emit ("\tmovslq\t" ++ reg.name e.node.size ++
        ", " ++ reg.as_qword ++ "\n") s2)).nodeReg e.node = none :=
      assign_nodeReg_evicted hbe (some i.node) reg e.node (by simpa using hocc) hne'
    have hi : (assign (some i.node) (some reg) (emit ("\tmovslq\t" ++ reg.name e.node.size ++
        ", " ++ reg.as_qword ++ "\n") s2)).nodeReg i.node = some reg :=
      assign_nodeReg_self hbe i.node (some reg)
    refine ⟨s1, s2, reg, emit "# --- cast\n" (assign (some e.node) none
      (assign (some i.node) (some reg) (emit ("\tmovslq\t" ++ reg.name e.node.size ++ ", " ++
        reg.as_qword ++ "\n") s2))), h1, h2, hkeep, hreg, ?_,
      fun hle => absurd hle hsize, fun _ => by simp [Expr.node_size], ?_, ?_, ?_⟩
    · simp only [Expr.generate, h1, h2, Option.bind_eq_bind, Option.some_bind,
        Option.pure_def, if_neg hsize, hreg, hw, emit_nodeReg]
    · simp only [emit_nodeReg]
      rw [assign_nodeReg_other _ (some e.node) none i.node (fun c => hne' c.symm)
        (fun r hr => by cases hr)]
      exact hi
    · simp only [emit_regNode]
      rw [assign_regNode, if_neg (by simp)]
      have hc : ¬ ∃ e', some e.node = some e' ∧ (assign (some i.node) (some reg)
          (emit ("\tmovslq\t" ++ reg.name e.node.size ++ ", " ++ reg.as_qword ++ "\n")
            s2)).nodeReg e' = some reg := by
        rintro ⟨e', he', hx⟩
        cases he'
        rw [hev] at hx
        cases hx
      rw [if_neg hc]
      exact assign_regNode_self _ _ _
    · simp only [emit_nodeReg]
      exact assign_nodeReg_self hba e.node none

/-- C13 at a concrete cast: `(int) 5` generated from `freshState`. -/
theorem cast_generate_witness :
    Bijection freshState ∧ freshState.registers ≠ [] ∧
    ∃ s', castOfNumber.generate plainMachine freshState = some s' ∧
      ∃ reg, s'.nodeReg ⟨0, 4, .Other⟩ = some reg ∧ s'.regNode reg = some ⟨0, 4, .Other⟩ ∧
      s'.nodeReg ⟨1, 4, .Number 5⟩ = none := by
  refine ⟨freshState_bijection, by decide, ?_⟩
  obtain ⟨_, _, reg, s', _, _, _, _, hg, _, _, h1, h2, h3⟩ :=
    cast_generate plainMachine freshState ⟨0, 4, 0, false⟩ (.Number ⟨1, 4, 0, false⟩ 5)
      freshState_bijection (by decide) (by decide)
  exact ⟨s', hg, reg, h1, h2, h3⟩

/-- C13 (as stated) fails: the operand of the equal-width cast `(int) 5` is a number,
its own `generate` emits nothing, and the cast emits the move that loads it. -/
theorem cast_of_number_emits_a_load :
    ((Expr.Number ⟨1, 4, 0, false⟩ 5).generate plainMachine freshState).map
      (fun s => s.out) = some [] ∧
    (castOfNumber.generate plainMachine freshState).map (fun s => s.out) =
      some ["# === cast\n", "\tmovl\t$5, %r11d\n", "# --- cast\n"] := by
  decide
open X86

/-! ## What `Function::generate` resets -/

theorem foldlM_keeps {α β : Type} (g : State → α → Option State) (proj : State → β)
    (hg : ∀ s a s', g s a = some s' → proj s' = proj s) (l : List α) (s s' : State)
    (h : l.foldlM g s = some s') : proj s' = proj s := by
  induction l generalizing s with
  | nil =>
      simp only [List.foldlM, Option.pure_def, Option.some.injEq] at h
      rw [← h]
  | cons a l ih =>
      simp only [List.foldlM, Option.bind_eq_bind] at h
      cases hga : g s a with
      | none => simp [hga] at h
      | some s1 =>
          rw [hga, Option.some_bind] at h
          rw [ih s1 h, hg s a s1 hga]

theorem storeParameters_keeps {β : Type} (proj : State → β)
    (hp : ∀ t s, proj (emit t s) = proj s) (f : Function) (s s' : State)
    (h : storeParameters f s = some s') : proj s' = proj s := by
  unfold storeParameters at h
  refine foldlM_keeps _ proj ?_ _ s s' h
  intro s i s1 hstep
  split at hstep
  · simp only [Option.bind_eq_bind, Option.bind_eq_some, Option.pure_def,
      Option.some.injEq] at hstep
    obtain ⟨symbol, _, reg, _, hx⟩ := hstep
    rw [← hx, hp]
  · simp only [Option.pure_def, Option.some.injEq] at hstep
    rw [← hstep]

/-- What the prologue of `Function::generate` does to the register pool and the frame
state: the counter and the pool vector are set anew, the occupancy of the registers is
left as it was. -/
theorem Function.prologue_state (m : Machine) (f : Function) (s s0 : State)
    (h : f.prologue m s = some s0) :
    s0.offset = f.allocate paramOffset ∧ s0.registers = caller_saved ∧
    s0.regNode = s.regNode ∧ s0.nodeReg = s.nodeReg := by
  have key : ∀ sx : State, sx.offset = f.allocate paramOffset →
      sx.regNode = s.regNode → sx.nodeReg = s.nodeReg →
      ((storeParameters f sx).bind fun s1 => some { s1 with registers :=
          if f.hasCall && callee_saved.length != 0 then callee_saved else caller_saved })
          = some s0 →
      s0.offset = f.allocate paramOffset ∧ s0.registers = caller_saved ∧
        s0.regNode = s.regNode ∧ s0.nodeReg = s.nodeReg := by
    intro sx hoff hrn hnr hx
    cases hsp : storeParameters f sx with
    | none => simp [hsp] at hx
    | some s1 =>
        rw [hsp, Option.some_bind, Option.some.injEq] at hx
        have k1 := storeParameters_keeps (fun s => s.offset) (fun _ _ => rfl) f sx s1 hsp
        have k2 := storeParameters_keeps (fun s => s.regNode) (fun _ _ => rfl) f sx s1 hsp
        have k3 := storeParameters_keeps (fun s => s.nodeReg) (fun _ _ => rfl) f sx s1 hsp
        subst hx
        refine ⟨k1.trans hoff, by simp [callee_saved], k2.trans hrn, k3.trans hnr⟩
  refine key _ ?_ ?_ ?_ h <;> rfl

/-- C19, the code at the failing input.  The prologue of `Function::generate` sets the
offset counter anew and installs the pool, but it leaves the occupancy of the
registers as the previous function left it.  After
`int f(int a, int b) { return a + b; }` has been generated, the body of the next
function `g` starts with the counter re-initialised and with `r11` still occupied by
the node `a + b` of `f`, which `Return::generate` never released. -/
theorem registers_survive_the_function_end (m : Machine) :
    (∀ (f : Function) (s s0 : State), f.prologue m s = some s0 →
        s0.offset = f.allocate paramOffset ∧ s0.registers = caller_saved ∧
        s0.regNode = s.regNode ∧ s0.nodeReg = s.nodeReg) ∧
    ((sumFunction.generate plainMachine startState).bind
        (zeroFunction.prologue plainMachine)).map
      (fun s => (s.offset, s.registers, s.regNode Register.r11,
        s.nodeReg ⟨0, 4, .Other⟩)) =
      some (0, caller_saved, some ⟨0, 4, .Other⟩, some Register.r11) ∧
    (sumFunction.generate plainMachine startState).map (fun s => s.out) =
      some ["f:\n", "\tpushq\t%rbp\n", "\tmovq\t%rsp, %rbp\n", "\tmovl\t$f.size, %eax\n",
        "\tsubq\t%rax, %rsp\n", "\tmovl\t%edi, -4(%rbp)\n", "\tmovl\t%esi, -8(%rbp)\n",
        "# === retn\n", "\tmovl\t-4(%rbp), %r11d\n", "\taddl\t-8(%rbp), %r11d\n",
        "\tmovl\t%r11d, %eax\n", "\tjmp\t.L0\n", "# --- retn\n", ".L0:\n", "\nf.exit:\n",
        "\tmovq\t%rbp, %rsp\n", "\tpopq\t%rbp\n", "\tret\n\n", "\t.set\tf.size, 16\n",
        "\t.globl\tf\n", "\t.type\tf, @function\n\n"] := by
  refine ⟨fun f s s0 h => Function.prologue_state m f s s0 h, by decide, by decide⟩

/-! ## `Call::generate` in parts -/

theorem call_generate_eq (m : Machine) (i : Info) (name : String) (noParameters : Bool)
    (args : Args) (s : State) :
    (Expr.Call i name noParameters args).generate m s =
      (args.generateCalls m (emit "# === call\n" s)).bind fun s1 =>
        (args.marshal m 0 (callReserve (callPadding args.size) s1,
            callPadding args.size)).bind fun x =>
          some (callFinish m i name noParameters x.2 (spillCallerSaved m x.1)) := by
  simp only [Expr.generate, Option.bind_eq_bind, Option.pure_def]
  rfl

theorem args_size_toList : ∀ (args : Args), args.size = args.toList.length
  | .nil => rfl
  | .cons _ tail => by
      simp only [Args.size, Args.toList, List.length_cons, args_size_toList tail]

/-- The count `bytesPushed` after the second loop of `Call::generate`. -/
theorem args_marshal_bytes (m : Machine) : ∀ (args : Args) (i : Nat) (s : State) (b : Nat)
    (s' : State) (b' : Nat), args.marshal m i (s, b) = some (s', b') →
    b' = b + SIZEOF_PARAM * ((i + args.size - NUM_PARAM_REGS) - (i - NUM_PARAM_REGS))
  | .nil, i, s, b, s', b', h => by
      simp only [Args.marshal, Option.some.injEq, Prod.mk.injEq] at h
      simp only [Args.size, SIZEOF_PARAM, NUM_PARAM_REGS]
      omega
  | .cons head tail, i, s, b, s', b', h => by
      rw [Args.marshal] at h
      simp only [Option.bind_eq_bind, Option.bind_eq_some] at h
      obtain ⟨⟨s1, b1⟩, h1, h2⟩ := h
      have ih := args_marshal_bytes m tail (i + 1) s b s1 b1 h1
      have key : ∀ s2 : State,
          (if i < NUM_PARAM_REGS then
              (parameters.get? i).bind fun reg =>
                pure (assign (some head.node) none (load m (some head.node) reg s2), b1)
            else pure (assign (some head.node) none (pushArgument m head s2),
              b1 + SIZEOF_PARAM)) = some (s', b') →
          b' = b1 + (if i < NUM_PARAM_REGS then 0 else SIZEOF_PARAM) := by
        intro s2 hx
        by_cases hlt : i < NUM_PARAM_REGS
        · rw [if_pos hlt] at hx
          simp only [Option.bind_eq_some, Option.pure_def, Option.some.injEq,
            Prod.mk.injEq] at hx
          obtain ⟨_, _, _, hb⟩ := hx
          rw [if_pos hlt, ← hb, Nat.add_zero]
        · rw [if_neg hlt] at hx
          simp only [Option.pure_def, Option.some.injEq, Prod.mk.injEq] at hx
          rw [if_neg hlt, ← hx.2]
      have hb' : b' = b1 + (if i < NUM_PARAM_REGS then 0 else SIZEOF_PARAM) := by
        simp only [] at h2
        split at h2
        · simp only [Option.bind_eq_some] at h2
          obtain ⟨s2, _, hx⟩ := h2
          exact key s2 hx
        · simp only [Option.pure_def, Option.some_bind] at h2
          exact key s1 h2
      rw [hb', ih]
      simp only [Args.size, SIZEOF_PARAM, NUM_PARAM_REGS]
      split <;> omega

/-! ## Stack accounting of a call -/

theorem callPadding_small (n : Nat) (h : n ≤ NUM_PARAM_REGS) : callPadding n = 0 := by
  unfold callPadding
  rw [if_neg (by omega)]

theorem callPadding_aligned (n : Nat) (h : n > NUM_PARAM_REGS) :
    callPadding n < 16 ∧
    (16 : Int) ∣ ((callPadding n + SIZEOF_PARAM * (n - NUM_PARAM_REGS) : Nat) : Int) := by
  unfold callPadding
  rw [if_pos h]
  unfold NUM_PARAM_REGS SIZEOF_PARAM at *
  have hx : ((((n - 6) * 8 : Nat) : Int)) = 8 * ((n : Int) - 6) := by
    push_cast [Nat.cast_sub (by omega : 6 ≤ n)]
    ring
  rw [hx, align_eq_emod]
  have habs : |8 * ((n : Int) - 6)| = 8 * ((n : Int) - 6) := abs_of_nonneg (by omega)
  rw [habs]
  have hcast : (((n - 6 : Nat) : Nat) : Int) = (n : Int) - 6 := by
    push_cast [Nat.cast_sub (by omega : 6 ≤ n)]
    ring
  split
  · refine ⟨by simp, ?_⟩
    push_cast [hcast]
    omega
  · have hpos : 0 ≤ 16 - 8 * ((n : Int) - 6) % 16 := by omega
    refine ⟨by omega, ?_⟩
    push_cast [hcast, Int.toNat_of_nonneg hpos]
    omega

theorem callFinish_out (m : Machine) (i : Info) (name : String) (noParameters : Bool)
    (bytes : Nat) (s : State) :
    (callFinish m i name noParameters bytes s).out =
      s.out ++ (if noParameters then ["\tmovl\t$0, %eax\n"] else []) ++
        ["\tcall\t" ++ m.global_prefix ++ name ++ "\n"] ++
        (if bytes > 0 then ["\taddq\t$" ++ toString bytes ++ ", %rsp\n"] else []) ++
        ["# --- call\n"] := by
  unfold callFinish
  cases noParameters <;> by_cases hb : bytes > 0 <;> simp [hb]

theorem callReserve_out (padding : Nat) (s : State) :
    (callReserve padding s).out =
      s.out ++ (if padding > 0 then ["\tsubq\t$" ++ toString padding ++ ", %rsp\n"]
        else []) := by
  unfold callReserve
  by_cases hb : padding > 0 <;> simp [hb]

theorem callReserve_progress (padding : Nat) (s : State) :
    Progress s (callReserve padding s) :=
  ite_emit_progress _ _ _

/-- `Call::generate` returns on a non-empty pool; the states after its two loops. -/
theorem call_generate_runs (m : Machine) (i : Info) (name : String) (noParameters : Bool)
    (args : Args) (s : State) (hne : s.registers ≠ []) :
    ∃ s1 s3 bytes, args.generateCalls m (emit "# === call\n" s) = some s1 ∧
      args.marshal m 0 (callReserve (callPadding args.size) s1, callPadding args.size) =
        some (s3, bytes) ∧
      (Expr.Call i name noParameters args).generate m s =
        some (callFinish m i name noParameters bytes (spillCallerSaved m s3)) ∧
      Progress s s1 ∧ Progress s1 s3 ∧
      bytes = callPadding args.size + SIZEOF_PARAM * (args.size - NUM_PARAM_REGS) := by
  have p0 := emit_progress "# === call\n" s
  obtain ⟨s1, h1, p1⟩ := args_generateCalls_runs m args _ (p0.nonempty hne)
  have p2 := callReserve_progress (callPadding args.size) s1
  obtain ⟨s3, bytes, h3, p3⟩ := args_marshal_runs m args 0 _ (callPadding args.size)
    (p2.nonempty (p1.nonempty (p0.nonempty hne)))
  refine ⟨s1, s3, bytes, h1, h3, ?_, p0.trans p1, p2.trans p3, ?_⟩
  · rw [call_generate_eq, h1, Option.some_bind, h3, Option.some_bind]
  · have := args_marshal_bytes m args 0 _ _ _ _ h3
    simpa using this

/-- C16: stack accounting of a call with `n` arguments.  `Call::generate` returns; the
amount it adds back to `%rsp` is the padding reserved up front plus `SIZEOF_PARAM` for
each of the `n - NUM_PARAM_REGS` pushed arguments.  If `n <= NUM_PARAM_REGS` that
amount and the padding are 0 and the call emits neither the `subq` before nor the
`addq` after the call instruction; if `n > NUM_PARAM_REGS` the `addq` of that amount
follows the call instruction and the amount is a positive multiple of
`STACK_ALIGNMENT`. -/
theorem call_stack_accounting (m : Machine) (i : Info) (name : String)
    (noParameters : Bool) (args : Args) (s : State) (hne : s.registers ≠ []) :
    ∃ s1 s3 bytes, args.generateCalls m (emit "# === call\n" s) = some s1 ∧
      args.marshal m 0 (callReserve (callPadding args.size) s1, callPadding args.size) =
        some (s3, bytes) ∧
      (Expr.Call i name noParameters args).generate m s =
        some (callFinish m i name noParameters bytes (spillCallerSaved m s3)) ∧
      bytes = callPadding args.size + SIZEOF_PARAM * (args.size - NUM_PARAM_REGS) ∧
      (callReserve (callPadding args.size) s1).out = s1.out ++
        (if callPadding args.size > 0 then
          ["\tsubq\t$" ++ toString (callPadding args.size) ++ ", %rsp\n"] else []) ∧
      (callFinish m i name noParameters bytes (spillCallerSaved m s3)).out =
        (spillCallerSaved m s3).out ++
          (if noParameters then ["\tmovl\t$0, %eax\n"] else []) ++
          ["\tcall\t" ++ m.global_prefix ++ name ++ "\n"] ++
          (if bytes > 0 then ["\taddq\t$" ++ toString bytes ++ ", %rsp\n"] else []) ++
          ["# --- call\n"] ∧
      (args.size ≤ NUM_PARAM_REGS → callPadding args.size = 0 ∧ bytes = 0) ∧
      (args.size > NUM_PARAM_REGS → 0 < bytes ∧ STACK_ALIGNMENT ∣ (bytes : Int)) := by
  obtain ⟨s1, s3, bytes, h1, h3, hg, _, _, hbytes⟩ :=
    call_generate_runs m i name noParameters args s hne
  refine ⟨s1, s3, bytes, h1, h3, hg, hbytes, callReserve_out _ _, callFinish_out _ _ _ _ _ _,
    fun hle => ?_, fun hgt => ?_⟩
  · have hp := callPadding_small args.size hle
    refine ⟨hp, ?_⟩
    rw [hbytes, hp]
    unfold NUM_PARAM_REGS at hle
    simp only [NUM_PARAM_REGS, SIZEOF_PARAM]
    omega
  · obtain ⟨_, hdvd⟩ := callPadding_aligned args.size hgt
    refine ⟨?_, ?_⟩
    · rw [hbytes]
      unfold NUM_PARAM_REGS at hgt
      simp only [NUM_PARAM_REGS, SIZEOF_PARAM]
      omega
    · rw [hbytes]
      exact hdvd

/-- C16 at a concrete call: `f(1, 2, 3, 4, 5, 6, 7)` pushes one argument, reserves 8
bytes of padding and adds 16 bytes back. -/
theorem call_stack_accounting_witness :
    freshState.registers ≠ [] ∧
    ∃ s', sevenArgumentCall.generate plainMachine freshState = some s' ∧
      "\taddq\t$16, %rsp\n" ∈ s'.out := by
  refine ⟨by decide, ?_⟩
  obtain ⟨s1, s3, bytes, _, _, hg, hbytes, _, hout, _, _⟩ :=
    call_stack_accounting plainMachine ⟨0, 4, 0, false⟩ "f" false
      (.cons (.Number ⟨1, 4, 0, false⟩ 1) (.cons (.Number ⟨2, 4, 0, false⟩ 2)
      (.cons (.Number ⟨3, 4, 0, false⟩ 3) (.cons (.Number ⟨4, 4, 0, false⟩ 4)
      (.cons (.Number ⟨5, 4, 0, false⟩ 5) (.cons (.Number ⟨6, 4, 0, false⟩ 6)
      (.cons (.Number ⟨7, 4, 0, false⟩ 7) .nil)))))))
      freshState (by decide)
  refine ⟨_, hg, ?_⟩
  have h16 : bytes = 16 := by
    rw [hbytes]
    decide
  rw [hout, h16]
  simp only [List.mem_append, List.mem_singleton]
  exact Or.inl (Or.inr (by decide))

/-! ## The flush of the caller-saved registers -/

theorem load_none_free (m : Machine) (reg : Register) (s : State)
    (h : s.regNode reg = none) : load m none reg s = s := by
  rw [load_eq, if_neg (by simp [h])]

theorem load_none_spills (m : Machine) (reg : Register) (n : Node) (s : State)
    (h : s.regNode reg = some n) :
    (∀ r, (load m none reg s).regNode r = if r = reg then none else s.regNode r) ∧
    (∀ n', (load m none reg s).nodeReg n' = if n' = n then none else s.nodeReg n') ∧
    (∀ n', (load m none reg s).nodeOffset n' =
        if n' = n then s.offset - n.size else s.nodeOffset n') ∧
    (load m none reg s).out = s.out ++ [spillText reg n (s.offset - n.size)] := by
  rw [load_none_occupied m reg n s h]
  refine ⟨fun r => ?_, fun n' => ?_, fun n' => ?_, ?_⟩
  · rw [assign_regNode]
    by_cases c : r = reg
    · subst c; simp
    · have : ¬ (some reg = some r) := fun x => c (Option.some.inj x).symm
      simp [this, c]
  · rw [assign_nodeReg]
    by_cases c : n' = n
    · subst c
      have : ∃ r, some reg = some r ∧ (spill reg n' s).regNode r = some n' ∧
          ¬ ∃ e, (none : Option Node) = some e ∧ (spill reg n' s).nodeReg e = some r :=
        ⟨reg, rfl, by simpa using h, by simp⟩
      rw [if_pos this, if_pos rfl]
    · have : ¬ ∃ r, some reg = some r ∧ (spill reg n s).regNode r = some n' ∧
          ¬ ∃ e, (none : Option Node) = some e ∧ (spill reg n s).nodeReg e = some r := by
        rintro ⟨r, hr, hx, _⟩
        cases hr
        simp only [spill_regNode] at hx
        rw [h] at hx
        exact c (Option.some.inj hx).symm
      rw [if_neg this, if_neg (by simp), if_neg c]
      simp
  · simp
  · simp [spillText]

/-- The loop that spills a list of distinct registers: afterwards none of them has an
occupant, every former occupant has been stored to a slot of its own and has no
register, and nothing else has changed hands. -/
theorem flush_spec (m : Machine) : ∀ (regs : List Register) (s : State),
    regs.Nodup → Bijection s →
    Bijection (regs.foldl (fun s reg => load m none reg s) s) ∧
    (∀ r ∈ regs, (regs.foldl (fun s reg => load m none reg s) s).regNode r = none) ∧
    (∀ r, r ∉ regs →
      (regs.foldl (fun s reg => load m none reg s) s).regNode r = s.regNode r) ∧
    (∀ n, (∀ r ∈ regs, s.regNode r ≠ some n) →
      (regs.foldl (fun s reg => load m none reg s) s).nodeReg n = s.nodeReg n ∧
      (regs.foldl (fun s reg => load m none reg s) s).nodeOffset n = s.nodeOffset n) ∧
    ∃ stores, (regs.foldl (fun s reg => load m none reg s) s).out = s.out ++ stores ∧
      ∀ r ∈ regs, ∀ n, s.regNode r = some n →
        (regs.foldl (fun s reg => load m none reg s) s).nodeReg n = none ∧
        spillText r n ((regs.foldl (fun s reg => load m none reg s) s).nodeOffset n) ∈ stores
  | [], s, _, hb => by
      refine ⟨hb, fun r hr => ?_, fun r _ => rfl, fun n _ => ⟨rfl, rfl⟩, [], by simp, ?_⟩
      · cases hr
      · intro r hr
        cases hr
  | reg :: rest, s, hnd, hb => by
      have hnd' : rest.Nodup := (List.nodup_cons.1 hnd).2
      have hnotin : reg ∉ rest := (List.nodup_cons.1 hnd).1
      have hb1 : Bijection (load m none reg s) := load_bijection m none reg s hb
      obtain ⟨ib, ifree, ikeep, inode, stores, iout, ispill⟩ :=
        flush_spec m rest (load m none reg s) hnd' hb1
      simp only [List.foldl_cons]
      cases hocc : s.regNode reg with
      | none =>
          have hs1 : load m none reg s = s := load_none_free m reg s hocc
          rw [hs1] at ib ifree ikeep inode iout ispill ⊢
          refine ⟨ib, fun r hr => ?_, fun r hr => ?_, fun n hn => ?_, stores, iout,
            fun r hr n hrn => ?_⟩
          · rcases List.mem_cons.1 hr with rfl | hr'
            · rw [ikeep r hnotin, hocc]
            · exact ifree r hr'
          · exact ikeep r (fun c => hr (List.mem_cons_of_mem _ c))
          · exact inode n (fun r hr => hn r (List.mem_cons_of_mem _ hr))
          · rcases List.mem_cons.1 hr with rfl | hr'
            · rw [hocc] at hrn
              cases hrn
            · exact ispill r hr' n hrn
      | some n0 =>
          obtain ⟨l1, l2, l3, l4⟩ := load_none_spills m reg n0 s hocc
          have hothers : ∀ r ∈ rest, (load m none reg s).regNode r ≠ some n0 := by
            intro r hr hx
            have hr' : r ≠ reg := fun c => hnotin (c ▸ hr)
            rw [l1, if_neg hr'] at hx
            have e1 := (hb r n0).1 hx
            have e2 := (hb reg n0).1 hocc
            rw [e1] at e2
            exact hr' (Option.some.inj e2)
          refine ⟨ib, fun r hr => ?_, fun r hr => ?_, fun n hn => ?_,
            spillText reg n0 (s.offset - n0.size) :: stores, ?_, fun r hr n hrn => ?_⟩
          · rcases List.mem_cons.1 hr with rfl | hr'
            · rw [ikeep r hnotin, l1, if_pos rfl]
            · exact ifree r hr'
          · have hr' : r ≠ reg := fun c => hr (c ▸ List.mem_cons_self _ _)
            rw [ikeep r (fun c => hr (List.mem_cons_of_mem _ c)), l1, if_neg hr']
          · have hn0 : n ≠ n0 := by
              intro c
              exact hn reg (List.mem_cons_self _ _) (c ▸ hocc)
            have hrest : ∀ r ∈ rest, (load m none reg s).regNode r ≠ some n := by
              intro r hr hx
              have hr' : r ≠ reg := fun c => hnotin (c ▸ hr)
              rw [l1, if_neg hr'] at hx
              exact hn r (List.mem_cons_of_mem _ hr) hx
            obtain ⟨k1, k2⟩ := inode n hrest
            rw [k1, k2, l2, l3, if_neg hn0, if_neg hn0]
            exact ⟨rfl, rfl⟩
          · rw [iout, l4]
            simp
          · rcases List.mem_cons.1 hr with rfl | hr'
            · rw [hocc] at hrn
              cases hrn
              obtain ⟨k1, k2⟩ := inode n0 hothers
              rw [k1, k2, l2, l3, if_pos rfl, if_pos rfl]
              exact ⟨rfl, List.mem_cons_self _ _⟩
            · have hr'' : r ≠ reg := fun c => hnotin (c ▸ hr')
              have hx : (load m none reg s).regNode r = some n := by
                rw [l1, if_neg hr'']
                exact hrn
              obtain ⟨k1, k2⟩ := ispill r hr' n hx
              exact ⟨k1, List.mem_cons_of_mem _ k2⟩


theorem callFinish_regNode (m : Machine) (i : Info) (name : String) (noParameters : Bool)
    (bytes : Nat) (s : State) (r : Register) :
    (callFinish m i name noParameters bytes s).regNode r =
      (assign (some i.node) (some Register.rax) s).regNode r := by
  unfold callFinish
  cases noParameters <;> by_cases hb : bytes > 0 <;>
    simp only [hb, if_true, if_false, emit_regNode, assign_regNode, emit_nodeReg] <;> rfl

theorem callFinish_nodeReg (m : Machine) (i : Info) (name : String) (noParameters : Bool)
    (bytes : Nat) (s : State) (n : Node) :
    (callFinish m i name noParameters bytes s).nodeReg n =
      (assign (some i.node) (some Register.rax) s).nodeReg n := by
  unfold callFinish
  cases noParameters <;> by_cases hb : bytes > 0 <;>
    simp only [hb, if_true, if_false, emit_regNode, assign_nodeReg, emit_nodeReg] <;> rfl

theorem caller_saved_nodup : caller_saved.Nodup := by decide

/-- C17: flush before call.  On a consistent state with a non-empty pool
`Call::generate` returns.  With `s3` the state when the arguments have been marshalled,
the loop over `caller_saved` appends a list `stores` to the output, the call instruction
comes after it, and for each node `n` that occupies a caller-saved register `r` in `s3`
the store of `r` to the frame slot of `n` is in `stores` and `n` has no register when
the call instruction is emitted.  When `Call::generate` returns, the call node is bound
to `rax`, `rax` holds the call node, and no other caller-saved register has an
occupant. -/
theorem flush_before_call (m : Machine) (i : Info) (name : String) (noParameters : Bool)
    (args : Args) (s : State) (hb : Bijection s) (hne : s.registers ≠ []) :
    ∃ s1 s3 bytes stores final,
      args.generateCalls m (emit "# === call\n" s) = some s1 ∧
      args.marshal m 0 (callReserve (callPadding args.size) s1, callPadding args.size) =
        some (s3, bytes) ∧
      (Expr.Call i name noParameters args).generate m s = some final ∧
      (spillCallerSaved m s3).out = s3.out ++ stores ∧
      final.out = s3.out ++ stores ++
        (if noParameters then ["\tmovl\t$0, %eax\n"] else []) ++
        ["\tcall\t" ++ m.global_prefix ++ name ++ "\n"] ++
        (if bytes > 0 then ["\taddq\t$" ++ toString bytes ++ ", %rsp\n"] else []) ++
        ["# --- call\n"] ∧
      (∀ r ∈ caller_saved, ∀ n, s3.regNode r = some n →
        (spillCallerSaved m s3).nodeReg n = none ∧
        spillText r n ((spillCallerSaved m s3).nodeOffset n) ∈ stores) ∧
      (∀ r ∈ caller_saved, (spillCallerSaved m s3).regNode r = none) ∧
      final.nodeReg i.node = some Register.rax ∧
      final.regNode Register.rax = some i.node ∧
      (∀ r ∈ caller_saved, r ≠ Register.rax → final.regNode r = none) := by
  obtain ⟨s1, s3, bytes, h1, h3, hg, p1, p3, _⟩ :=
    call_generate_runs m i name noParameters args s hne
  have hb3 : Bijection s3 := p3.bijection (p1.bijection hb)
  obtain ⟨_, hfree, _, _, stores, hout, hspill⟩ :=
    flush_spec m caller_saved s3 caller_saved_nodup hb3
  have hrax : (spillCallerSaved m s3).regNode Register.rax = none :=
    hfree Register.rax (by decide)
  refine ⟨s1, s3, bytes, stores, _, h1, h3, hg, hout, ?_, hspill, hfree, ?_, ?_, ?_⟩
  · have hout' : (spillCallerSaved m s3).out = s3.out ++ stores := hout
    rw [callFinish_out, hout']
  · rw [callFinish_nodeReg]
    exact assign_binds _ _ _ hrax
  · rw [callFinish_regNode, assign_regNode, if_pos rfl]
  · intro r hr hne'
    have hx : ¬ (some Register.rax = some r) := fun c => hne' (Option.some.inj c).symm
    rw [callFinish_regNode, assign_regNode, if_neg hx]
    split
    · rfl
    · exact hfree r hr

/-- C17 at a concrete call: `g()` from a state in which `r11` and `r10` are occupied. -/
theorem flush_before_call_witness :
    Bijection fullState ∧ fullState.registers ≠ [] ∧
    ∃ final, (Expr.Call ⟨9, 4, 0, false⟩ "g" false .nil).generate plainMachine fullState =
        some final ∧
      final.nodeReg (Info.node ⟨9, 4, 0, false⟩) = some Register.rax ∧
      final.regNode Register.r11 = none ∧ final.regNode Register.r10 = none := by
  refine ⟨fullState_bijection, by decide, ?_⟩
  obtain ⟨_, _, _, _, final, _, _, hg, _, _, _, _, hbound, _, hfree⟩ :=
    flush_before_call plainMachine ⟨9, 4, 0, false⟩ "g" false .nil fullState
      fullState_bijection (by decide)
  exact ⟨final, hg, hbound, hfree _ (by decide) (by decide), hfree _ (by decide) (by decide)⟩

/-! ## The argument protocol of a call -/

theorem parameters_get?_eq (i : Nat) (h : i < NUM_PARAM_REGS) :
    parameters.get? i = some (parameterRegister i) := by
  unfold NUM_PARAM_REGS at h
  interval_cases i <;> rfl

theorem sumsAroundCall_out :
    (sumsAroundCall.generate plainMachine freshState).map (fun s => s.out) =
      some (["\tmovl\t$1, %r11d\n", "\taddl\t$2, %r11d\n", "\tmovl\t$3, %r10d\n",
          "\taddl\t$4, %r10d\n", "# === call\n"] ++
        sixArgumentCode.map Instr.text ++
        ["\tmovl\t%r11d, -4(%rbp)\n", "\tmovl\t%r10d, -8(%rbp)\n", "\tcall\tf\n",
          "# --- call\n", "\tmovl\t-8(%rbp), %r11d\n", "\taddl\t%eax, %r11d\n",
          "\tmovl\t-4(%rbp), %r10d\n", "\taddl\t%r11d, %r10d\n"]) := by
  decide

theorem sixArgumentCode_run (cpu : Cpu) :
    (run sixArgumentCode (sixArgumentCode.length + 1) 0 cpu).map
      (fun x => (x.1, x.2.regs Register.r9)) = some (none, 15) := by
  rfl

theorem sixthArgument_register :
    ((onePlusTwo.generate plainMachine freshState).bind fun s =>
      (threePlusFour.generate plainMachine s).bind fun held =>
        (Args.marshal plainMachine 5 (.cons (.Number ⟨14, 4, 0, false⟩ 60) .nil)
            (emit "# === call\n" held, 0)).bind fun x =>
          (get_reg plainMachine x.1).map fun y =>
            (held.nodeReg onePlusTwo.node, held.nodeReg threePlusFour.node, x.1.out, x.2,
              y.1)) =
      some (some Register.r11, some Register.r10,
        ["\tmovl\t$1, %r11d\n", "\taddl\t$2, %r11d\n", "\tmovl\t$3, %r10d\n",
          "\taddl\t$4, %r10d\n", "# === call\n", "\tmovl\t$60, %r9d\n"], 0,
        Register.r9) := by
  decide

/-- C14, the code at a failing input: in
`(1 + 2) + ((3 + 4) + f(10, 20, 30, 40, 7 + 8, 60))`, generated with all registers free,
the sixth argument is loaded into `r9` by `movl $60, %r9d`; the argument is released at
once, `get_reg` then hands out `r9` for the sum `7 + 8`, and the instructions
`movl $7, %r9d` and `addl $8, %r9d` are emitted before the call instruction.  Executed
from any processor state, the marshalling code leaves 15 in `r9`, not 60. -/
theorem parameter_register_is_handed_out (cpu : Cpu) :
    (∃ s', sumsAroundCall.generate plainMachine freshState = some s' ∧
      s'.out = ["\tmovl\t$1, %r11d\n", "\taddl\t$2, %r11d\n", "\tmovl\t$3, %r10d\n",
          "\taddl\t$4, %r10d\n", "# === call\n"] ++
        sixArgumentCode.map Instr.text ++
        ["\tmovl\t%r11d, -4(%rbp)\n", "\tmovl\t%r10d, -8(%rbp)\n", "\tcall\tf\n",
          "# --- call\n", "\tmovl\t-8(%rbp), %r11d\n", "\taddl\t%eax, %r11d\n",
          "\tmovl\t-4(%rbp), %r10d\n", "\taddl\t%r11d, %r10d\n"]) ∧
    sixArgumentCode.map Instr.text =
      ["\tmovl\t$60, %r9d\n", "\tmovl\t$7, %r9d\n", "\taddl\t$8, %r9d\n",
        "\tmovl\t%r9d, %r8d\n", "\tmovl\t$40, %ecx\n", "\tmovl\t$30, %edx\n",
        "\tmovl\t$20, %esi\n", "\tmovl\t$10, %edi\n"] ∧
    (∃ cpu', run sixArgumentCode (sixArgumentCode.length + 1) 0 cpu = some (none, cpu') ∧
      cpu'.regs Register.r9 = 15 ∧ cpu'.regs Register.r9 ≠ 60) ∧
    (∃ s held s5 reg s6, onePlusTwo.generate plainMachine freshState = some s ∧
      threePlusFour.generate plainMachine s = some held ∧
      held.nodeReg onePlusTwo.node = some Register.r11 ∧
      held.nodeReg threePlusFour.node = some Register.r10 ∧
      Args.marshal plainMachine 5 (.cons (.Number ⟨14, 4, 0, false⟩ 60) .nil)
        (emit "# === call\n" held, 0) = some (s5, 0) ∧
      s5.out = ["\tmovl\t$1, %r11d\n", "\taddl\t$2, %r11d\n", "\tmovl\t$3, %r10d\n",
        "\taddl\t$4, %r10d\n", "# === call\n", "\tmovl\t$60, %r9d\n"] ∧
      get_reg plainMachine s5 = some (reg, s6) ∧ reg = Register.r9) := by
  refine ⟨?_, by decide, ?_, ?_⟩
  · obtain ⟨s', h1, h2⟩ := Option.map_eq_some'.1 sumsAroundCall_out
    exact ⟨s', h1, h2⟩
  · obtain ⟨x, h3, h4⟩ := Option.map_eq_some'.1 (sixArgumentCode_run cpu)
    obtain ⟨exit, cpu'⟩ := x
    simp only [Prod.mk.injEq] at h4
    obtain ⟨rfl, h5⟩ := h4
    exact ⟨cpu', h3, h5, by rw [h5]; decide⟩
  · have h := sixthArgument_register
    obtain ⟨s, hs, h⟩ := Option.bind_eq_some.1 h
    obtain ⟨held, hheld, h⟩ := Option.bind_eq_some.1 h
    obtain ⟨x, hx, h⟩ := Option.bind_eq_some.1 h
    obtain ⟨y, hy, h⟩ := Option.map_eq_some'.1 h
    obtain ⟨s5, b5⟩ := x
    obtain ⟨reg, s6⟩ := y
    simp only [Prod.mk.injEq] at h
    obtain ⟨e1, e2, e3, e4, e5⟩ := h
    subst e4
    exact ⟨s, held, s5, reg, s6, hs, hheld, e1, e2, hx, e3, hy, e5⟩
/-! ## Assignment -/

theorem ensureRegister_bound (m : Machine) (n : Node) (s : State)
    (h : s.nodeReg n ≠ none) : ensureRegister m n s = some s := by
  unfold ensureRegister
  rw [if_neg h]

theorem release_both (l r : Node) (s : State) :
    (assign (some r) none (assign (some l) none s)).nodeReg l = none ∧
    (assign (some r) none (assign (some l) none s)).nodeReg r = none := by
  refine ⟨?_, ?_⟩
  · rw [assign_nodeReg, if_neg (by simp)]
    split
    · rfl
    · rw [assign_nodeReg, if_neg (by simp), if_pos rfl]
  · rw [assign_nodeReg, if_neg (by simp), if_pos rfl]

theorem leakyStore_trace :
    ((nineReturns.generate plainMachine bodyState).bind fun leaked =>
      (starP.generate_indirect plainMachine (emit "# === asgn\n" leaked)).bind fun x =>
        (twoPlusThree.generate plainMachine x.2).bind fun s2 =>
          (ensureRegister plainMachine twoPlusThree.node s2).bind fun s3 =>
            (ensureRegister plainMachine starP.node s3).bind fun s4 =>
              ((Statement.Assignment starP twoPlusThree).generate plainMachine leaked).map
                fun s' =>
                  (x.1, s3.nodeReg twoPlusThree.node, s4.nodeReg twoPlusThree.node,
                    s4.nodeReg starP.node, s'.out.drop leaked.out.length)) =
      some (true, some Register.r11, none, some Register.r11,
        ["# === asgn\n", "# === * deref\n", "\tmovl\t%r11d, -12(%rbp)\n",
          "\tmovq\t-8(%rbp), %r11\n", "# --- * deref\n", "\tmovl\t%r11d, -16(%rbp)\n",
          "\tmovl\t$2, %r11d\n", "\taddl\t$3, %r11d\n", "\tmovl\t%r11d, -20(%rbp)\n",
          "\tmovl\t-16(%rbp), %r11d\n", "\tmovl\t-20(%rbp), (%r11)\n",
          "# --- asgn\n"]) := by
  decide

/-- C18, the code at the failing input.  After nine statements `return 1 + 1;` every
register of the pool is occupied.  In `*p = 2 + 3;` the right side is brought into
`r11`; the address of the left side is loaded after it, `get_reg` evicts the right side
from `r11` to make room, and the store emitted is `movl -20(%rbp), (%r11)`: both
operands of the move are in memory, and the right side is in its frame slot, not in a
register, when the store is emitted. -/
theorem store_through_pointer_from_memory :
    ∃ leaked s1 s2 s3 s4 s',
      nineReturns.generate plainMachine bodyState = some leaked ∧
      starP.generate_indirect plainMachine (emit "# === asgn\n" leaked) = some (true, s1) ∧
      twoPlusThree.generate plainMachine s1 = some s2 ∧
      ensureRegister plainMachine twoPlusThree.node s2 = some s3 ∧
      s3.nodeReg twoPlusThree.node = some Register.r11 ∧
      ensureRegister plainMachine starP.node s3 = some s4 ∧
      s4.nodeReg starP.node = some Register.r11 ∧
      s4.nodeReg twoPlusThree.node = none ∧
      (Statement.Assignment starP twoPlusThree).generate plainMachine leaked = some s' ∧
      s'.out.drop leaked.out.length =
        ["# === asgn\n", "# === * deref\n", "\tmovl\t%r11d, -12(%rbp)\n",
          "\tmovq\t-8(%rbp), %r11\n", "# --- * deref\n", "\tmovl\t%r11d, -16(%rbp)\n",
          "\tmovl\t$2, %r11d\n", "\taddl\t$3, %r11d\n", "\tmovl\t%r11d, -20(%rbp)\n",
          "\tmovl\t-16(%rbp), %r11d\n", "\tmovl\t-20(%rbp), (%r11)\n",
          "# --- asgn\n"] := by
  have h := leakyStore_trace
  obtain ⟨leaked, h0, h⟩ := Option.bind_eq_some.1 h
  obtain ⟨x, h1, h⟩ := Option.bind_eq_some.1 h
  obtain ⟨s2, h2, h⟩ := Option.bind_eq_some.1 h
  obtain ⟨s3, h3, h⟩ := Option.bind_eq_some.1 h
  obtain ⟨s4, h4, h⟩ := Option.bind_eq_some.1 h
  obtain ⟨s', h5, h⟩ := Option.map_eq_some'.1 h
  obtain ⟨indirect, s1⟩ := x
  simp only [Prod.mk.injEq] at h
  obtain ⟨e1, e2, e3, e4, e5⟩ := h
  subst e1
  exact ⟨leaked, s1, s2, s3, s4, s', h0, h1, h2, h3, e2, h4, e4, e3, h5, e5⟩
open X86
/-! ## Relational and equality tests -/

/-- What the six relational `test` functions do, in terms of their two opcodes. -/
theorem relationalTest_spec (m : Machine) (jumpTrue jumpFalse : String) (l r : Expr)
    (label : Nat) (onTrue : Bool) (s : State) (hne : s.registers ≠ []) :
    ∃ s1 s2 s3 reg s', l.generate m s = some s1 ∧ r.generate m s1 = some s2 ∧
      ensureRegister m l.node s2 = some s3 ∧
      (s2.nodeReg l.node ≠ none → s3 = s2) ∧
      s3.nodeReg l.node = some reg ∧
      relationalTest m jumpTrue jumpFalse l r label onTrue s = some s' ∧
      s'.out = s3.out ++
        ["\tcmp" ++ suffix l.info.size ++ (write m r.node s3).1 ++ ", " ++
            reg.name l.info.size ++ "\n",
          (if onTrue then jumpTrue else jumpFalse) ++ labelText label ++ "\n"] ∧
      s'.nodeReg l.node = none ∧ s'.nodeReg r.node = none := by
  obtain ⟨s1, h1, p1⟩ := expr_generate_runs m l s hne
  obtain ⟨s2, h2, p2⟩ := expr_generate_runs m r s1 (p1.nonempty hne)
  obtain ⟨s3, h3, _, hb⟩ := ensureRegister_runs m l.node s2 (p2.nonempty (p1.nonempty hne))
  obtain ⟨reg, hreg⟩ := bound_of_ne_none hb
  have hsame : s2.nodeReg l.node ≠ none → s3 = s2 := by
    intro hx
    have := ensureRegister_bound m l.node s2 hx
    rw [this] at h3
    exact (Option.some.inj h3).symm
  have hw : write m l.node (write m r.node s3).2 =
      (reg.name l.info.size, (write m r.node s3).2) := by
    rw [write_bound m l.node _ reg (by simpa using hreg), Expr.node_size]
  simp only [relationalTest, h1, h2, h3, Option.bind_eq_bind, Option.some_bind,
    Option.pure_def, hw]
  refine ⟨s1, s2, s3, reg, _, rfl, h2, h3, hsame, hreg, rfl, ?_, ?_⟩
  · simp
  · simpa using release_both l.node r.node _

/-- C21: relational and equality tests.  For each of `LessThan`, `GreaterThan`,
`LessOrEqual`, `GreaterOrEqual`, `Equal`, `NotEqual` with the jump `jump` that
`relationalJump` gives for the polarity, `test(label, p)` returns on a non-empty pool;
after the two operands are generated it brings the left operand into a register
(nothing happens if it has one), then emits exactly one
`cmp<suffix of left> <right>, <left register>` and the jump to `label` (`Equal`
brackets its code with the comment line `# ~~~ eql`), nothing else; both operands are
bound to no register afterwards.  The jump for the opposite polarity is taken exactly
when `jump` is not, and the twelve opcodes are the ones listed. -/
theorem relational_test (m : Machine) (op : BinaryOp) (i : Info) (l r : Expr)
    (label : Nat) (p : Bool) (s : State) (jump : Cond)
    (hne : s.registers ≠ []) (hj : relationalJump op p = some jump) :
    (∃ s1 s2 s3 reg s',
      l.generate m (if op = .Equal then emit "# ~~~ eql\n" s else s) = some s1 ∧
      r.generate m s1 = some s2 ∧
      ensureRegister m l.node s2 = some s3 ∧
      (s2.nodeReg l.node ≠ none → s3 = s2) ∧
      s3.nodeReg l.node = some reg ∧
      (Expr.Binary op i l r).test m label p s = some s' ∧
      s'.out = s3.out ++
        ["\tcmp" ++ suffix l.info.size ++ (write m r.node s3).1 ++ ", " ++
            reg.name l.info.size ++ "\n",
          jump.text ++ labelText label ++ "\n"] ++
        (if op = .Equal then ["# ~~~ eql\n"] else []) ∧
      s'.nodeReg l.node = none ∧ s'.nodeReg r.node = none) ∧
    (∀ (cpu : Cpu) (opposite : Cond), relationalJump op (!p) = some opposite →
      opposite.holds cpu = !jump.holds cpu) ∧
    [BinaryOp.LessThan, .GreaterThan, .LessOrEqual, .GreaterOrEqual, .Equal, .NotEqual].map
        (fun o => (relationalJump o true).map Cond.text) =
      [some "\tjl\t", some "\tjg\t", some "\tjle\t", some "\tjge\t", some "\tje\t",
        some "\tjne\t"] ∧
    [BinaryOp.LessThan, .GreaterThan, .LessOrEqual, .GreaterOrEqual, .Equal, .NotEqual].map
        (fun o => (relationalJump o false).map Cond.text) =
      [some "\tjge\t", some "\tjle\t", some "\tjg\t", some "\tjl\t", some "\tjne\t",
        some "\tje\t"] := by
  have plain : ∀ (jumpTrue jumpFalse : String),
      (Expr.Binary op i l r).test m label p s =
        relationalTest m jumpTrue jumpFalse l r label p s →
      op ≠ .Equal →
      (if p then jumpTrue else jumpFalse) = jump.text →
      ∃ s1 s2 s3 reg s',
        l.generate m (if op = .Equal then emit "# ~~~ eql\n" s else s) = some s1 ∧
        r.generate m s1 = some s2 ∧
        ensureRegister m l.node s2 = some s3 ∧
        (s2.nodeReg l.node ≠ none → s3 = s2) ∧
        s3.nodeReg l.node = some reg ∧
        (Expr.Binary op i l r).test m label p s = some s' ∧
        s'.out = s3.out ++
          ["\tcmp" ++ suffix l.info.size ++ (write m r.node s3).1 ++ ", " ++
              reg.name l.info.size ++ "\n",
            jump.text ++ labelText label ++ "\n"] ++
          (if op = .Equal then ["# ~~~ eql\n"] else []) ∧
        s'.nodeReg l.node = none ∧ s'.nodeReg r.node = none := by
    intro jumpTrue jumpFalse htest hop hjump
    obtain ⟨s1, s2, s3, reg, s', h1, h2, h3, h4, h5, h6, h7, h8, h9⟩ :=
      relationalTest_spec m jumpTrue jumpFalse l r label p s hne
    rw [htest, ← hjump]
    simp only [if_neg hop, List.append_nil]
    exact ⟨s1, s2, s3, reg, s', h1, h2, h3, h4, h5, h6, h7, h8, h9⟩
  refine ⟨?_, ?_, by decide, by decide⟩
  · cases op
    case LessThan =>
      refine plain "\tjl\t" "\tjge\t" (by simp only [Expr.test]) (by simp) ?_
      cases p <;> simp only [relationalJump, Option.some.injEq] at hj <;> subst hj <;> rfl
    case GreaterThan =>
      refine plain "\tjg\t" "\tjle\t" (by simp only [Expr.test]) (by simp) ?_
      cases p <;> simp only [relationalJump, Option.some.injEq] at hj <;> subst hj <;> rfl
    case LessOrEqual =>
      refine plain "\tjle\t" "\tjg\t" (by simp only [Expr.test]) (by simp) ?_
      cases p <;> simp only [relationalJump, Option.some.injEq] at hj <;> subst hj <;> rfl
    case GreaterOrEqual =>
      refine plain "\tjge\t" "\tjl\t" (by simp only [Expr.test]) (by simp) ?_
      cases p <;> simp only [relationalJump, Option.some.injEq] at hj <;> subst hj <;> rfl
    case NotEqual =>
      refine plain "\tjne\t" "\tje\t" (by simp only [Expr.test]) (by simp) ?_
      cases p <;> simp only [relationalJump, Option.some.injEq] at hj <;> subst hj <;> rfl
    case Equal =>
      have hjump : (if p then "\tje\t" else "\tjne\t") = jump.text := by
        cases p <;> simp only [relationalJump, Option.some.injEq] at hj <;> subst hj <;> rfl
      obtain ⟨s1, s2, s3, reg, s', h1, h2, h3, h4, h5, h6, h7, h8, h9⟩ :=
        relationalTest_spec m "\tje\t" "\tjne\t" l r label p (emit "# ~~~ eql\n" s) hne
      simp only [Expr.test, h6, Option.bind_eq_bind, Option.some_bind, Option.pure_def,
        if_true]
      exact ⟨s1, s2, s3, reg, _, h1, h2, h3, h4, h5, rfl,
        by simp [h7, hjump], by simpa using h8, by simpa using h9⟩
    all_goals
      cases p <;> simp [relationalJump] at hj
  · intro cpu opposite ho
    clear plain
    cases op <;> cases p <;> simp only [relationalJump, Option.some.injEq, Bool.not_true,
      Bool.not_false] at hj ho <;>
      first
      | exact absurd hj (by simp)
      | (subst hj
         subst ho
         simp only [Cond.holds, ← not_lt, decide_not, Bool.not_not, ge_iff_le, gt_iff_lt,
           ne_eq])

/-- C21 at a concrete test: `1 < 2` tested with polarity true from `freshState`. -/
theorem relational_test_witness :
    freshState.registers ≠ [] ∧ relationalJump .LessThan true = some Cond.l ∧
    ∃ s', (lessThan 1 1 2).test plainMachine 7 true freshState = some s' ∧
      s'.nodeReg (Expr.Number ⟨2, 4, 0, false⟩ 1).node = none ∧
      s'.nodeReg (Expr.Number ⟨3, 4, 0, false⟩ 2).node = none := by
  refine ⟨by decide, rfl, ?_⟩
  obtain ⟨⟨_, _, _, _, s', _, _, _, _, _, ht, _, hl, hr⟩, _⟩ :=
    relational_test plainMachine .LessThan ⟨1, 4, 0, false⟩ (.Number ⟨2, 4, 0, false⟩ 1)
      (.Number ⟨3, 4, 0, false⟩ 2) 7 true freshState Cond.l (by decide) rfl
  exact ⟨s', ht, hl, hr⟩
/-! ## What a spill leaves behind -/

theorem load_occupied_eq (m : Machine) (expr : Option Node) (reg : Register) (n : Node)
    (s : State) (hocc : s.regNode reg = some n) (hne : expr ≠ some n) :
    load m expr reg s = assign expr (some reg) (loadMoves m expr reg s) := by
  rw [load_eq, if_pos]
  rw [hocc]
  exact fun c => hne c.symm

theorem loadMoves_occupied (m : Machine) (expr : Option Node) (reg : Register) (n : Node)
    (s : State) (hocc : s.regNode reg = some n) :
    (loadMoves m expr reg s).offset = s.offset - n.size ∧
    (loadMoves m expr reg s).nodeOffset n = s.offset - n.size ∧
    (loadMoves m expr reg s).out = s.out ++
      ["\tmov" ++ suffix n.size ++ reg.name n.size ++ ", " ++
        (toString (s.offset - n.size) ++ "(%rbp)") ++ "\n"] ++
      (expr.map fun e => "\tmov" ++ suffix e.size ++ (write m e (spill reg n s)).1 ++ ", " ++
        reg.name e.size ++ "\n").toList := by
  unfold loadMoves
  rw [hocc]
  cases expr with
  | none => simp [spill, String.append_assoc]
  | some e => simp [spill, String.append_assoc]

/-- C22 (as amended): a spill.  When `load(expr, reg)` finds `reg` occupied by a node
`n` different from `expr`, in a state that satisfies the register bijection, it lowers
the offset counter by the type size of `n`, emits one store of `reg` at the width of
`n` to the new offset from `%rbp` (followed by the move that loads `expr`, if `expr` is
not null), records that offset as the frame offset of `n` and leaves `n` bound to no
register; if `n` has no `operand` override (it is not a `Number`, an `Identifier` or a
`String`), its operand afterwards renders as exactly the slot the store wrote.  When
`reg` already holds `expr`, `load` changes nothing. -/
theorem spill_keeps_value_reachable (m : Machine) (expr : Option Node) (reg : Register)
    (n : Node) (s : State) (hb : Bijection s) (hocc : s.regNode reg = some n)
    (hne : expr ≠ some n) :
    (load m expr reg s).offset = s.offset - n.size ∧
    (load m expr reg s).nodeOffset n = s.offset - n.size ∧
    (load m expr reg s).nodeReg n = none ∧
    (load m expr reg s).out = s.out ++
      ["\tmov" ++ suffix n.size ++ reg.name n.size ++ ", " ++
        (toString (s.offset - n.size) ++ "(%rbp)") ++ "\n"] ++
      (expr.map fun e => "\tmov" ++ suffix e.size ++ (write m e (spill reg n s)).1 ++ ", " ++
        reg.name e.size ++ "\n").toList ∧
    (n.kind = .Other →
      (write m n (load m expr reg s)).1 = toString (s.offset - n.size) ++ "(%rbp)") ∧
    (∀ s0 : State, s0.regNode reg = expr → load m expr reg s0 = s0) := by
  obtain ⟨k1, k2, k3⟩ := loadMoves_occupied m expr reg n s hocc
  have hload := load_occupied_eq m expr reg n s hocc hne
  have hunbound : (load m expr reg s).nodeReg n = none := by
    rw [hload]
    exact assign_nodeReg_evicted (bijection_congr (by simp) (by simp) hb) expr reg n
      (by simpa using hocc) hne
  have hoff : (load m expr reg s).nodeOffset n = s.offset - n.size := by
    rw [hload, assign_nodeOffset, k2]
  refine ⟨?_, hoff, hunbound, ?_, fun hk => ?_, fun s0 h0 => ?_⟩
  · rw [hload, assign_offset, k1]
  · rw [hload, assign_out]
    exact k3
  · simp only [write, hunbound, operand, hk, hoff]
  · rw [load_eq, if_neg (by simp [h0])]

/-- C22 at a concrete spill: `r11`, which holds the 4-byte temporary of `fullState`, is
flushed. -/
theorem spill_keeps_value_reachable_witness :
    Bijection fullState ∧ fullState.regNode Register.r11 = some tempA ∧
    (none : Option Node) ≠ some tempA ∧
    (load plainMachine none Register.r11 fullState).nodeOffset tempA = -12 ∧
    (write plainMachine tempA (load plainMachine none Register.r11 fullState)).1 =
      "-12(%rbp)" := by
  obtain ⟨_, h2, _, _, h5, _⟩ :=
    spill_keeps_value_reachable plainMachine none Register.r11 tempA fullState
      fullState_bijection (by decide) (by simp)
  exact ⟨fullState_bijection, by decide, by simp, h2, h5 rfl⟩

/-- C22 (as stated) fails for a node with an `operand` override: after the statement
`x % y;` the variable `x` is still bound to `rax`; when `rax` is flushed the store goes
to `-12(%rbp)`, which becomes the frame offset of the node, but the node renders as
`-4(%rbp)`, the location of the variable. -/
theorem spilled_identifier_renders_as_its_symbol :
    (xModY.generate plainMachine bodyState).map
      (fun s => (s.regNode Register.rax, s.out,
        (load plainMachine none Register.rax s).out,
        (load plainMachine none Register.rax s).nodeReg localX.node,
        (write plainMachine localX.node (load plainMachine none Register.rax s)).1)) =
      some (some localX.node,
        ["\tmovl\t-4(%rbp), %eax\n", "\tcltd\n", "\tidivl\t-8(%rbp)\n"],
        ["\tmovl\t-4(%rbp), %eax\n", "\tcltd\n", "\tidivl\t-8(%rbp)\n",
          "\tmovl\t%eax, -12(%rbp)\n"],
        none, "-4(%rbp)") ∧
    (xModY.generate plainMachine bodyState).map
      (fun s => (load plainMachine none Register.rax s).nodeOffset localX.node) =
      some (-12) := by
  decide

/-! ## `Dereference::generate` -/

/-- C23, the code at the failing input.  `Dereference::generate` takes the size suffix
and the name of the destination register from the pointer operand, not from the
`Dereference` node: on a non-empty pool the load it emits is
`mov<suffix of the pointer> (<register at the pointer's width>), <register at the
pointer's width>`, whatever the size of the dereferenced type.  For `*p` with `p` an
8-byte pointer to a 4-byte integer the load is `movq (%r11), %r11`, an 8-byte load,
not `movl (%r11), %r11d`; the node is then bound to `r11` and the pointer to no
register. -/
theorem dereference_loads_at_pointer_width (m : Machine) :
    (∀ (i : Info) (e : Expr) (s : State), s.registers ≠ [] →
      ∃ s1 s2 reg s', e.generate m (emit "# === deref\n" s) = some s1 ∧
        ensureRegister m e.node s1 = some s2 ∧
        s2.nodeReg e.node = some reg ∧
        (Expr.Unary .Dereference i e).generate m s = some s' ∧
        s'.out = s2.out ++
          ["\tmov" ++ suffix e.info.size ++ "(" ++ reg.name e.info.size ++ "), " ++
            reg.name e.info.size ++ "\n", "# --- deref\n"]) ∧
    (starP.generate plainMachine bodyState).map
        (fun s => (s.out, s.nodeReg starP.node,
          s.nodeReg (Expr.Identifier ⟨2, 8, 1, false⟩ "p" (-8)).node)) =
      some (["# === deref\n", "\tmovq\t-8(%rbp), %r11\n", "\tmovq\t(%r11), %r11\n",
        "# --- deref\n"], some Register.r11, none) ∧
    starP.info.size = 4 ∧ suffix starP.info.size = "l\t" ∧
    Register.r11.name starP.info.size = "%r11d" := by
  refine ⟨fun i e s hne => ?_, by decide, rfl, by decide, by decide⟩
  have p0 := emit_progress "# === deref\n" s
  obtain ⟨s1, h1, p1⟩ := expr_generate_runs m e _ (p0.nonempty hne)
  obtain ⟨s2, h2, _, hb⟩ := ensureRegister_runs m e.node s1 (p1.nonempty (p0.nonempty hne))
  obtain ⟨reg, hreg⟩ := bound_of_ne_none hb
  have hw : write m e.node s2 = (reg.name e.info.size, s2) := by
    rw [write_bound m e.node s2 reg hreg, Expr.node_size]
  simp only [Expr.generate, h1, h2, Option.bind_eq_bind, Option.some_bind, Option.pure_def,
    hw]
  refine ⟨s1, s2, reg, _, rfl, h2, hreg, rfl, ?_⟩
  simp
/-! ## `Divide::generate` and `Remainder::generate` leave `rdx` as it is -/

theorem load_rax_keeps_rdx (m : Machine) (left n : Node) (s : State) (hb : Bijection s)
    (hocc : s.regNode Register.rdx = some n) (hne : n ≠ left) :
    (load m (some left) Register.rax s).regNode Register.rdx = some n := by
  rw [load_eq]
  split
  · have h1 : ¬ (some Register.rax = some Register.rdx) := by decide
    have h2 : ¬ ∃ e, some left = some e ∧
        (loadMoves m (some left) Register.rax s).nodeReg e = some Register.rdx := by
      rintro ⟨e, he, hx⟩
      cases he
      rw [loadMoves_nodeReg] at hx
      have := (hb Register.rdx left).2 hx
      rw [hocc] at this
      exact hne (Option.some.inj this)
    rw [assign_regNode, if_neg h1, if_neg h2, loadMoves_regNode]
    exact hocc
  · exact hocc

theorem division_generate_eq (m : Machine) (s : State) :
    (Expr.Binary .Divide ⟨106, 4, 0, false⟩ localX localY).generate m s =
      some (division m Register.rax (Info.node ⟨106, 4, 0, false⟩) localX.node
        localY.node s) ∧
    (Expr.Binary .Remainder ⟨106, 4, 0, false⟩ localX localY).generate m s =
      some (division m Register.rdx (Info.node ⟨106, 4, 0, false⟩) localX.node
        localY.node s) := by
  constructor <;> simp [Expr.generate, localX, localY]

theorem sixSums_held :
    (sixSums.foldlM (fun s e => Expr.generate plainMachine e s) bodyState).map
      (fun held =>
        (held.regNode Register.rdx,
          (load plainMachine (some localX.node) Register.rax held).regNode Register.rdx,
          (load plainMachine (some localX.node) Register.rax held).out.drop
            held.out.length)) =
      some (some (onePlusOne 60).node, some (onePlusOne 60).node,
        ["\tmovl\t-4(%rbp), %eax\n"]) := by
  decide

theorem sixSums_displaced :
    (sixSums.foldlM (fun s e => Expr.generate plainMachine e s) bodyState).map
      (fun held =>
        ((division plainMachine Register.rdx (Info.node ⟨106, 4, 0, false⟩) localX.node
            localY.node held).out.drop held.out.length,
          (division plainMachine Register.rdx (Info.node ⟨106, 4, 0, false⟩) localX.node
            localY.node held).nodeReg (onePlusOne 60).node,
          (write plainMachine (onePlusOne 60).node
            (division plainMachine Register.rdx (Info.node ⟨106, 4, 0, false⟩) localX.node
              localY.node held)).1)) =
      some (["\tmovl\t-4(%rbp), %eax\n", "\tcltd\n", "\tidivl\t-8(%rbp)\n"],
        none, "0(%rbp)") := by
  decide

theorem underSixSums_out :
    ((underSixSums .Divide).generate plainMachine bodyState).map (fun s => s.out) =
      some ["\tmovl\t$1, %r11d\n", "\taddl\t$1, %r11d\n", "\tmovl\t$1, %r10d\n",
        "\taddl\t$1, %r10d\n", "\tmovl\t$1, %r9d\n", "\taddl\t$1, %r9d\n",
        "\tmovl\t$1, %r8d\n", "\taddl\t$1, %r8d\n", "\tmovl\t$1, %ecx\n",
        "\taddl\t$1, %ecx\n", "\tmovl\t$1, %edx\n", "\taddl\t$1, %edx\n",
        "\tmovl\t-4(%rbp), %eax\n", "\tcltd\n", "\tidivl\t-8(%rbp)\n",
        "\taddl\t%eax, %edx\n", "\taddl\t%edx, %ecx\n", "\taddl\t%ecx, %r8d\n",
        "\taddl\t%r8d, %r9d\n", "\taddl\t%r9d, %r10d\n", "\taddl\t%r10d, %r11d\n"] ∧
    ((underSixSums .Remainder).generate plainMachine bodyState).map (fun s => s.out) =
      some ["\tmovl\t$1, %r11d\n", "\taddl\t$1, %r11d\n", "\tmovl\t$1, %r10d\n",
        "\taddl\t$1, %r10d\n", "\tmovl\t$1, %r9d\n", "\taddl\t$1, %r9d\n",
        "\tmovl\t$1, %r8d\n", "\taddl\t$1, %r8d\n", "\tmovl\t$1, %ecx\n",
        "\taddl\t$1, %ecx\n", "\tmovl\t$1, %edx\n", "\taddl\t$1, %edx\n",
        "\tmovl\t-4(%rbp), %eax\n", "\tcltd\n", "\tidivl\t-8(%rbp)\n",
        "\tmovl\t0(%rbp), %esi\n", "\taddl\t%edx, %esi\n", "\taddl\t%esi, %ecx\n",
        "\taddl\t%ecx, %r8d\n", "\taddl\t%r8d, %r9d\n", "\taddl\t%r9d, %r10d\n",
        "\taddl\t%r10d, %r11d\n"] := by
  decide

/-- C24, the code at the failing input.  `Divide::generate` and `Remainder::generate`
load the left operand into `rax` and emit `cltd` and `idiv`; nothing spills `rdx`: an
occupant of `rdx` other than the left operand is still in `rdx` when `idiv` is emitted.
In `(1+1) + ((1+1) + ((1+1) + ((1+1) + ((1+1) + ((1+1) + (x / y))))))` the sixth sum is
held in `rdx` when `x / y` is generated; `cltd` and `idivl` are emitted with no store of
`rdx` before them, and the sum is then read from `rdx` by `addl %eax, %edx`.  With
`x % y` in place of `x / y`, `assign(this, rdx)` displaces the sixth sum from `rdx`: it
has no register, no store was emitted for it, and it is read back from `0(%rbp)`. -/
theorem division_overwrites_a_held_register :
    (∀ (m : Machine) (left n : Node) (s : State), Bijection s →
      s.regNode Register.rdx = some n → n ≠ left →
      (load m (some left) Register.rax s).regNode Register.rdx = some n) ∧
    (∀ (m : Machine) (s : State),
      (Expr.Binary .Divide ⟨106, 4, 0, false⟩ localX localY).generate m s =
        some (division m Register.rax (Info.node ⟨106, 4, 0, false⟩) localX.node
          localY.node s) ∧
      (Expr.Binary .Remainder ⟨106, 4, 0, false⟩ localX localY).generate m s =
        some (division m Register.rdx (Info.node ⟨106, 4, 0, false⟩) localX.node
          localY.node s)) ∧
    (∃ held, sixSums.foldlM (fun s e => Expr.generate plainMachine e s) bodyState =
        some held ∧
      held.regNode Register.rdx = some (onePlusOne 60).node ∧
      (load plainMachine (some localX.node) Register.rax held).regNode Register.rdx =
        some (onePlusOne 60).node ∧
      (load plainMachine (some localX.node) Register.rax held).out.drop held.out.length =
        ["\tmovl\t-4(%rbp), %eax\n"] ∧
      (division plainMachine Register.rdx (Info.node ⟨106, 4, 0, false⟩) localX.node
        localY.node held).out.drop held.out.length =
        ["\tmovl\t-4(%rbp), %eax\n", "\tcltd\n", "\tidivl\t-8(%rbp)\n"] ∧
      (division plainMachine Register.rdx (Info.node ⟨106, 4, 0, false⟩) localX.node
        localY.node held).nodeReg (onePlusOne 60).node = none ∧
      (write plainMachine (onePlusOne 60).node
        (division plainMachine Register.rdx (Info.node ⟨106, 4, 0, false⟩) localX.node
          localY.node held)).1 = "0(%rbp)") ∧
    ((underSixSums .Divide).generate plainMachine bodyState).map (fun s => s.out) =
      some ["\tmovl\t$1, %r11d\n", "\taddl\t$1, %r11d\n", "\tmovl\t$1, %r10d\n",
        "\taddl\t$1, %r10d\n", "\tmovl\t$1, %r9d\n", "\taddl\t$1, %r9d\n",
        "\tmovl\t$1, %r8d\n", "\taddl\t$1, %r8d\n", "\tmovl\t$1, %ecx\n",
        "\taddl\t$1, %ecx\n", "\tmovl\t$1, %edx\n", "\taddl\t$1, %edx\n",
        "\tmovl\t-4(%rbp), %eax\n", "\tcltd\n", "\tidivl\t-8(%rbp)\n",
        "\taddl\t%eax, %edx\n", "\taddl\t%edx, %ecx\n", "\taddl\t%ecx, %r8d\n",
        "\taddl\t%r8d, %r9d\n", "\taddl\t%r9d, %r10d\n", "\taddl\t%r10d, %r11d\n"] ∧
    ((underSixSums .Remainder).generate plainMachine bodyState).map (fun s => s.out) =
      some ["\tmovl\t$1, %r11d\n", "\taddl\t$1, %r11d\n", "\tmovl\t$1, %r10d\n",
        "\taddl\t$1, %r10d\n", "\tmovl\t$1, %r9d\n", "\taddl\t$1, %r9d\n",
        "\tmovl\t$1, %r8d\n", "\taddl\t$1, %r8d\n", "\tmovl\t$1, %ecx\n",
        "\taddl\t$1, %ecx\n", "\tmovl\t$1, %edx\n", "\taddl\t$1, %edx\n",
        "\tmovl\t-4(%rbp), %eax\n", "\tcltd\n", "\tidivl\t-8(%rbp)\n",
        "\tmovl\t0(%rbp), %esi\n", "\taddl\t%edx, %esi\n", "\taddl\t%esi, %ecx\n",
        "\taddl\t%ecx, %r8d\n", "\taddl\t%r8d, %r9d\n", "\taddl\t%r9d, %r10d\n",
        "\taddl\t%r10d, %r11d\n"] := by
  refine ⟨load_rax_keeps_rdx, division_generate_eq, ?_, underSixSums_out.1,
    underSixSums_out.2⟩
  obtain ⟨held, h0, h⟩ := Option.map_eq_some'.1 sixSums_held
  obtain ⟨held', h0', h'⟩ := Option.map_eq_some'.1 sixSums_displaced
  rw [h0] at h0'
  cases h0'
  simp only [Prod.mk.injEq] at h h'
  obtain ⟨e1, e2, e3⟩ := h
  obtain ⟨e4, e5, e6⟩ := h'
  exact ⟨held, h0, e1, e2, e3, e4, e5, e6⟩
/-! ## Parser progress -/

namespace Parser

@[simp] theorem print_tokens (output : String) (st : Input) :
    (print output st).tokens = st.tokens := rfl

theorem advance_length (st : Input) (token : Token) (h : lookahead st = token)
    (hd : token ≠ .DONE) : (advance st).tokens.length + 1 = st.tokens.length := by
  obtain ⟨tokens, printed⟩ := st
  cases tokens with
  | nil => exact absurd h.symm hd
  | cons t ts => simp [advance]

theorem consumes_fatal (n d : Nat) : Consumes (some .fatal) n d :=
  ⟨.fatal, rfl, fun _ h => by cases h⟩

theorem consumes_returns (st : Input) (n d : Nat) (h : st.tokens.length + d ≤ n) :
    Consumes (some (.returns st)) n d :=
  ⟨.returns st, rfl, fun st' h' => by cases h'; exact h⟩

theorem consumes_match (token : Token) (st : Input) (hd : token ≠ .DONE) :
    Consumes (matchToken token st) st.tokens.length 1 := by
  unfold matchToken
  split
  · rename_i h
    exact consumes_returns _ _ _ (le_of_eq (advance_length st token h hd))
  · exact consumes_fatal _ _

theorem consumes_andThen (d1 d2 : Nat) {r : Option Outcome} {k : Input → Option Outcome}
    {n d : Nat} (h1 : Consumes r n d1)
    (h2 : ∀ st', st'.tokens.length + d1 ≤ n → Consumes (k st') st'.tokens.length d2)
    (hd : d ≤ d1 + d2) : Consumes (andThen r k) n d := by
  obtain ⟨o, rfl, ho⟩ := h1
  cases o with
  | fatal => exact consumes_fatal _ _
  | returns st1 =>
      have hs := ho st1 rfl
      obtain ⟨o2, h2', ho2⟩ := h2 st1 hs
      refine ⟨o2, h2', fun st' hst => ?_⟩
      have := ho2 st' hst
      omega

theorem consumes_weaken {r : Option Outcome} {n d n' d' : Nat} (h : Consumes r n d)
    (hn : n + d' ≤ n' + d) : Consumes r n' d' := by
  obtain ⟨o, ho, hp⟩ := h
  refine ⟨o, ho, fun st' hst => ?_⟩
  have := hp st' hst
  omega

theorem general_expression_consumes (st : Input) :
    Consumes (general_expression st) st.tokens.length 1 := by
  unfold general_expression
  split
  · exact consumes_match _ _ (by decide)
  · split
    · refine consumes_andThen 1 0 (consumes_match _ _ (by decide)) (fun st1 _ => ?_)
        (le_refl _)
      split
      · exact consumes_andThen 1 1 (consumes_match _ _ (by decide))
          (fun st2 _ => consumes_match _ _ (by decide)) (Nat.zero_le _)
      · exact consumes_returns _ _ _ (le_refl _)
    · exact consumes_fatal _ _

/-- One iteration of the loop of a binary level: the operator is matched, the operand
parsed, the line printed, and the loop entered again. -/
theorem loop_branch (token : Token) (hd : token ≠ .DONE)
    (operand loop : Nat → Input → Option Outcome) (fuel rank : Nat) (name : String)
    (st : Input)
    (hoperand : ∀ st : Input, rank + 10 * st.tokens.length ≤ fuel →
      Consumes (operand fuel st) st.tokens.length 1)
    (hloop : ∀ st : Input, 1 + 10 * st.tokens.length ≤ fuel →
      Consumes (loop fuel st) st.tokens.length 0)
    (hrank : rank ≤ 10) (hb : 1 + 10 * st.tokens.length ≤ fuel + 1) :
    Consumes (andThen (matchToken token st) fun st =>
      andThen (operand fuel st) fun st => loop fuel (print name st)) st.tokens.length 0 := by
  refine consumes_andThen 1 0 (consumes_match token st hd) (fun st1 h1 => ?_) (Nat.zero_le _)
  refine consumes_andThen 1 0 (hoperand st1 (by omega)) (fun st2 h2 => ?_) (Nat.zero_le _)
  exact hloop (print name st2) (by simp only [print_tokens]; omega)

/-- A binary level: the operand, then the loop. -/
theorem level_step (operand loop : Nat → Input → Option Outcome) (fuel rank : Nat)
    (st : Input)
    (hoperand : ∀ st : Input, rank + 10 * st.tokens.length ≤ fuel →
      Consumes (operand fuel st) st.tokens.length 1)
    (hloop : ∀ st : Input, 1 + 10 * st.tokens.length ≤ fuel →
      Consumes (loop fuel st) st.tokens.length 0)
    (hb : rank + 1 + 10 * st.tokens.length ≤ fuel + 1) (hrank : 1 ≤ rank) :
    Consumes (andThen (operand fuel st) (loop fuel)) st.tokens.length 1 := by
  refine consumes_andThen 1 0 (hoperand st (by omega)) (fun st1 h1 => ?_) (le_refl _)
  exact hloop st1 (by omega)

/-- With fuel in proportion to the number of tokens every function of the parser has
returned or ended in `error`, and a returned grammar function has consumed a token. -/
theorem settled : ∀ fuel : Nat, Settled fuel := by
  intro fuel
  induction fuel with
  | zero =>
      exact ⟨fun _ h => absurd h (by omega), fun _ h => absurd h (by omega),
        fun _ h => absurd h (by omega), fun _ h => absurd h (by omega),
        fun _ h => absurd h (by omega), fun _ h => absurd h (by omega),
        fun _ h => absurd h (by omega), fun _ h => absurd h (by omega),
        fun _ h => absurd h (by omega), fun _ h => absurd h (by omega),
        fun _ h => absurd h (by omega), fun _ h => absurd h (by omega),
        fun _ h => absurd h (by omega), fun _ h => absurd h (by omega),
        fun _ h => absurd h (by omega), fun _ h => absurd h (by omega)⟩
  | succ fuel ih =>
      refine ⟨?_, ?_, ?_, ?_, ?_, ?_, ?_, ?_, ?_, ?_, ?_, ?_, ?_, ?_, ?_, ?_⟩
      · intro st hb
        simp only [expression]
        exact level_step logical_cmp_expression expression_loop fuel 8 st ih.logical_cmp_expression ih.expression_loop
          (by omega) (by omega)
      · intro st hb
        simp only [expression_loop]
        split_ifs <;> first
          | exact consumes_returns _ _ _ (le_refl _)
          | exact loop_branch _ (by decide) logical_cmp_expression expression_loop fuel 8 _ st ih.logical_cmp_expression
              ih.expression_loop (by omega) hb
      · intro st hb
        simp only [logical_cmp_expression]
        exact level_step equality_expression logical_cmp_expression_loop fuel 7 st ih.equality_expression ih.logical_cmp_expression_loop
          (by omega) (by omega)
      · intro st hb
        simp only [logical_cmp_expression_loop]
        split_ifs <;> first
          | exact consumes_returns _ _ _ (le_refl _)
          | exact loop_branch _ (by decide) equality_expression logical_cmp_expression_loop fuel 7 _ st ih.equality_expression
              ih.logical_cmp_expression_loop (by omega) hb
      · intro st hb
        simp only [equality_expression]
        exact level_step relation_expression equality_expression_loop fuel 6 st ih.relation_expression ih.equality_expression_loop
          (by omega) (by omega)
      · intro st hb
        simp only [equality_expression_loop]
        split_ifs <;> first
          | exact consumes_returns _ _ _ (le_refl _)
          | exact loop_branch _ (by decide) relation_expression equality_expression_loop fuel 6 _ st ih.relation_expression
              ih.equality_expression_loop (by omega) hb
      · intro st hb
        simp only [relation_expression]
        exact level_step add_expression relation_expression_loop fuel 5 st ih.add_expression ih.relation_expression_loop
          (by omega) (by omega)
      · intro st hb
        simp only [relation_expression_loop]
        split_ifs <;> first
          | exact consumes_returns _ _ _ (le_refl _)
          | exact loop_branch _ (by decide) add_expression relation_expression_loop fuel 5 _ st ih.add_expression
              ih.relation_expression_loop (by omega) hb
      · intro st hb
        simp only [add_expression]
        exact level_step multiply_expression add_expression_loop fuel 4 st ih.multiply_expression ih.add_expression_loop
          (by omega) (by omega)
      · intro st hb
        simp only [add_expression_loop]
        split_ifs <;> first
          | exact consumes_returns _ _ _ (le_refl _)
          | exact loop_branch _ (by decide) multiply_expression add_expression_loop fuel 4 _ st ih.multiply_expression
              ih.add_expression_loop (by omega) hb
      · intro st hb
        simp only [multiply_expression]
        exact level_step prefix_expression multiply_expression_loop fuel 3 st ih.prefix_expression ih.multiply_expression_loop
          (by omega) (by omega)
      · intro st hb
        simp only [multiply_expression_loop]
        split_ifs <;> first
          | exact consumes_returns _ _ _ (le_refl _)
          | exact loop_branch _ (by decide) prefix_expression multiply_expression_loop fuel 3 _ st ih.prefix_expression
              ih.multiply_expression_loop (by omega) hb
      · intro st hb
        have unary : ∀ (token : Token) (name : String), token ≠ .DONE →
            Consumes (andThen (matchToken token st) fun st =>
              andThen (post_expression fuel st) fun st => some (.returns (print name st)))
              st.tokens.length 1 := by
          intro token name hd
          refine consumes_andThen 1 0 (consumes_match token st hd) (fun st1 h1 => ?_)
            (le_refl _)
          refine consumes_andThen 1 0 (ih.post_expression st1 (by omega)) (fun st2 h2 => ?_)
            (Nat.zero_le _)
          exact consumes_returns _ _ _ (le_refl _)
        simp only [prefix_expression]
        split_ifs
        · refine consumes_andThen 1 0 (consumes_match _ st (by decide)) (fun st1 h1 => ?_)
            (le_refl _)
          refine consumes_andThen 1 0 (ih.prefix_expression st1 (by omega))
            (fun st2 h2 => ?_) (Nat.zero_le _)
          exact consumes_returns _ _ _ (le_refl _)
        · exact unary _ _ (by decide)
        · exact unary _ _ (by decide)
        · exact unary _ _ (by decide)
        · refine consumes_andThen 1 0 (consumes_match _ st (by decide)) (fun st1 h1 => ?_)
            (le_refl _)
          refine consumes_andThen 0 0 ?_ (fun st2 h2 => consumes_returns _ _ _ (le_refl _))
            (Nat.zero_le _)
          split_ifs
          · refine consumes_andThen 1 0 (consumes_match _ st1 (by decide))
              (fun st2 h2 => ?_) (Nat.zero_le _)
            refine consumes_andThen 1 0 (ih.prefix_expression st2 (by omega))
              (fun st3 h3 => ?_) (Nat.zero_le _)
            exact consumes_weaken (consumes_match _ st3 (by decide)) (by omega)
          · exact consumes_returns _ _ _ (le_refl _)
        · exact ih.post_expression st (by omega)
      · intro st hb
        simp only [post_expression]
        exact level_step cast_expression post_expression_loop fuel 1 st ih.cast_expression
          ih.post_expression_loop (by omega) (by omega)
      · intro st hb
        simp only [post_expression_loop]
        split_ifs
        · refine consumes_andThen 1 0 (consumes_match _ st (by decide)) (fun st1 h1 => ?_)
            (Nat.zero_le _)
          refine consumes_andThen 1 0 (ih.expression st1 (by omega)) (fun st2 h2 => ?_)
            (Nat.zero_le _)
          refine consumes_andThen 1 0 (consumes_match _ st2 (by decide)) (fun st3 h3 => ?_)
            (Nat.zero_le _)
          exact ih.post_expression_loop _ (by simp only [print_tokens]; omega)
        · refine consumes_andThen 1 0 (consumes_match _ st (by decide)) (fun st1 h1 => ?_)
            (Nat.zero_le _)
          refine consumes_andThen 1 0 (consumes_match _ st1 (by decide)) (fun st2 h2 => ?_)
            (Nat.zero_le _)
          exact ih.post_expression_loop _ (by simp only [print_tokens]; omega)
        · refine consumes_andThen 1 0 (consumes_match _ st (by decide)) (fun st1 h1 => ?_)
            (Nat.zero_le _)
          refine consumes_andThen 1 0 (consumes_match _ st1 (by decide)) (fun st2 h2 => ?_)
            (Nat.zero_le _)
          refine consumes_andThen 1 0 (consumes_match _ st2 (by decide)) (fun st3 h3 => ?_)
            (Nat.zero_le _)
          exact ih.post_expression_loop _ (by simp only [print_tokens]; omega)
        · exact consumes_returns _ _ _ (le_refl _)
      · intro st hb
        simp only [cast_expression]
        split_ifs
        · refine consumes_andThen 1 0 (consumes_match _ st (by decide)) (fun st1 h1 => ?_)
            (le_refl _)
          by_cases hs : is_specifier st1 = true
          · rw [if_pos hs]
            have hspec : Consumes
                (if lookahead st1 = .INT then matchToken .INT st1
                 else if lookahead st1 = .LONG then matchToken .LONG st1
                 else if lookahead st1 = .STRUCT then matchToken .STRUCT st1
                 else some (.returns st1)) st1.tokens.length 0 := by
              split_ifs
              · exact consumes_weaken (consumes_match _ st1 (by decide)) (by omega)
              · exact consumes_weaken (consumes_match _ st1 (by decide)) (by omega)
              · exact consumes_weaken (consumes_match _ st1 (by decide)) (by omega)
              · exact consumes_returns _ _ _ (le_refl _)
            refine consumes_andThen 0 0 hspec (fun st2 h2 => ?_) (Nat.zero_le _)
            refine consumes_andThen 1 0 (consumes_match _ st2 (by decide))
              (fun st3 h3 => ?_) (Nat.zero_le _)
            refine consumes_andThen 1 0 (ih.expression st3 (by omega)) (fun st4 h4 => ?_)
              (Nat.zero_le _)
            exact consumes_returns _ _ _ (le_refl _)
          · rw [if_neg hs]
            refine consumes_andThen 1 0 (ih.expression st1 (by omega)) (fun st2 h2 => ?_)
              (Nat.zero_le _)
            exact consumes_weaken (consumes_match _ st2 (by decide)) (by omega)
        · exact general_expression_consumes st

/-- The loop of `main` ends: in `error`, or with the lookahead `DONE`. -/
theorem main_loop_ends : ∀ (fuel : Nat) (st : Input), 10 + 10 * st.tokens.length ≤ fuel →
    ∃ o, main_loop fuel st = some o ∧ ∀ st', o = .returns st' → lookahead st' = .DONE := by
  intro fuel
  induction fuel with
  | zero => exact fun _ h => absurd h (by omega)
  | succ fuel ih =>
      intro st hb
      simp only [main_loop]
      by_cases hdone : lookahead st = .DONE
      · rw [if_neg (by simpa using hdone)]
        exact ⟨_, rfl, fun st' h => by cases h; exact hdone⟩
      · rw [if_pos hdone]
        obtain ⟨o, ho, hp⟩ := (settled fuel).expression st (by omega)
        rw [ho]
        cases o with
        | fatal => exact ⟨.fatal, rfl, fun _ h => by cases h⟩
        | returns st1 =>
            have h1 := hp st1 rfl
            exact ih st1 (by omega)

/-- C25: parser progress.  With fuel in proportion to the length of the token stream,
a call of `expression()` has ended in `error` or has returned with fewer tokens left
than it started with, and `main`, which calls `expression()` until the lookahead is
`DONE`, has ended in `error` or returned with the lookahead `DONE`.  `match(token)`
advances the lookahead exactly when the lookahead equals `token` and ends in `error`
otherwise; an advance on a token other than `DONE` takes one token off the stream. -/
theorem parser_progress (tokens : List Token) (printed : List String) (fuel : Nat)
    (hfuel : 10 * (tokens.length + 1) ≤ fuel) :
    (∃ o, expression fuel ⟨tokens, printed⟩ = some o ∧
      ∀ st', o = .returns st' → st'.tokens.length < tokens.length) ∧
    (∃ o, main fuel tokens = some o ∧ ∀ st', o = .returns st' → lookahead st' = .DONE) ∧
    (∀ (token : Token) (st : Input),
      matchToken token st =
        if lookahead st = token then some (.returns (advance st)) else some .fatal) ∧
    (∀ (token : Token) (st : Input), lookahead st = token → token ≠ .DONE →
      (advance st).tokens.length + 1 = st.tokens.length) := by
  refine ⟨?_, ?_, fun _ _ => rfl, fun token st => advance_length st token⟩
  · obtain ⟨o, ho, hp⟩ := (settled fuel).expression ⟨tokens, printed⟩
      (by simp only; omega)
    exact ⟨o, ho, fun st' h => Nat.lt_of_succ_le (hp st' h)⟩
  · exact main_loop_ends fuel ⟨tokens, []⟩ (by simp only; omega)

/-- C25 at a concrete stream: `NUM + NUM` with fuel 40. -/
theorem parser_progress_witness :
    10 * ([Token.NUM, Token.plus, Token.NUM].length + 1) ≤ 40 ∧
    ∃ o, main 40 [Token.NUM, Token.plus, Token.NUM] = some o ∧
      ∀ st', o = .returns st' → lookahead st' = .DONE := by
  refine ⟨by decide, ?_⟩
  exact (parser_progress [Token.NUM, Token.plus, Token.NUM] [] 40 (by decide)).2.1

end Parser
end SimpleC
